import Mathlib

/-!
# Cresta weather-sensor kernel module: decoder, validator and sensor registry

A shallow embedding of `cresta_interrupthandler.c` (Manchester decoder),
`cresta_sensor_mgmt.c` (validator / decryptor and sensor registry) and the part of
`cresta_chardevice.c` the registry calls into (`make_device_entry`).

Conventions of the embedding
* `uint8_t` / `uint32_t` values are natural numbers; every place where the C code can
  wrap or truncate carries an explicit `% 256` or `% 2 ^ 32`.
* The static variables of the decoder are the fields of `DecoderState`; a call of
  `cresta_manchester_decoder` is a function from the old state and the duration to the
  new state and the packet handed to `kfifo_in` (if any).
* Sensors live in a heap (`kmalloc`); a pointer is an index into that heap and `NULL`
  is `none`.  The RCU list `cresta_sensor_list` is a list of pointers, head first.
* Results of the environment (`kmalloc`, `kzalloc`, `cdev_add`, the clock) are inputs.
-/

namespace Cresta

/-! ## Constants (`cresta_common.h`) -/

/-- Maximum length of a datagram including prefix and checksum bytes. -/
def CRESTA_MAXDATA_LEN : Nat := 14
/-- Minimum length of sensor data announced in sensor datagrams. -/
def CRESTA_MIN_ANNOUNCED_LEN : Nat := 6
/-- Maximum length of sensor data announced in sensor datagrams. -/
def CRESTA_MAX_ANNOUNCED_LEN : Nat := 11

/-! ## Manchester decoder (`cresta_interrupthandler.c`) -/

/-- The static variables of the Manchester decoder. -/
structure DecoderState where
  /-- Static `uint8_t halfBit`. -/
  halfBit : Nat
  /-- Static `uint32_t clockTime`. -/
  clockTime : Nat
  /-- Static `bool isOne`. -/
  isOne : Bool
  /-- Static `uint8_t packageLength`. -/
  packageLength : Nat
  /-- Static `uint8_t data[CRESTA_MAXDATA_LEN]`. -/
  data : List Nat
  /-- Static `uint8_t halfBitCounter`. -/
  halfBitCounter : Nat
deriving DecidableEq, Repr

/-- The decoder variables when the module is loaded: statics are zero, except
`halfBitCounter = ~0`. -/
def DecoderState.init : DecoderState :=
  { halfBit := 0, clockTime := 0, isOne := false, packageLength := 0,
    data := List.replicate 14 0, halfBitCounter := 0xFF }

/-- Function `reset_manchester_decoder` (lines 58-63). -/
def reset_manchester_decoder (s : DecoderState) (duration : Nat) : DecoderState :=
  { s with halfBit := 1, clockTime := duration >>> 1, isOne := true, halfBitCounter := 0xFF }

/-- Lines 122-145: the bit write at an odd half-bit index.  `none` is the framing
violation (ninth bit is 1), which makes the caller reset and leave.  The mask
`~(1 << currentBit)`, stored back into a `uint8_t`, is `255 ^^^ (1 <<< currentBit)`. -/
def write_bit (s : DecoderState) : Option DecoderState :=
  let currentByte := s.halfBit / 18
  let currentBit := (s.halfBit >>> 1) % 9
  if currentBit < 8 then
    if currentByte < CRESTA_MAXDATA_LEN then
      if s.isOne then
        some { s with
          data := s.data.set currentByte
            ((s.data.getD currentByte 0 ||| (1 <<< currentBit)) % 256) }
      else
        some { s with
          data := s.data.set currentByte
            (s.data.getD currentByte 0 &&& (255 ^^^ (1 <<< currentBit))) }
    else some s
  else
    if s.isOne then none else some s

/-- Lines 148-170: preamble check at half-bit 17 and length announcement at half-bit 53.
The flag is false when a check fails, which makes the caller reset and leave; the length
read at half-bit 53 is stored in `packageLength` before it is checked. -/
def check_header (s : DecoderState) : DecoderState × Bool :=
  if s.halfBit = 17 then
    if s.data.getD 0 0 ≠ 0x75 then (s, false) else (s, true)
  else if s.halfBit = 53 then
    let decodedByte := (s.data.getD 2 0 ^^^ (s.data.getD 2 0 <<< 1)) % 256
    let packageLength := (decodedByte >>> 1) &&& 0x1f
    if packageLength < CRESTA_MIN_ANNOUNCED_LEN ∨ packageLength > CRESTA_MAX_ANNOUNCED_LEN then
      ({ s with packageLength := packageLength }, false)
    else
      ({ s with packageLength := packageLength,
                halfBitCounter := ((packageLength + 3) * 9 * 2 - 2 - 1) % 256 }, true)
  else (s, true)

/-- Lines 179-193: what is handed to `kfifo_in` when the half-bit index has reached the
completion target. -/
def emit_packet (s : DecoderState) : Option (List Nat) :=
  if s.halfBitCounter ≠ 0xFF then
    let lengthSanity := (s.data.getD 2 0 ^^^ (s.data.getD 2 0 <<< 1)) % 256
    let lengthSanity := (lengthSanity >>> 1) &&& 0x1f
    if s.data.getD 0 0 = 0x75 ∧ lengthSanity ≥ CRESTA_MIN_ANNOUNCED_LEN
        ∧ lengthSanity ≤ CRESTA_MAX_ANNOUNCED_LEN then
      some s.data
    else none
  else none

/-- Lines 201-210: a long edge flips the polarity and takes two half-bits. -/
def advance (s : DecoderState) (duration : Nat) : DecoderState :=
  let s := if duration > (s.clockTime + (s.clockTime >>> 1)) % 2 ^ 32 then
      { s with isOne := !s.isOne, halfBit := (s.halfBit + 1) % 256 }
    else s
  { s with halfBit := (s.halfBit + 1) % 256 }

/-- Function `cresta_manchester_decoder` (lines 83-218): the new decoder state and the
raw packet queued by this call, if any. -/
def cresta_manchester_decoder (s : DecoderState) (duration : Nat) :
    DecoderState × Option (List Nat) :=
  if s.halfBit = 0 then
    let s := { s with clockTime := duration >>> 1 }
    if s.clockTime < 200 ∨ s.clockTime > 1000 then (s, none)
    else ({ s with isOne := true, halfBit := (s.halfBit + 1) % 256 }, none)
  else
    if duration < (s.clockTime >>> 1)
        ∨ duration > ((s.clockTime <<< 1) % 2 ^ 32 + s.clockTime) % 2 ^ 32 then
      (reset_manchester_decoder s duration, none)
    else if s.halfBit &&& 1 ≠ 0 then
      match write_bit s with
      | none => (reset_manchester_decoder s duration, none)
      | some s =>
        match check_header s with
        | (s, false) => (reset_manchester_decoder s duration, none)
        | (s, true) =>
          if s.halfBit ≥ s.halfBitCounter then
            ({ reset_manchester_decoder s duration with halfBit := 0 }, emit_packet s)
          else (advance s duration, none)
    else (advance s duration, none)

/-- Feed a sequence of edge durations, collecting the decoder output of every call. -/
def feed (s : DecoderState) : List Nat → DecoderState × List (Option (List Nat))
  | [] => (s, [])
  | d :: ds =>
    let r := cresta_manchester_decoder s d
    let rest := feed r.1 ds
    (rest.1, r.2 :: rest.2)

/-! ## Validator / decryptor (`cresta_sensor_mgmt.c`) -/

/-- Function `second_check` (lines 101-117). -/
def second_check (b : Nat) : Nat :=
  let b := if b &&& 0x80 ≠ 0 then (b ^^^ 0x95) % 256 else b
  let c := (b ^^^ (b >>> 1)) % 256
  let c := if b &&& 1 ≠ 0 then (c ^^^ 0x5f) % 256 else c
  let b := if c &&& 1 ≠ 0 then (b ^^^ 0x5f) % 256 else b
  (b ^^^ (c >>> 1)) % 256

/-- The loop variables of `decrypt_and_check`: the buffer and the two checksums. -/
structure DecryptLoop where
  /-- The buffer `raw_data`, rewritten in place. -/
  raw_data : List Nat
  /-- Checksum A. -/
  cs1 : Nat
  /-- Checksum B. -/
  cs2 : Nat
deriving DecidableEq, Repr

/-- One iteration of the loop of `decrypt_and_check` (lines 137-139). -/
def decrypt_step (st : DecryptLoop) (i : Nat) : DecryptLoop :=
  { cs1 := (st.cs1 ^^^ st.raw_data.getD i 0) % 256,
    cs2 := second_check ((st.raw_data.getD i 0 ^^^ st.cs2) % 256),
    raw_data := st.raw_data.set i
      ((st.raw_data.getD i 0 ^^^ (st.raw_data.getD i 0 <<< 1)) % 256) }

/-- Function `decrypt_and_check` (lines 122-155): the buffer afterwards and the returned
`bool`; `return -1` is `true` (failure), `return 0` is `false` (accepted). -/
def decrypt_and_check (raw_data : List Nat) : List Nat × Bool :=
  let decodedByte := (raw_data.getD 2 0 ^^^ (raw_data.getD 2 0 <<< 1)) % 256
  let packet_length := (decodedByte >>> 1) &&& 0x1f
  if packet_length ≥ CRESTA_MIN_ANNOUNCED_LEN ∧ packet_length ≤ CRESTA_MAX_ANNOUNCED_LEN then
    -- for (i = 1; i < packet_length + 2; i++)
    let st := (List.range' 1 (packet_length + 1)).foldl decrypt_step
      { raw_data := raw_data, cs1 := 0, cs2 := 0 }
    if st.cs1 ≠ 0 then (st.raw_data, true)
    else if st.cs2 ≠ st.raw_data.getD (packet_length + 2) 0 then (st.raw_data, true)
    else (st.raw_data, false)
  else (raw_data, true)

/-! ## The Manchester line code, as the specification describes a valid edge sequence -/

/-- The eight data bits of a byte, least significant bit first. -/
def byteBits (b : Nat) : List Bool :=
  (List.range 8).map (fun k => b.testBit k)

/-- The bit stream of a frame: the bytes in order, each sent least significant bit first,
every byte but the last followed by a 0 framing bit. -/
def frameBits : List Nat → List Bool
  | [] => []
  | [b] => byteBits b
  | b :: b2 :: bs => byteBits b ++ false :: frameBits (b2 :: bs)

/-- The edges that carry the bits after the first one: a bit equal to its predecessor is
two short edges of `C`, a bit that differs is one long edge of `2 * C`. -/
def bitEdges (C : Nat) : Bool → List Bool → List Nat
  | _, [] => []
  | prev, b :: bs => (if b = prev then [C, C] else [2 * C]) ++ bitEdges C b bs

/-- The edge durations that encode the frame `p` with clock period `C`: one sync edge of
`2 * C`, the edges of the bit stream, and one closing edge. -/
def manchesterEdges (C : Nat) (p : List Nat) (closing : Nat) : List Nat :=
  match frameBits p with
  | [] => []
  | b :: bs => 2 * C :: (bitEdges C b bs ++ [closing])

/-- The announced length carried by a length byte:
`(((b XOR (b << 1)) mod 256) >> 1) AND 0x1F`. -/
def announcedLength (b : Nat) : Nat :=
  (((b ^^^ (b <<< 1)) % 256) >>> 1) &&& 0x1F

/-! ## Data model of the registry (`cresta_common.h`, `cresta_chardevice.h`) -/

/-- Mask that selects the channel bits of a sensor address. -/
def CRESTA_SENSOR_ADDR_MASK : Nat := 0xE0
/-- Address mask: thermo-hygro sensor on channel 1. -/
def CRESTA_AM_THERMOHYGRO_CH1 : Nat := 0x20
/-- Address mask: thermo-hygro sensor on channel 2. -/
def CRESTA_AM_THERMOHYGRO_CH2 : Nat := 0x40
/-- Address mask: thermo-hygro sensor on channel 3. -/
def CRESTA_AM_THERMOHYGRO_CH3 : Nat := 0x60
/-- Address mask: thermo-hygro sensor on channel 4. -/
def CRESTA_AM_THERMOHYGRO_CH4 : Nat := 0xA0
/-- Address mask: thermo-hygro sensor on channel 5. -/
def CRESTA_AM_THERMOHYGRO_CH5 : Nat := 0xC0
/-- Sensor type: anemometer. -/
def CRESTA_SENSOR_TYPE_ANEMOMETER : Nat := 0x0C
/-- Sensor type: UV sensor. -/
def CRESTA_SENSOR_TYPE_UV : Nat := 0x0D
/-- Sensor type: rain sensor. -/
def CRESTA_SENSOR_TYPE_RAIN : Nat := 0x0E
/-- Sensor type: thermo-hygro sensor. -/
def CRESTA_SENSOR_TYPE_THERMOHYGRO : Nat := 0x1E

/-- The `struct measurement` exported to user space. -/
structure measurement where
  /-- Field `uint64_t measurement_time_seconds`. -/
  measurement_time_seconds : Nat
  /-- Field `uint8_t decrypted_data[CRESTA_MAXDATA_LEN]`. -/
  decrypted_data : List Nat
deriving DecidableEq, Repr

/-- The `struct cresta_measurement_data`. -/
structure cresta_measurement_data where
  /-- Field `uint8_t sensor_address`. -/
  sensor_address : Nat
  /-- Field `uint8_t len`. -/
  len : Nat
  /-- Field `uint8_t sensor_type`. -/
  sensor_type : Nat
  /-- Field `struct measurement measurement`. -/
  measurement : measurement
deriving DecidableEq, Repr

/-- The `struct cresta_dev`.  The list links are the module's `cresta_sensor_list`, the
mutex carries no data, and the `cdev` / `dev` members are the device node recorded in
`Module.devices`; a measurement record is owned by its sensor and held by value. -/
structure cresta_dev where
  /-- Field `uint8_t sensor_addr`. -/
  sensor_addr : Nat
  /-- Field `uint8_t sensor_type`. -/
  sensor_type : Nat
  /-- Field `current_data`, `NULL` before the first measurement. -/
  current_data : Option cresta_measurement_data
deriving DecidableEq, Repr

/-- The `struct cresta_sensor_counts` (all `uint8_t`). -/
structure cresta_sensor_counts where
  /-- Thermo-hygro sensors seen on channel 1. -/
  thermohygro_ch1_count : Nat
  /-- Thermo-hygro sensors seen on channel 2. -/
  thermohygro_ch2_count : Nat
  /-- Thermo-hygro sensors seen on channel 3. -/
  thermohygro_ch3_count : Nat
  /-- Thermo-hygro sensors seen on channel 4. -/
  thermohygro_ch4_count : Nat
  /-- Thermo-hygro sensors seen on channel 5. -/
  thermohygro_ch5_count : Nat
  /-- Anemometers seen. -/
  anemometer_count : Nat
  /-- UV sensors seen. -/
  uv_count : Nat
  /-- Rain sensors seen. -/
  rain_count : Nat
deriving DecidableEq, Repr

/-- The global state of the module outside the decoder. -/
structure Module where
  /-- Sensors allocated with `kmalloc`: a pointer is an index, a freed slot is `none`. -/
  heap : List (Option cresta_dev)
  /-- The list `cresta_sensor_list`: pointers to sensors, head first. -/
  cresta_sensor_list : List Nat
  /-- The counters `sensor_counts` of `cresta_chardevice.c`. -/
  sensor_counts : cresta_sensor_counts
  /-- Device nodes made by `device_create`: minor number and name, oldest first. -/
  devices : List (Nat × String)
  /-- The FIFO `rawdata_kfifo`: the queued records, oldest first (its capacity of
  `CRESTA_KFIFO_SIZE` bytes is not modelled). -/
  rawdata_kfifo : List (List Nat)
deriving DecidableEq, Repr

/-- The module state after `cresta_interrupthandler_init`. -/
def Module.init : Module :=
  { heap := [], cresta_sensor_list := [],
    sensor_counts := ⟨0, 0, 0, 0, 0, 0, 0, 0⟩, devices := [], rawdata_kfifo := [] }

/-- What the kernel answers during one pass through the work function. -/
structure Env where
  /-- Whether `kzalloc` of the measurement record succeeds. -/
  kzalloc_ok : Bool
  /-- Whether `kmalloc` of a sensor succeeds. -/
  kmalloc_ok : Bool
  /-- Whether `cdev_add` succeeds. -/
  cdev_add_ok : Bool
  /-- Seconds returned by `getnstimeofday`. -/
  now : Nat
deriving DecidableEq, Repr

/-- Dereference a sensor pointer; `none` for a pointer that is not live. -/
def Module.deref (k : Module) (p : Nat) : Option cresta_dev :=
  k.heap.getD p none

/-! ## Device nodes (`cresta_chardevice.c`) -/

/-- The name format of `make_device_entry`: the bare name when the incremented counter is
1 (`"%s"`), otherwise the name followed by `_` and a number (`"%s_%d"`). -/
def device_name (count : Nat) (name : String) (n : Nat) : String :=
  if count = 1 then name else name ++ "_" ++ toString n

/-- The `switch` of `make_device_entry` (lines 260-321): the counter of the sensor's kind
is incremented (`uint8_t`) and the name of the device node is chosen; no node is made
for a sensor of an unknown type or a thermo-hygro sensor outside the five channels. -/
def count_and_name (c : cresta_sensor_counts) (d : cresta_dev) :
    cresta_sensor_counts × Option String :=
  if d.sensor_type = CRESTA_SENSOR_TYPE_ANEMOMETER then
    let n := (c.anemometer_count + 1) % 256
    ({ c with anemometer_count := n }, some (device_name n "cresta_anemometer" (n + 1)))
  else if d.sensor_type = CRESTA_SENSOR_TYPE_UV then
    let n := (c.uv_count + 1) % 256
    ({ c with uv_count := n }, some (device_name n "cresta_uv" n))
  else if d.sensor_type = CRESTA_SENSOR_TYPE_RAIN then
    let n := (c.rain_count + 1) % 256
    ({ c with rain_count := n },
      some (if n = 1 then "cresta_rain" else "cresta_uv" ++ "_" ++ toString n))
  else if d.sensor_type = CRESTA_SENSOR_TYPE_THERMOHYGRO then
    if d.sensor_addr &&& CRESTA_SENSOR_ADDR_MASK = CRESTA_AM_THERMOHYGRO_CH5 then
      let n := (c.thermohygro_ch5_count + 1) % 256
      ({ c with thermohygro_ch5_count := n }, some (device_name n "cresta_thermohygro_ch5" n))
    else if d.sensor_addr &&& CRESTA_SENSOR_ADDR_MASK = CRESTA_AM_THERMOHYGRO_CH4 then
      let n := (c.thermohygro_ch4_count + 1) % 256
      ({ c with thermohygro_ch4_count := n }, some (device_name n "cresta_thermohygro_ch4" n))
    else if d.sensor_addr &&& CRESTA_SENSOR_ADDR_MASK = CRESTA_AM_THERMOHYGRO_CH3 then
      let n := (c.thermohygro_ch3_count + 1) % 256
      ({ c with thermohygro_ch3_count := n }, some (device_name n "cresta_thermohygro_ch3" n))
    else if d.sensor_addr &&& CRESTA_SENSOR_ADDR_MASK = CRESTA_AM_THERMOHYGRO_CH2 then
      let n := (c.thermohygro_ch2_count + 1) % 256
      ({ c with thermohygro_ch2_count := n }, some (device_name n "cresta_thermohygro_ch2" n))
    else if d.sensor_addr &&& CRESTA_SENSOR_ADDR_MASK = CRESTA_AM_THERMOHYGRO_CH1 then
      let n := (c.thermohygro_ch1_count + 1) % 256
      ({ c with thermohygro_ch1_count := n }, some (device_name n "cresta_thermohygro_ch1" n))
    else (c, none)
  else (c, none)

/-- Function `make_device_entry` (lines 234-323).  The device number is
`MKDEV(major, sensor_addr)`; `device_create` is recorded in `devices` with the minor number
and the formatted name.  Nothing is done when `cdev_add` fails. -/
def make_device_entry (k : Module) (cdev_add_ok : Bool) (crestadev : Nat) : Module :=
  match k.deref crestadev with
  | none => k
  | some d =>
    if cdev_add_ok then
      { k with
        sensor_counts := (count_and_name k.sensor_counts d).1,
        devices :=
          match (count_and_name k.sensor_counts d).2 with
          | some name => k.devices ++ [(d.sensor_addr, name)]
          | none => k.devices }
    else k

/-! ## Sensor registry (`cresta_sensor_mgmt.c`) -/

/-- Function `get_cresta_sensor_by_address` (lines 215-235): the first sensor of the list
with the given address, or `NULL`. -/
def get_cresta_sensor_by_address (k : Module) (sensor_addr : Nat) : Option Nat :=
  k.cresta_sensor_list.find? fun p =>
    match k.deref p with
    | some d => d.sensor_addr == sensor_addr
    | none => false

/-- Function `create_cresta_sensor` (lines 242-254); `kmalloc` returns a fresh pointer, or
`NULL` when `kmalloc_ok` is false. -/
def create_cresta_sensor (k : Module) (kmalloc_ok : Bool) (sensor_addr sensor_type : Nat) :
    Module × Option Nat :=
  if kmalloc_ok then
    ({ k with heap := k.heap ++
        [some { sensor_addr := sensor_addr, sensor_type := sensor_type, current_data := none }] },
      some k.heap.length)
  else (k, none)

/-- Function `add_cresta_sensor_to_sensor_list` (lines 263-317).  A pointer that is neither
`NULL` nor live has no meaning in C; the model leaves the list alone and returns -2. -/
def add_cresta_sensor_to_sensor_list (k : Module) (new_sensor : Option Nat) : Module × Int :=
  match new_sensor with
  | some p =>
    match k.deref p with
    | some d =>
      if (get_cresta_sensor_by_address k d.sensor_addr).isSome then (k, -1)
      else ({ k with cresta_sensor_list := p :: k.cresta_sensor_list }, 0)
    | none => (k, -2)
  | none => (k, -2)

/-- Function `delete_cresta_sensor` (lines 325-330): frees the sensor and its data. -/
def delete_cresta_sensor (k : Module) (sensor : Nat) : Module :=
  { k with heap := k.heap.set sensor none }

/-- Function `update_cresta_sensor_data` (lines 198-208): the new record replaces the
sensor's current one (the old record is freed after the grace period).  A pointer that is
not live has no meaning in C; the model leaves the state alone. -/
def update_cresta_sensor_data (k : Module) (sensor : Nat)
    (new_data : cresta_measurement_data) : Module × Int :=
  match k.deref sensor with
  | some d => ({ k with heap := k.heap.set sensor (some { d with current_data := some new_data }) }, 0)
  | none => (k, 0)

/-- Function `handle_decrypted_sensor_data` (lines 163-192). -/
def handle_decrypted_sensor_data (k : Module) (e : Env) (data : cresta_measurement_data) :
    Module × Int :=
  match get_cresta_sensor_by_address k data.sensor_address with
  | some sensor => update_cresta_sensor_data k sensor data
  | none =>
    match create_cresta_sensor k e.kmalloc_ok data.sensor_address data.sensor_type with
    | (k, none) => (k, -1)
    | (k, some sensor) =>
      match add_cresta_sensor_to_sensor_list k (some sensor) with
      | (k, 0) => update_cresta_sensor_data (make_device_entry k e.cdev_add_ok sensor) sensor data
      | (k, _) => (delete_cresta_sensor k sensor, -1)

/-- Function `get_sensor_address_from_decrypted_data` (lines 337-339). -/
def get_sensor_address_from_decrypted_data (decrypted_data : List Nat) : Nat :=
  decrypted_data.getD 1 0

/-- Function `get_packet_length_from_decrypted_data` (lines 344-351). -/
def get_packet_length_from_decrypted_data (decrypted_data : List Nat) : Nat :=
  (((decrypted_data.getD 2 0 >>> 1) &&& 0x1F) + 1) % 256

/-- Function `get_sensor_type_from_decrypted_data` (lines 356-363). -/
def get_sensor_type_from_decrypted_data (decrypted_data : List Nat) : Nat :=
  decrypted_data.getD 3 0 &&& 0x1F

/-- One pass through the loop body of `handle_encrypted_sensor_data` (lines 65-92), the
FIFO being non-empty.  When `kzalloc` fails nothing is taken from the FIFO. -/
def handle_encrypted_record (k : Module) (e : Env) : Module :=
  if e.kzalloc_ok then
    match k.rawdata_kfifo with
    | [] => k
    | raw :: rest =>
      let k := { k with rawdata_kfifo := rest }
      if raw.length = CRESTA_MAXDATA_LEN then
        let r := decrypt_and_check raw
        if !r.2 then
          (handle_decrypted_sensor_data k e
            { sensor_address := get_sensor_address_from_decrypted_data r.1,
              len := get_packet_length_from_decrypted_data r.1,
              sensor_type := get_sensor_type_from_decrypted_data r.1,
              measurement := { measurement_time_seconds := e.now, decrypted_data := r.1 } }).1
        else k
      else k
  else k

/-- Function `handle_encrypted_sensor_data` (lines 61-96): the loop runs while the FIFO
is non-empty; `es` lists what the kernel answers in each pass. -/
def handle_encrypted_sensor_data (k : Module) : List Env → Module
  | [] => k
  | e :: es =>
    if k.rawdata_kfifo.isEmpty then k
    else handle_encrypted_sensor_data (handle_encrypted_record k e) es

/-- The `kfifo_in(&rawdata_kfifo, data, sizeof(data))` of the decoder, for every packet a
run of the decoder has emitted. -/
def queue_packets (k : Module) (out : List (Option (List Nat))) : Module :=
  { k with rawdata_kfifo := k.rawdata_kfifo ++ out.reduceOption }

/-! ## The checksums, as the specification describes them -/

/-- The unscrambling transform `u(b) = (b XOR (b << 1)) mod 256`. -/
def unscramble (b : Nat) : Nat :=
  (b ^^^ (b <<< 1)) % 256

/-- Checksum A over the original bytes: the XOR of `raw[1..L+1]`. -/
def checksumA (raw : List Nat) (L : Nat) : Nat :=
  (List.range' 1 (L + 1)).foldl (fun cs1 i => cs1 ^^^ raw.getD i 0) 0

/-- Checksum B over the original bytes: `cs2 := second_check (raw[i] XOR cs2)` folded over
`i = 1..L+1`, starting from 0. -/
def checksumB (raw : List Nat) (L : Nat) : Nat :=
  (List.range' 1 (L + 1)).foldl (fun cs2 i => second_check (raw.getD i 0 ^^^ cs2)) 0

/-- A raw packet: 14 bytes. -/
def IsPacket (raw : List Nat) : Prop :=
  raw.length = 14 ∧ ∀ b ∈ raw, b < 256

instance (raw : List Nat) : Decidable (IsPacket raw) := by
  unfold IsPacket; infer_instance

/-! ## Registry properties, as the specification states them -/

/-- The address of the sensor a pointer refers to. -/
def Module.addrOf (k : Module) (p : Nat) : Option Nat :=
  (k.deref p).map (fun d => d.sensor_addr)

/-- Every pointer in the sensor list refers to a live sensor. -/
def Module.WF (k : Module) : Prop :=
  ∀ p ∈ k.cresta_sensor_list, (k.deref p).isSome = true

instance (k : Module) : Decidable k.WF := by
  unfold Module.WF; infer_instance

/-- No two sensors in the list share an address. -/
def Module.UniqueAddresses (k : Module) : Prop :=
  (k.cresta_sensor_list.map k.addrOf).Nodup

instance (k : Module) : Decidable k.UniqueAddresses := by
  unfold Module.UniqueAddresses; infer_instance

/-- The module state once a new sensor has been allocated and put at the head of the list. -/
def withNewSensor (k : Module) (sensor_addr sensor_type : Nat) : Module :=
  { k with
    heap := k.heap ++
      [some { sensor_addr := sensor_addr, sensor_type := sensor_type, current_data := none }],
    cresta_sensor_list := k.heap.length :: k.cresta_sensor_list }

/-! ## Decoder properties, as the specification states them -/

/-- The edge is within tolerance for the recovered clock `c`: not shorter than half a
clock and not longer than three clocks, as the decoder computes the bounds. -/
def InTolerance (c d : Nat) : Prop :=
  ¬ (d < (c >>> 1) ∨ d > ((c <<< 1) % 2 ^ 32 + c) % 2 ^ 32)

instance (c d : Nat) : Decidable (InTolerance c d) := by
  unfold InTolerance; infer_instance

/-- Bit `n` of the bit stream of the frame `p`: position `n % 9` of byte `n / 9`, where
positions 0..7 are the data bits, least significant first, and position 8 is the framing
bit 0. -/
def bitAt (p : List Nat) (n : Nat) : Bool :=
  if n % 9 < 8 then (p.getD (n / 9) 0).testBit (n % 9) else false

/-- The value of a byte after the decoder has written the bit `b` at position `k`. -/
def putBit (x k : Nat) (b : Bool) : Nat :=
  if b then (x ||| (1 <<< k)) % 256 else x &&& (255 ^^^ (1 <<< k))

/-- The buffer while a frame is being received: 14 bytes, the first `n` bits of the
stream of `p` are in place and the bytes not reached yet are those of `data0`. -/
def DataOK (p data0 : List Nat) (n : Nat) (data : List Nat) : Prop :=
  data.length = 14 ∧ (∀ b ∈ data, b < 256) ∧
  (∀ m, m < n → m % 9 < 8 → (data.getD (m / 9) 0).testBit (m % 9) = bitAt p m) ∧
  (∀ j, n ≤ 9 * j → data.getD j 0 = data0.getD j 0)

/-- The decoder is synchronised on the frame `p` with clock `C` and waits for the edge
that completes bit `n`; `hbc0` is the completion target it had when the frame began. -/
def Synced (C : Nat) (p data0 : List Nat) (hbc0 n : Nat) (s : DecoderState) : Prop :=
  s.halfBit = 2 * n + 1 ∧ s.clockTime = C ∧ s.isOne = bitAt p n ∧
  DataOK p data0 n s.data ∧
  s.halfBitCounter = if n ≤ 26 then hbc0 else (announcedLength (p.getD 2 0) + 3) * 18 - 3

/-- A frame: `L + 3` bytes that start with the preamble 0x75 and announce the length `L`
in byte 2, with `L` in [6,11]. -/
def IsFrame (p : List Nat) : Prop :=
  (∀ b ∈ p, b < 256) ∧ p.getD 0 0 = 0x75 ∧
  6 ≤ announcedLength (p.getD 2 0) ∧ announcedLength (p.getD 2 0) ≤ 11 ∧
  p.length = announcedLength (p.getD 2 0) + 3

instance (p : List Nat) : Decidable (IsFrame p) := by
  unfold IsFrame; infer_instance

/-- The decoder states the module can be in: the state at load time and every state a
call of `cresta_manchester_decoder` with a 32-bit duration leads to. -/
inductive Reachable : DecoderState → Prop
  | init : Reachable DecoderState.init
  | step (s : DecoderState) (d : Nat) :
      Reachable s → d < 2 ^ 32 → Reachable (cresta_manchester_decoder s d).1

/-- What every call of the decoder preserves: the buffer holds 14 bytes and the
completion target is the sentinel 0xFF or a target in [159,249]. -/
def DecoderInv (s : DecoderState) : Prop :=
  s.data.length = 14 ∧ (∀ b ∈ s.data, b < 256) ∧
  (s.halfBitCounter = 0xFF ∨ (159 ≤ s.halfBitCounter ∧ s.halfBitCounter ≤ 249))

/-! ## A reference frame -/

/-- A thermo-hygro frame on channel 1 (decrypted address 0x20, type 0x1E, length 6): the
preamble, six scrambled bytes, checksum A and checksum B. -/
def thermoHygroFrame : List Nat := [0x75, 0xe0, 0x44, 0x0a, 0xe1, 0xbf, 0xc3, 0x33, 0x60]

/-- The frame `thermoHygroFrame` in the 14-byte buffer of the decoder. -/
def thermoHygroPacket : List Nat :=
  [0x75, 0xe0, 0x44, 0x0a, 0xe1, 0xbf, 0xc3, 0x33, 0x60, 0, 0, 0, 0, 0]

/-- The loop of `decrypt_and_check` run on a packet with the length its byte 2 announces. -/
def decryptLoop (raw : List Nat) : DecryptLoop :=
  (List.range' 1 (announcedLength (raw.getD 2 0) + 1)).foldl decrypt_step
    { raw_data := raw, cs1 := 0, cs2 := 0 }

/-- A registry that holds one thermo-hygro sensor with address 0x20 and no measurement. -/
def oneSensor : Module :=
  { heap := [some ⟨0x20, 0x1E, none⟩], cresta_sensor_list := [0],
    sensor_counts := ⟨1, 0, 0, 0, 0, 0, 0, 0⟩,
    devices := [(0x20, "cresta_thermohygro_ch1")], rawdata_kfifo := [] }

/-- The measurement record that the work function builds from the reference packet at
time `now`. -/
def thermoHygroData (now : Nat) : cresta_measurement_data :=
  { sensor_address := 0x20, len := 7, sensor_type := 0x1E,
    measurement :=
      { measurement_time_seconds := now,
        decrypted_data := [0x75, 0x20, 0xcc, 0x1e, 0x23, 0xc1, 0x45, 0x55, 0x60, 0, 0, 0, 0, 0] } }

/-- A kernel in which every allocation and `cdev_add` succeed, at time `now`. -/
def Env.ok (now : Nat) : Env :=
  { kzalloc_ok := true, kmalloc_ok := true, cdev_add_ok := true, now := now }

/-- A frame in the 14-byte buffer of an idle decoder with a zeroed buffer: the frame
followed by zeros. -/
def padded (p : List Nat) : List Nat :=
  p ++ List.replicate (14 - p.length) 0

/-- The pipeline: the edges of the frame `p` are fed to the decoder in state `s`, the
packets it hands over are queued in `rawdata_kfifo`, and the work function
`handle_encrypted_sensor_data` runs once, the kernel answering `e`. -/
def endToEnd (s : DecoderState) (k : Module) (e : Env) (C : Nat) (p : List Nat)
    (closing : Nat) : Module :=
  handle_encrypted_sensor_data
    (queue_packets k (feed s (manchesterEdges C p closing)).2) [e]

/-- A framing failure, as the specification lists them, for an edge of duration `d`
arriving at a decoder that is not idle: the edge is out of tolerance, or it is in
tolerance and the framing bit decoded as 1, the preamble does not match at half-bit 17,
or the length derived at half-bit 53 is out of range. -/
def FramingFailure (s : DecoderState) (d : Nat) : Prop :=
  s.halfBit ≠ 0 ∧
  (¬ InTolerance s.clockTime d ∨
    (InTolerance s.clockTime d ∧
      ((s.halfBit &&& 1 = 1 ∧ (s.halfBit >>> 1) % 9 = 8 ∧ s.isOne = true) ∨
       (s.halfBit = 17 ∧ s.data.getD 0 0 ≠ 0x75) ∨
       (s.halfBit = 53 ∧
         (announcedLength (s.data.getD 2 0) < 6 ∨ announcedLength (s.data.getD 2 0) > 11)))))

instance (s : DecoderState) (d : Nat) : Decidable (FramingFailure s d) := by
  unfold FramingFailure; infer_instance

/-- Lines 168-191 of `handle_decrypted_sensor_data`: what the function does once the
lookup of line 167 has returned `sensor`.  When several contexts run the function, the
list may have changed between a context's lookup and the rest of its call; the mutex
makes the check-and-insert of `add_cresta_sensor_to_sensor_list` one step. -/
def handle_decrypted_after_lookup (k : Module) (e : Env) (data : cresta_measurement_data)
    (sensor : Option Nat) : Module × Int :=
  match sensor with
  | some sensor => update_cresta_sensor_data k sensor data
  | none =>
    match create_cresta_sensor k e.kmalloc_ok data.sensor_address data.sensor_type with
    | (k, none) => (k, -1)
    | (k, some sensor) =>
      match add_cresta_sensor_to_sensor_list k (some sensor) with
      | (k, 0) => update_cresta_sensor_data (make_device_entry k e.cdev_add_ok sensor) sensor data
      | (k, _) => (delete_cresta_sensor k sensor, -1)

/-! ## Reading a sensor device (`cresta_chardevice.c`) -/

/-- Error number `EFAULT`. -/
def EFAULT : Int := 14
/-- Error number `ERESTARTSYS`. -/
def ERESTARTSYS : Int := 512

/-- The value of `sizeof(struct measurement)`: 8 bytes of `uint64_t`, 14 bytes of payload
and `pad` bytes of tail padding.  The size of a structure is a multiple of its alignment,
so `pad` is 2 wherever `uint64_t` is aligned to 4 or 8 bytes and 0 only for a packed
layout. -/
def sizeof_measurement (pad : Nat) : Nat :=
  8 + 14 + pad

/-- The bytes of a `uint64_t` in memory, least significant byte first. -/
def uint64_bytes (t : Nat) : List Nat :=
  (List.range 8).map (fun i => (t >>> (8 * i)) % 256)

/-- The bytes of a `struct measurement` in memory: the timestamp, the payload and the tail
padding (zero, the records being allocated with `kzalloc`). -/
def measurement_bytes (pad : Nat) (m : measurement) : List Nat :=
  uint64_bytes m.measurement_time_seconds ++ m.decrypted_data ++ List.replicate pad 0

/-- The part of a `struct file` the driver uses. -/
structure file where
  /-- The reader's copy `filp->private_data`; `NULL` is `none`. -/
  private_data : Option measurement
  /-- The file position `filp->f_pos`. -/
  f_pos : Nat
deriving DecidableEq, Repr

/-- Function `cresta_open` (lines 90-139) for the sensor `dev` that `container_of` yields:
the file afterwards and the return value.  The reader's copy is a `memcpy` of the
sensor's current measurement; when `kmalloc` fails the copy stays `NULL` and 0 is
returned all the same. -/
def cresta_open (k : Module) (kmalloc_ok : Bool) (dev : Nat) (filp : file) : file × Int :=
  match (k.deref dev).bind (fun d => d.current_data) with
  | none => (filp, -ERESTARTSYS)
  | some data =>
    if kmalloc_ok then ({ filp with private_data := some data.measurement }, 0)
    else ({ filp with private_data := none }, 0)

/-- Function `cresta_read` (lines 190-211): the file afterwards, the return value and the
bytes copied to the user buffer.  `copy_ok` tells whether `copy_to_user` succeeds; the
result is `none` when the call reads through a `NULL` reader copy.  The callers pass a
position and a count that do not wrap in `*f_pos + count`. -/
def cresta_read (pad : Nat) (filp : file) (count : Nat) (copy_ok : Bool) :
    Option (file × Int × List Nat) :=
  let maxbytes := sizeof_measurement pad % 256
  if filp.f_pos ≥ maxbytes then some (filp, 0, [])
  else
    let count := if filp.f_pos + count > maxbytes then maxbytes - filp.f_pos else count
    match filp.private_data with
    | none => none
    | some data =>
      if copy_ok then
        some ({ filp with f_pos := filp.f_pos + count }, (count : Int),
          ((measurement_bytes pad data).drop filp.f_pos).take count)
      else some (filp, -EFAULT, [])

/-- A reader that calls `cresta_read` with the requested sizes `counts`, one call after
the other, until a call returns 0: the bytes delivered, and whether the last call
returned 0. -/
def read_until_zero (pad : Nat) : file → List Nat → List Nat × Bool
  | _, [] => ([], false)
  | filp, c :: cs =>
    match cresta_read pad filp c true with
    | none => ([], false)
    | some (filp2, ret, bytes) =>
      if ret = 0 then ([], true)
      else ((bytes ++ (read_until_zero pad filp2 cs).1), (read_until_zero pad filp2 cs).2)

/-- A UV frame (decrypted address 0x8C, type 0x0D, length 7): the preamble, seven scrambled
bytes, checksum A and checksum B. -/
def uvFrame : List Nat := [117, 132, 186, 251, 15, 30, 17, 60, 249, 57]

/-! ## Userspace decoder (`cresta_decoder.c`) -/

/-- Function `get_temperature_from_cresta_encoding` (`cresta_decoder.c`, lines 146-176).
Every summand is an integer expression, evaluated in `int` before it is added to the
`float` accumulator, so the accumulator only holds integers of magnitude at most 166,
which a `float` represents exactly; the result is given as that integer.  The last branch
is the one that prints the unexpected sign. -/
def get_temperature_from_cresta_encoding (decrypted_data : List Nat) (offset : Nat) : Int :=
  let temperature : Int := 0
  let temperature := temperature + (((decrypted_data.getD (offset + 1) 0 &&& 0x0F) * 10 : Nat) : Int)
  let temperature := temperature + ((decrypted_data.getD offset 0 >>> 4 : Nat) : Int)
  let temperature := temperature + (((decrypted_data.getD offset 0 &&& 0x0F) / 10 : Nat) : Int)
  if decrypted_data.getD (offset + 1) 0 >>> 4 = 0x04 then temperature * -1
  else if decrypted_data.getD (offset + 1) 0 >>> 4 = 0x0C then temperature
  else temperature

/-- The three-digit BCD temperature as the specification describes it: first digit the low
nibble of `byte[n+1]`, second digit the high nibble of `byte[n]`, third digit the low
nibble of `byte[n]`, giving `10*d1 + d2 + d3/10`, negated when the high nibble of
`byte[n+1]` is 0x4. -/
def bcdTemperature (decrypted_data : List Nat) (n : Nat) : ℚ :=
  let d1 := decrypted_data.getD (n + 1) 0 &&& 0x0F
  let d2 := decrypted_data.getD n 0 >>> 4
  let d3 := decrypted_data.getD n 0 &&& 0x0F
  let value : ℚ := 10 * (d1 : ℚ) + (d2 : ℚ) + (d3 : ℚ) / 10
  if decrypted_data.getD (n + 1) 0 >>> 4 = 0x04 then - value else value

/-! ## Reference definitions of the byte transforms -/

/-- The second checksum function as the specification describes it: `b1` is `b XOR 0x95`
if the high bit of `b` is set, else `b`; `c` is `b1 XOR (b1 >> 1)`, further XORed with 0x5F
if the low bit of `b1` is set; `b2` is `b1 XOR 0x5F` if the low bit of `c` is set, else
`b1`; the result is `b2 XOR (c >> 1)`. -/
def secondCheckReference (b : Nat) : Nat :=
  let b1 := if b.testBit 7 then b ^^^ 0x95 else b
  let c := b1 ^^^ (b1 >>> 1)
  let c := if b1.testBit 0 then c ^^^ 0x5F else c
  let b2 := if c.testBit 0 then b1 ^^^ 0x5F else b1
  b2 ^^^ (c >>> 1)

/-! ## Memory accesses of the validator -/

/-- The indices of `raw_data` that `decrypt_and_check` (lines 122-155) reads or writes, in
program order: index 2 twice for the length byte; in pass `i` of the loop the read for
`cs1`, the read for `cs2` and the two reads and the write of
`raw_data[i] ^= raw_data[i] << 1`; and index `packet_length + 2` for checksum B, which is
reached only when checksum A is zero. -/
def decrypt_and_check_indices (raw_data : List Nat) : List Nat :=
  let decodedByte := (raw_data.getD 2 0 ^^^ (raw_data.getD 2 0 <<< 1)) % 256
  let packet_length := (decodedByte >>> 1) &&& 0x1f
  [2, 2] ++
  if packet_length ≥ CRESTA_MIN_ANNOUNCED_LEN ∧ packet_length ≤ CRESTA_MAX_ANNOUNCED_LEN then
    let st := (List.range' 1 (packet_length + 1)).foldl decrypt_step
      { raw_data := raw_data, cs1 := 0, cs2 := 0 }
    ((List.range' 1 (packet_length + 1)).map (fun i => [i, i, i, i, i])).flatten ++
      (if st.cs1 ≠ 0 then [] else [packet_length + 2])
  else []

/-! ## Wind direction (`cresta_decoder.c`) -/

/-- The counter of `get_anemometer_wind_direction` (lines 270-277) as a function of the
high nibble of byte 11.  `count` is a `uint8_t`; `-count` is evaluated in 32-bit `int` and
masked with 0xF. -/
def wind_direction_count (nibble : Nat) : Nat :=
  let count := nibble
  let count := (count ^^^ ((count &&& 8) >>> 1)) % 256
  let count := (count ^^^ ((count &&& 4) >>> 1)) % 256
  let count := (count ^^^ ((count &&& 2) >>> 1)) % 256
  ((2 ^ 32 - count) % 2 ^ 32) &&& 0xF

/-- Function `get_anemometer_wind_direction` (`cresta_decoder.c`, lines 265-281).  The
`float` result is a multiple of 22.5 up to 337.5, which a `float` represents exactly. -/
def get_anemometer_wind_direction (decrypted_data : List Nat) : ℚ :=
  let count := wind_direction_count (decrypted_data.getD 11 0 >>> 4)
  let direction : ℚ := 22.5
  direction * (count : ℚ)

/-- Conversion of a 4-bit Gray code to binary: every bit is the XOR of the code bits from
its own position upwards. -/
def grayToBinary (g : Nat) : Nat :=
  g ^^^ (g >>> 1) ^^^ (g >>> 2) ^^^ (g >>> 3)

/-- The step `k` of the wind direction as the specification describes it: Gray-to-binary
conversion of the nibble followed by negation modulo 16. -/
def windStep (nibble : Nat) : Nat :=
  (16 - grayToBinary nibble % 16) % 16

/-! ## Sequences of registry calls -/

/-- A call that publishes to the registry: `handle_decrypted_sensor_data` on a decrypted
packet, the kernel answering `e`, or `update_cresta_sensor_data` on a sensor pointer. -/
inductive RegistryCall where
  | handle (e : Env) (data : cresta_measurement_data)
  | update (sensor : Nat) (new_data : cresta_measurement_data)

/-- The module state after one call. -/
def RegistryCall.run (k : Module) : RegistryCall → Module
  | RegistryCall.handle e data => (handle_decrypted_sensor_data k e data).1
  | RegistryCall.update sensor new_data => (update_cresta_sensor_data k sensor new_data).1

/-- The module state after a sequence of calls. -/
def runCalls (k : Module) (cs : List RegistryCall) : Module :=
  cs.foldl RegistryCall.run k

/-- Two UV sensors and two rain sensors with four different addresses, allocated and not
yet given a device node. -/
def uvAndRainSensors : Module :=
  { Module.init with
    heap := [some ⟨0x8C, CRESTA_SENSOR_TYPE_UV, none⟩, some ⟨0x8D, CRESTA_SENSOR_TYPE_UV, none⟩,
      some ⟨0x90, CRESTA_SENSOR_TYPE_RAIN, none⟩, some ⟨0x91, CRESTA_SENSOR_TYPE_RAIN, none⟩] }

/-! ## Bit writes to the decoder buffer -/

/-- The call of the decoder in state `s` with an edge of duration `d` writes bit `k` of
`data[j]` (lines 122-136): the decoder is not idle, the edge is in tolerance, the half-bit
index `h` is odd, `k = (h / 2) mod 9` is a data bit and `j = h / 18` is inside the buffer.
The value written is the polarity `s.isOne`. -/
def WritesBit (s : DecoderState) (d j k : Nat) : Prop :=
  s.halfBit ≠ 0 ∧ InTolerance s.clockTime d ∧ s.halfBit % 2 = 1 ∧
  (s.halfBit / 2) % 9 = k ∧ k < 8 ∧ s.halfBit / 18 = j ∧ j < 14

instance (s : DecoderState) (d j k : Nat) : Decidable (WritesBit s d j k) := by
  unfold WritesBit; infer_instance

/-- The polarity of the last bit write to bit `k` of `data[j]` while the edges `ds` are fed
to the decoder in state `s`; `none` when no edge writes that bit. -/
def lastWrite (s : DecoderState) : List Nat → Nat → Nat → Option Bool
  | [], _, _ => none
  | d :: ds, j, k =>
    match lastWrite (cresta_manchester_decoder s d).1 ds j k with
    | some b => some b
    | none => if WritesBit s d j k then some s.isOne else none

/-! # Theorems -/

/-! ## Lists of bytes -/

theorem getD_set (l : List Nat) (i j v : Nat) (hi : i < l.length) :
    (l.set i v).getD j 0 = if j = i then v else l.getD j 0 := by
  simp only [List.getD_eq_getElem?_getD, List.getElem?_set]
  by_cases h : i = j
  · subst h; simp [hi]
  · have h2 : ¬ j = i := fun e => h e.symm
    simp [h, h2]

theorem getD_lt_of_forall (l : List Nat) (h : ∀ b ∈ l, b < 256) (i : Nat) :
    l.getD i 0 < 256 := by
  rw [List.getD_eq_getElem?_getD]
  cases hi : l[i]? with
  | none => simp
  | some v => simpa using h v (List.getElem?_mem hi)

theorem xor_lt_256 {a b : Nat} (ha : a < 256) (hb : b < 256) : a ^^^ b < 256 :=
  Nat.xor_lt_two_pow (n := 8) ha hb

theorem second_check_lt (b : Nat) : second_check b < 256 := by
  unfold second_check
  exact Nat.mod_lt _ (by decide)

/-! ## The loop of `decrypt_and_check` -/

/-- The loop of `decrypt_and_check` over the indices `a .. a+n-1`: the checksums are the
folds over the original bytes and exactly the visited bytes are unscrambled. -/
theorem decrypt_fold_spec (raw : List Nat) (hb : ∀ i, raw.getD i 0 < 256) :
    ∀ (n a : Nat) (st : DecryptLoop),
      st.cs1 < 256 → st.cs2 < 256 → a + n ≤ st.raw_data.length →
      (∀ j, a ≤ j → st.raw_data.getD j 0 = raw.getD j 0) →
      ((List.range' a n).foldl decrypt_step st).cs1
          = (List.range' a n).foldl (fun c i => c ^^^ raw.getD i 0) st.cs1 ∧
      ((List.range' a n).foldl decrypt_step st).cs2
          = (List.range' a n).foldl (fun c i => second_check (raw.getD i 0 ^^^ c)) st.cs2 ∧
      ((List.range' a n).foldl decrypt_step st).raw_data.length = st.raw_data.length ∧
      ∀ j, ((List.range' a n).foldl decrypt_step st).raw_data.getD j 0
          = if a ≤ j ∧ j < a + n then unscramble (raw.getD j 0) else st.raw_data.getD j 0 := by
  intro n
  induction n with
  | zero =>
    intro a st _ _ _ _
    refine ⟨rfl, rfl, rfl, ?_⟩
    intro j
    have : ¬ (a ≤ j ∧ j < a + 0) := by omega
    exact (if_neg this).symm
  | succ n ih =>
    intro a st h1 h2 hlen hag
    have ha : st.raw_data.getD a 0 = raw.getD a 0 := hag a (Nat.le_refl a)
    have hstep1 : (decrypt_step st a).cs1 = st.cs1 ^^^ raw.getD a 0 := by
      simp only [decrypt_step, ha]
      exact Nat.mod_eq_of_lt (xor_lt_256 h1 (hb a))
    have hstep2 : (decrypt_step st a).cs2 = second_check (raw.getD a 0 ^^^ st.cs2) := by
      simp only [decrypt_step, ha]
      rw [Nat.mod_eq_of_lt (xor_lt_256 (hb a) h2)]
    have hstep3 : (decrypt_step st a).raw_data = st.raw_data.set a (unscramble (raw.getD a 0)) := by
      simp only [decrypt_step, ha, unscramble]
    have hlen3 : (decrypt_step st a).raw_data.length = st.raw_data.length := by
      rw [hstep3, List.length_set]
    have hag3 : ∀ j, a + 1 ≤ j → (decrypt_step st a).raw_data.getD j 0 = raw.getD j 0 := by
      intro j hj
      rw [hstep3, getD_set _ _ _ _ (by omega)]
      have : ¬ j = a := by omega
      simp only [this, if_false]
      exact hag j (by omega)
    have h1' : (decrypt_step st a).cs1 < 256 := by
      rw [hstep1]; exact xor_lt_256 h1 (hb a)
    have h2' : (decrypt_step st a).cs2 < 256 := by
      rw [hstep2]; exact second_check_lt _
    obtain ⟨r1, r2, r3, r4⟩ := ih (a + 1) (decrypt_step st a) h1' h2' (by rw [hlen3]; omega) hag3
    rw [List.range'_succ, List.foldl_cons, List.foldl_cons, List.foldl_cons]
    refine ⟨by rw [r1, hstep1], by rw [r2, hstep2], by rw [r3, hlen3], ?_⟩
    intro j
    rw [r4 j, hstep3, getD_set _ _ _ _ (by omega)]
    by_cases hja : j = a
    · subst hja
      have c1 : ¬ (j + 1 ≤ j ∧ j < j + 1 + n) := by omega
      have c2 : j ≤ j ∧ j < j + (n + 1) := by omega
      simp [c1, c2]
    · by_cases hin : a + 1 ≤ j ∧ j < a + 1 + n
      · have c2 : a ≤ j ∧ j < a + (n + 1) := by omega
        simp [hin, c2]
      · have c2 : ¬ (a ≤ j ∧ j < a + (n + 1)) := by omega
        simp [hin, c2, hja]

/-- The state of the loop of `decrypt_and_check` when it ends. -/
theorem decrypt_loop_result (raw : List Nat) (hp : IsPacket raw) (L : Nat) (hL : L ≤ 11) :
    ((List.range' 1 (L + 1)).foldl decrypt_step ⟨raw, 0, 0⟩).cs1 = checksumA raw L ∧
    ((List.range' 1 (L + 1)).foldl decrypt_step ⟨raw, 0, 0⟩).cs2 = checksumB raw L ∧
    ((List.range' 1 (L + 1)).foldl decrypt_step ⟨raw, 0, 0⟩).raw_data.length = 14 ∧
    ∀ j, ((List.range' 1 (L + 1)).foldl decrypt_step ⟨raw, 0, 0⟩).raw_data.getD j 0
      = if 1 ≤ j ∧ j < L + 2 then unscramble (raw.getD j 0) else raw.getD j 0 := by
  have h := decrypt_fold_spec raw (getD_lt_of_forall raw hp.2) (L + 1) 1 ⟨raw, 0, 0⟩
    (show (0 : Nat) < 256 by decide) (show (0 : Nat) < 256 by decide)
    (by show 1 + (L + 1) ≤ raw.length; rw [hp.1]; omega)
    (fun _ _ => rfl)
  obtain ⟨h1, h2, h3, h4⟩ := h
  refine ⟨h1, h2, h3.trans hp.1, ?_⟩
  intro j
  rw [h4 j]
  have e : (1 ≤ j ∧ j < 1 + (L + 1)) ↔ (1 ≤ j ∧ j < L + 2) := by omega
  simp only [e]

/-- The shape of `decrypt_and_check` in terms of the announced length. -/
theorem decrypt_and_check_unfold (raw : List Nat) :
    decrypt_and_check raw =
      if 6 ≤ announcedLength (raw.getD 2 0) ∧ announcedLength (raw.getD 2 0) ≤ 11 then
        let st := (List.range' 1 (announcedLength (raw.getD 2 0) + 1)).foldl decrypt_step
          ⟨raw, 0, 0⟩
        if st.cs1 ≠ 0 then (st.raw_data, true)
        else if st.cs2 ≠ st.raw_data.getD (announcedLength (raw.getD 2 0) + 2) 0 then
          (st.raw_data, true)
        else (st.raw_data, false)
      else (raw, true) := rfl

/-- Acceptance by `decrypt_and_check` in terms of the checksums over the original bytes. -/
theorem decrypt_and_check_accepts (raw : List Nat) (hp : IsPacket raw) :
    (decrypt_and_check raw).2 = false ↔
      (6 ≤ announcedLength (raw.getD 2 0) ∧ announcedLength (raw.getD 2 0) ≤ 11 ∧
        checksumA raw (announcedLength (raw.getD 2 0)) = 0 ∧
        checksumB raw (announcedLength (raw.getD 2 0))
          = raw.getD (announcedLength (raw.getD 2 0) + 2) 0) := by
  rw [decrypt_and_check_unfold]
  by_cases hL : 6 ≤ announcedLength (raw.getD 2 0) ∧ announcedLength (raw.getD 2 0) ≤ 11
  · obtain ⟨h1, h2, _, h4⟩ := decrypt_loop_result raw hp _ hL.2
    have hk : ¬ (1 ≤ announcedLength (raw.getD 2 0) + 2 ∧
        announcedLength (raw.getD 2 0) + 2 < announcedLength (raw.getD 2 0) + 2) := by omega
    simp only [hL, and_self, if_true, h1, h2, h4, hk, if_false, true_and]
    by_cases hA : checksumA raw (announcedLength (raw.getD 2 0)) = 0
    · by_cases hB : checksumB raw (announcedLength (raw.getD 2 0))
          = raw.getD (announcedLength (raw.getD 2 0) + 2) 0
      · rw [if_neg (not_not.mpr hA), if_neg (not_not.mpr hB)]
        exact ⟨fun _ => ⟨hA, hB⟩, fun _ => rfl⟩
      · rw [if_neg (not_not.mpr hA), if_pos hB]
        exact ⟨fun h => absurd (show true = false from h) (by decide), fun h => absurd h.2 hB⟩
    · rw [if_pos hA]
      exact ⟨fun h => absurd (show true = false from h) (by decide), fun h => absurd h.1 hA⟩
  · simp only [hL, if_false]
    constructor
    · intro h; exact absurd (show true = false from h) (by decide)
    · intro h; exact absurd ⟨h.1, h.2.1⟩ hL

/-- The buffer after `decrypt_and_check` when the announced length is in range: bytes
`1..L+1` are unscrambled, every other byte is as before. -/
theorem decrypt_and_check_buffer (raw : List Nat) (hp : IsPacket raw)
    (hL : 6 ≤ announcedLength (raw.getD 2 0) ∧ announcedLength (raw.getD 2 0) ≤ 11) :
    (decrypt_and_check raw).1.length = 14 ∧
    ∀ j, (decrypt_and_check raw).1.getD j 0
      = if 1 ≤ j ∧ j < announcedLength (raw.getD 2 0) + 2 then unscramble (raw.getD j 0)
        else raw.getD j 0 := by
  obtain ⟨_, _, h3, h4⟩ := decrypt_loop_result raw hp _ hL.2
  rw [decrypt_and_check_unfold]
  simp only [hL, and_self, if_true]
  split_ifs <;> exact ⟨h3, h4⟩

/-! ## Registry: pointers and lookups -/

theorem getD_set_of_lt {α : Type} (l : List α) (i j : Nat) (v d : α) (hi : i < l.length) :
    (l.set i v).getD j d = if j = i then v else l.getD j d := by
  simp only [List.getD_eq_getElem?_getD, List.getElem?_set]
  by_cases h : i = j
  · subst h; simp [hi]
  · have h2 : ¬ j = i := fun e => h e.symm
    simp [h, h2]

theorem deref_lt (k : Module) (p : Nat) (d : cresta_dev) (h : k.deref p = some d) :
    p < k.heap.length := by
  by_contra hge
  have : k.heap.getD p none = none := by
    rw [List.getD_eq_getElem?_getD, List.getElem?_eq_none (by omega)]; rfl
  rw [Module.deref, this] at h
  exact Option.noConfusion h

theorem deref_update (k : Module) (s q : Nat) (nd : cresta_measurement_data) :
    (update_cresta_sensor_data k s nd).1.deref q
      = if q = s then (k.deref s).map (fun d => { d with current_data := some nd })
        else k.deref q := by
  unfold update_cresta_sensor_data
  cases h : k.deref s with
  | none =>
    by_cases hq : q = s
    · subst hq; simp [h]
    · simp [hq]
  | some d =>
    have hlt := deref_lt k s d h
    show (k.heap.set s _).getD q none = _
    rw [getD_set_of_lt _ _ _ _ _ hlt]
    by_cases hq : q = s
    · simp [hq]
    · simp [hq, Module.deref]

theorem update_list (k : Module) (s : Nat) (nd : cresta_measurement_data) :
    (update_cresta_sensor_data k s nd).1.cresta_sensor_list = k.cresta_sensor_list := by
  unfold update_cresta_sensor_data
  cases k.deref s <;> rfl

theorem update_heap_length (k : Module) (s : Nat) (nd : cresta_measurement_data) :
    (update_cresta_sensor_data k s nd).1.heap.length = k.heap.length := by
  unfold update_cresta_sensor_data
  cases k.deref s with
  | none => rfl
  | some d => simp

theorem update_ret (k : Module) (s : Nat) (nd : cresta_measurement_data) :
    (update_cresta_sensor_data k s nd).2 = 0 := by
  unfold update_cresta_sensor_data
  cases k.deref s <;> rfl

theorem addrOf_update (k : Module) (s q : Nat) (nd : cresta_measurement_data) :
    (update_cresta_sensor_data k s nd).1.addrOf q = k.addrOf q := by
  unfold Module.addrOf
  rw [deref_update]
  by_cases hq : q = s
  · subst hq
    cases k.deref q <;> simp
  · simp [hq]

/-- The lookup depends only on the list and on the addresses of the listed sensors. -/
theorem get_congr (k1 k2 : Module) (a : Nat)
    (hl : k1.cresta_sensor_list = k2.cresta_sensor_list)
    (ha : ∀ p ∈ k1.cresta_sensor_list, k1.addrOf p = k2.addrOf p) :
    get_cresta_sensor_by_address k1 a = get_cresta_sensor_by_address k2 a := by
  unfold get_cresta_sensor_by_address
  rw [← hl]
  generalize k1.cresta_sensor_list = l at ha
  induction l with
  | nil => rfl
  | cons p l ih =>
    have hp := ha p (List.mem_cons_self p l)
    have e : (match k1.deref p with | some d => d.sensor_addr == a | none => false)
        = (match k2.deref p with | some d => d.sensor_addr == a | none => false) := by
      unfold Module.addrOf at hp
      cases h1 : k1.deref p <;> cases h2 : k2.deref p <;> simp_all
    simp only [List.find?_cons, e]
    rw [ih (fun q hq => ha q (List.mem_cons_of_mem p hq))]

theorem get_eq_none (k : Module) (a : Nat) :
    get_cresta_sensor_by_address k a = none ↔
      ∀ p ∈ k.cresta_sensor_list, k.addrOf p ≠ some a := by
  unfold get_cresta_sensor_by_address Module.addrOf
  rw [List.find?_eq_none]
  constructor
  · intro h p hp
    have := h p hp
    cases hd : k.deref p <;> simp_all
  · intro h p hp
    have := h p hp
    cases hd : k.deref p <;> simp_all

theorem get_eq_some (k : Module) (a p : Nat) (h : get_cresta_sensor_by_address k a = some p) :
    p ∈ k.cresta_sensor_list ∧ ∃ d, k.deref p = some d ∧ d.sensor_addr = a := by
  unfold get_cresta_sensor_by_address at h
  refine ⟨List.mem_of_find?_eq_some h, ?_⟩
  have := List.find?_some h
  cases hd : k.deref p with
  | none => simp [hd] at this
  | some d => exact ⟨d, rfl, by simpa [hd] using this⟩

/-! ## Registry: device entries and the dispatcher -/

theorem make_device_entry_heap (k : Module) (b : Bool) (p : Nat) :
    (make_device_entry k b p).heap = k.heap := by
  unfold make_device_entry
  split
  · rfl
  · split_ifs <;> rfl

theorem make_device_entry_list (k : Module) (b : Bool) (p : Nat) :
    (make_device_entry k b p).cresta_sensor_list = k.cresta_sensor_list := by
  unfold make_device_entry
  split
  · rfl
  · split_ifs <;> rfl

theorem make_device_entry_deref (k : Module) (b : Bool) (p q : Nat) :
    (make_device_entry k b p).deref q = k.deref q := by
  unfold Module.deref
  rw [make_device_entry_heap]

theorem deref_append_old (k : Module) (x : Option cresta_dev) (q : Nat)
    (hq : q < k.heap.length) :
    ({ k with heap := k.heap ++ [x] } : Module).deref q = k.deref q := by
  show (k.heap ++ [x]).getD q none = k.heap.getD q none
  exact List.getD_append _ _ _ _ hq

theorem deref_append_new (k : Module) (x : Option cresta_dev) :
    ({ k with heap := k.heap ++ [x] } : Module).deref k.heap.length = x := by
  show (k.heap ++ [x]).getD k.heap.length none = x
  rw [List.getD_eq_getElem?_getD, List.getElem?_concat_length]
  rfl

theorem WF_lt (k : Module) (hk : k.WF) (q : Nat) (hq : q ∈ k.cresta_sensor_list) :
    q < k.heap.length := by
  have h := hk q hq
  cases hd : k.deref q with
  | none => rw [hd] at h; exact absurd h (by decide)
  | some d => exact deref_lt k q d hd

/-- Allocating a sensor does not change what the lookup finds. -/
theorem get_append (k : Module) (hk : k.WF) (a : Nat) (x : Option cresta_dev) :
    get_cresta_sensor_by_address ({ k with heap := k.heap ++ [x] } : Module) a
      = get_cresta_sensor_by_address k a := by
  refine get_congr ({ k with heap := k.heap ++ [x] } : Module) k a (by rfl) ?_
  intro q hq
  unfold Module.addrOf
  rw [deref_append_old k _ q (WF_lt k hk q hq)]

/-- A packet for a known address is published to the sensor that the lookup returns. -/
theorem handle_found (k : Module) (e : Env) (d : cresta_measurement_data) (p : Nat)
    (h : get_cresta_sensor_by_address k d.sensor_address = some p) :
    handle_decrypted_sensor_data k e d = update_cresta_sensor_data k p d := by
  unfold handle_decrypted_sensor_data
  rw [h]

/-- A packet for an unknown address is dropped when no sensor can be allocated. -/
theorem handle_alloc_fail (k : Module) (e : Env) (d : cresta_measurement_data)
    (h : get_cresta_sensor_by_address k d.sensor_address = none)
    (he : e.kmalloc_ok = false) :
    handle_decrypted_sensor_data k e d = (k, -1) := by
  unfold handle_decrypted_sensor_data create_cresta_sensor
  rw [h, he]
  rfl

/-- A packet for an unknown address creates the sensor, lists it, makes its device entry
and publishes the measurement to it. -/
theorem handle_new (k : Module) (hk : k.WF) (e : Env) (d : cresta_measurement_data)
    (h : get_cresta_sensor_by_address k d.sensor_address = none)
    (he : e.kmalloc_ok = true) :
    handle_decrypted_sensor_data k e d =
      update_cresta_sensor_data
        (make_device_entry (withNewSensor k d.sensor_address d.sensor_type) e.cdev_add_ok
          k.heap.length)
        k.heap.length d := by
  have hget := (get_append k hk d.sensor_address (some ⟨d.sensor_address, d.sensor_type, none⟩)).trans h
  unfold handle_decrypted_sensor_data create_cresta_sensor add_cresta_sensor_to_sensor_list
  simp only [h, he, if_true, deref_append_new, hget, Option.isSome_none]
  rfl

/-! ## Registry: uniqueness of addresses and well-formedness -/

theorem unique_update (k : Module) (hu : k.UniqueAddresses) (s : Nat)
    (nd : cresta_measurement_data) :
    (update_cresta_sensor_data k s nd).1.UniqueAddresses := by
  unfold Module.UniqueAddresses at *
  rw [update_list]
  have e : k.cresta_sensor_list.map (update_cresta_sensor_data k s nd).1.addrOf
      = k.cresta_sensor_list.map k.addrOf :=
    List.map_congr_left (fun q _ => addrOf_update k s q nd)
  rw [e]
  exact hu

theorem wf_update (k : Module) (hk : k.WF) (s : Nat) (nd : cresta_measurement_data) :
    (update_cresta_sensor_data k s nd).1.WF := by
  intro q hq
  rw [update_list] at hq
  have h := hk q hq
  rw [deref_update]
  by_cases hqs : q = s
  · subst hqs
    cases hd : k.deref q with
    | none => rw [hd] at h; exact absurd h (by decide)
    | some d => simp
  · simpa [hqs] using h

theorem unique_add (k : Module) (hu : k.UniqueAddresses) (ns : Option Nat) :
    (add_cresta_sensor_to_sensor_list k ns).1.UniqueAddresses := by
  unfold add_cresta_sensor_to_sensor_list
  cases ns with
  | none => exact hu
  | some p =>
    cases hd : k.deref p with
    | none => simp only [hd]; exact hu
    | some d =>
      cases hg : get_cresta_sensor_by_address k d.sensor_addr with
      | some q => simp only [hd, hg, Option.isSome_some, if_true]; exact hu
      | none =>
        have hn := (get_eq_none k d.sensor_addr).mp hg
        have hp : k.addrOf p = some d.sensor_addr := by
          unfold Module.addrOf; rw [hd]; rfl
        simp only [hd, hg, Option.isSome_none]
        show ((p :: k.cresta_sensor_list).map k.addrOf).Nodup
        rw [List.map_cons, List.nodup_cons, hp]
        refine ⟨?_, hu⟩
        intro hmem
        obtain ⟨q, hq, hqa⟩ := List.mem_map.mp hmem
        exact hn q hq hqa

theorem wf_make_device_entry (k : Module) (hk : k.WF) (b : Bool) (p : Nat) :
    (make_device_entry k b p).WF := by
  intro q hq
  rw [make_device_entry_list] at hq
  rw [make_device_entry_deref]
  exact hk q hq

theorem unique_make_device_entry (k : Module) (hu : k.UniqueAddresses) (b : Bool) (p : Nat) :
    (make_device_entry k b p).UniqueAddresses := by
  unfold Module.UniqueAddresses at *
  rw [make_device_entry_list]
  have e : k.cresta_sensor_list.map (make_device_entry k b p).addrOf
      = k.cresta_sensor_list.map k.addrOf :=
    List.map_congr_left (fun q _ => by unfold Module.addrOf; rw [make_device_entry_deref])
  rw [e]
  exact hu

theorem deref_withNewSensor_old (k : Module) (a t q : Nat) (hq : q < k.heap.length) :
    (withNewSensor k a t).deref q = k.deref q := by
  show (k.heap ++ [_]).getD q none = k.heap.getD q none
  exact List.getD_append _ _ _ _ hq

theorem deref_withNewSensor_new (k : Module) (a t : Nat) :
    (withNewSensor k a t).deref k.heap.length = some ⟨a, t, none⟩ := by
  show (k.heap ++ [_]).getD k.heap.length none = _
  rw [List.getD_eq_getElem?_getD, List.getElem?_concat_length]
  rfl

theorem deref_length_none (k : Module) : k.deref k.heap.length = none := by
  show k.heap.getD k.heap.length none = none
  rw [List.getD_eq_getElem?_getD, List.getElem?_length]
  rfl

theorem wf_withNewSensor (k : Module) (hk : k.WF) (a t : Nat) : (withNewSensor k a t).WF := by
  intro q hq
  have hq' : q = k.heap.length ∨ q ∈ k.cresta_sensor_list := List.mem_cons.mp hq
  rcases hq' with h | h
  · rw [h, deref_withNewSensor_new]; rfl
  · rw [deref_withNewSensor_old k a t q (WF_lt k hk q h)]
    exact hk q h

theorem unique_withNewSensor (k : Module) (hk : k.WF) (hu : k.UniqueAddresses) (a t : Nat)
    (hg : get_cresta_sensor_by_address k a = none) :
    (withNewSensor k a t).UniqueAddresses := by
  have hn := (get_eq_none k a).mp hg
  have e : k.cresta_sensor_list.map (withNewSensor k a t).addrOf
      = k.cresta_sensor_list.map k.addrOf :=
    List.map_congr_left (fun q hq => by
      unfold Module.addrOf
      rw [deref_withNewSensor_old k a t q (WF_lt k hk q hq)])
  have hp : (withNewSensor k a t).addrOf k.heap.length = some a := by
    unfold Module.addrOf; rw [deref_withNewSensor_new]; rfl
  show ((k.heap.length :: k.cresta_sensor_list).map (withNewSensor k a t).addrOf).Nodup
  rw [List.map_cons, List.nodup_cons, hp, e]
  refine ⟨?_, hu⟩
  intro hmem
  obtain ⟨q, hq, hqa⟩ := List.mem_map.mp hmem
  exact hn q hq hqa

theorem unique_handle (k : Module) (hk : k.WF) (hu : k.UniqueAddresses) (e : Env)
    (d : cresta_measurement_data) :
    (handle_decrypted_sensor_data k e d).1.UniqueAddresses := by
  cases hg : get_cresta_sensor_by_address k d.sensor_address with
  | some p => rw [handle_found k e d p hg]; exact unique_update k hu p d
  | none =>
    cases he : e.kmalloc_ok with
    | false => rw [handle_alloc_fail k e d hg he]; exact hu
    | true =>
      rw [handle_new k hk e d hg he]
      exact unique_update _
        (unique_make_device_entry _ (unique_withNewSensor k hk hu _ _ hg) _ _) _ _

theorem wf_handle (k : Module) (hk : k.WF) (e : Env) (d : cresta_measurement_data) :
    (handle_decrypted_sensor_data k e d).1.WF := by
  cases hg : get_cresta_sensor_by_address k d.sensor_address with
  | some p => rw [handle_found k e d p hg]; exact wf_update k hk p d
  | none =>
    cases he : e.kmalloc_ok with
    | false => rw [handle_alloc_fail k e d hg he]; exact hk
    | true =>
      rw [handle_new k hk e d hg he]
      exact wf_update _ (wf_make_device_entry _ (wf_withNewSensor k hk _ _) _ _) _ _

/-! ## Bytes and bits -/

theorem testBit_of_lt_256 {x i : Nat} (hx : x < 256) (hi : 8 ≤ i) : x.testBit i = false := by
  apply Nat.testBit_lt_two_pow
  calc x < 2 ^ 8 := hx
    _ ≤ 2 ^ i := Nat.pow_le_pow_right (by decide) hi

theorem byte_eq_of_testBit {x y : Nat} (hx : x < 256) (hy : y < 256)
    (h : ∀ i, i < 8 → x.testBit i = y.testBit i) : x = y := by
  apply Nat.eq_of_testBit_eq
  intro i
  by_cases hi : i < 8
  · exact h i hi
  · rw [testBit_of_lt_256 hx (by omega), testBit_of_lt_256 hy (by omega)]

theorem testBit_set_bit {x k : Nat} (hx : x < 256) (hk : k < 8) (i : Nat) :
    ((x ||| (1 <<< k)) % 256).testBit i = if i = k then true else x.testBit i := by
  have e : (256 : Nat) = 2 ^ 8 := rfl
  rw [e, Nat.testBit_mod_two_pow, Nat.testBit_or, Nat.one_shiftLeft, Nat.testBit_two_pow]
  by_cases hik : i = k
  · subst hik; simp [hk]
  · have hki : ¬ k = i := fun h => hik h.symm
    by_cases hi : i < 8
    · simp [hik, hki, hi]
    · simp [hik, hki, hi, testBit_of_lt_256 hx (by omega : 8 ≤ i)]

theorem testBit_clear_bit {x k : Nat} (hx : x < 256) (hk : k < 8) (i : Nat) :
    (x &&& (255 ^^^ (1 <<< k))).testBit i = if i = k then false else x.testBit i := by
  have e : (255 : Nat) = 2 ^ 8 - 1 := rfl
  rw [Nat.testBit_and, Nat.testBit_xor, Nat.one_shiftLeft, Nat.testBit_two_pow, e,
    Nat.testBit_two_pow_sub_one]
  by_cases hik : i = k
  · subst hik; simp [hk]
  · have hki : ¬ k = i := fun h => hik h.symm
    by_cases hi : i < 8
    · simp [hik, hki, hi]
    · simp [hik, hki, hi, testBit_of_lt_256 hx (by omega : 8 ≤ i)]

/-- Writing a bit sets that bit and leaves the others. -/
theorem testBit_putBit {x k : Nat} (hx : x < 256) (hk : k < 8) (b : Bool) (i : Nat) :
    (putBit x k b).testBit i = if i = k then b else x.testBit i := by
  unfold putBit
  cases b with
  | true => simpa using testBit_set_bit hx hk i
  | false => simpa using testBit_clear_bit hx hk i

theorem putBit_lt {x : Nat} (hx : x < 256) (k : Nat) (b : Bool) : putBit x k b < 256 := by
  unfold putBit
  cases b with
  | true => exact Nat.mod_lt _ (by decide)
  | false => exact Nat.lt_of_le_of_lt Nat.and_le_left hx

/-! ## The branches of `cresta_manchester_decoder` -/

theorem write_bit_eq (s : DecoderState) :
    write_bit s =
      if (s.halfBit >>> 1) % 9 < 8 then
        if s.halfBit / 18 < 14 then
          some { s with
            data := s.data.set (s.halfBit / 18)
              (putBit (s.data.getD (s.halfBit / 18) 0) ((s.halfBit >>> 1) % 9) s.isOne) }
        else some s
      else if s.isOne then none else some s := by
  unfold write_bit putBit CRESTA_MAXDATA_LEN
  cases s.isOne <;> rfl

/-- First edge with a plausible clock: the decoder synchronises. -/
theorem decoder_first_edge (s : DecoderState) (d : Nat) (h0 : s.halfBit = 0)
    (hlo : 200 ≤ d >>> 1) (hhi : d >>> 1 ≤ 1000) :
    cresta_manchester_decoder s d
      = ({ s with clockTime := d >>> 1, isOne := true, halfBit := 1 }, none) := by
  unfold cresta_manchester_decoder
  have hc : ¬ (d >>> 1 < 200 ∨ d >>> 1 > 1000) := by omega
  simp only [h0, if_true, hc, if_false]

/-- First edge, in general: the clock is recovered and checked against [200,1000]. -/
theorem decoder_idle (s : DecoderState) (d : Nat) (h0 : s.halfBit = 0) :
    cresta_manchester_decoder s d
      = if d >>> 1 < 200 ∨ d >>> 1 > 1000 then ({ s with clockTime := d >>> 1 }, none)
        else ({ s with clockTime := d >>> 1, isOne := true, halfBit := 1 }, none) := by
  unfold cresta_manchester_decoder
  simp only [h0, if_true]

/-- An edge out of tolerance resets the decoder. -/
theorem decoder_reject (s : DecoderState) (d : Nat) (h0 : s.halfBit ≠ 0)
    (ht : ¬ InTolerance s.clockTime d) :
    cresta_manchester_decoder s d = (reset_manchester_decoder s d, none) := by
  unfold cresta_manchester_decoder
  unfold InTolerance at ht
  simp only [h0, if_false, not_not.mp ht, if_true]

/-- A ninth bit that is 1 resets the decoder. -/
theorem decoder_odd_framing (s : DecoderState) (d : Nat) (h0 : s.halfBit ≠ 0)
    (ht : InTolerance s.clockTime d) (ho : s.halfBit &&& 1 = 1) (hw : write_bit s = none) :
    cresta_manchester_decoder s d = (reset_manchester_decoder s d, none) := by
  unfold cresta_manchester_decoder
  unfold InTolerance at ht
  simp only [h0, if_false, ht, ho, ne_eq, one_ne_zero, not_false_eq_true, if_true, hw]

/-- A failed preamble or length check resets the decoder. -/
theorem decoder_odd_header (s s1 s2 : DecoderState) (d : Nat) (h0 : s.halfBit ≠ 0)
    (ht : InTolerance s.clockTime d) (ho : s.halfBit &&& 1 = 1)
    (hw : write_bit s = some s1) (hc : check_header s1 = (s2, false)) :
    cresta_manchester_decoder s d = (reset_manchester_decoder s2 d, none) := by
  unfold cresta_manchester_decoder
  unfold InTolerance at ht
  simp only [h0, if_false, ht, ho, ne_eq, one_ne_zero, not_false_eq_true, if_true, hw, hc]

/-- An in-tolerance edge at an even half-bit index only advances the index. -/
theorem decoder_even (s : DecoderState) (d : Nat) (h0 : s.halfBit ≠ 0)
    (ht : InTolerance s.clockTime d) (he : s.halfBit &&& 1 = 0) :
    cresta_manchester_decoder s d = (advance s d, none) := by
  unfold cresta_manchester_decoder
  unfold InTolerance at ht
  simp only [h0, if_false, ht, he, ne_eq, not_true_eq_false]

/-- An in-tolerance edge at an odd half-bit index below the completion target: the bit is
written, the header checks pass and the index advances. -/
theorem decoder_odd_continue (s s1 s2 : DecoderState) (d : Nat) (h0 : s.halfBit ≠ 0)
    (ht : InTolerance s.clockTime d) (ho : s.halfBit &&& 1 = 1)
    (hw : write_bit s = some s1) (hc : check_header s1 = (s2, true))
    (hlt : s2.halfBit < s2.halfBitCounter) :
    cresta_manchester_decoder s d = (advance s2 d, none) := by
  unfold cresta_manchester_decoder
  unfold InTolerance at ht
  have hge : ¬ (s2.halfBit ≥ s2.halfBitCounter) := by omega
  simp only [h0, if_false, ht, ho, ne_eq, one_ne_zero, not_false_eq_true, if_true, hw, hc, hge]

/-- An in-tolerance edge at an odd half-bit index at or beyond the completion target: the
decoder returns to idle and hands over what `emit_packet` selects. -/
theorem decoder_odd_complete (s s1 s2 : DecoderState) (d : Nat) (h0 : s.halfBit ≠ 0)
    (ht : InTolerance s.clockTime d) (ho : s.halfBit &&& 1 = 1)
    (hw : write_bit s = some s1) (hc : check_header s1 = (s2, true))
    (hge : s2.halfBit ≥ s2.halfBitCounter) :
    cresta_manchester_decoder s d
      = ({ reset_manchester_decoder s2 d with halfBit := 0 }, emit_packet s2) := by
  unfold cresta_manchester_decoder
  unfold InTolerance at ht
  simp only [h0, if_false, ht, ho, ne_eq, one_ne_zero, not_false_eq_true, if_true, hw, hc, hge]

theorem check_header_17 (s : DecoderState) (h : s.halfBit = 17) (hd : s.data.getD 0 0 = 0x75) :
    check_header s = (s, true) := by
  unfold check_header
  simp only [h, if_true, hd, ne_eq, not_true_eq_false, if_false]

theorem check_header_53 (s : DecoderState) (h : s.halfBit = 53)
    (h6 : 6 ≤ announcedLength (s.data.getD 2 0)) (h11 : announcedLength (s.data.getD 2 0) ≤ 11) :
    check_header s = ({ s with
      packageLength := announcedLength (s.data.getD 2 0),
      halfBitCounter := (announcedLength (s.data.getD 2 0) + 3) * 18 - 3 }, true) := by
  have hr : ¬ (announcedLength (s.data.getD 2 0) < 6 ∨ announcedLength (s.data.getD 2 0) > 11) := by
    omega
  have hm : ((announcedLength (s.data.getD 2 0) + 3) * 9 * 2 - 2 - 1) % 256
      = (announcedLength (s.data.getD 2 0) + 3) * 18 - 3 := by omega
  unfold check_header CRESTA_MIN_ANNOUNCED_LEN CRESTA_MAX_ANNOUNCED_LEN
  unfold announcedLength at hr hm ⊢
  simp only [h, if_true, hr, if_false, hm]
  rfl

theorem check_header_other (s : DecoderState) (h17 : s.halfBit ≠ 17) (h53 : s.halfBit ≠ 53) :
    check_header s = (s, true) := by
  unfold check_header
  simp only [h17, h53, if_false]

theorem check_header_17_fail (s : DecoderState) (h : s.halfBit = 17)
    (hd : s.data.getD 0 0 ≠ 0x75) : check_header s = (s, false) := by
  unfold check_header
  simp only [h, if_true, hd, ne_eq, not_false_eq_true]

theorem check_header_53_fail (s : DecoderState) (h : s.halfBit = 53)
    (hr : announcedLength (s.data.getD 2 0) < 6 ∨ announcedLength (s.data.getD 2 0) > 11) :
    check_header s
      = ({ s with packageLength := announcedLength (s.data.getD 2 0) }, false) := by
  unfold check_header CRESTA_MIN_ANNOUNCED_LEN CRESTA_MAX_ANNOUNCED_LEN
  unfold announcedLength at hr ⊢
  simp only [h, if_true, hr]
  rfl

theorem emit_packet_eq (s : DecoderState) :
    emit_packet s =
      if s.halfBitCounter ≠ 0xFF then
        if s.data.getD 0 0 = 0x75 ∧ 6 ≤ announcedLength (s.data.getD 2 0)
            ∧ announcedLength (s.data.getD 2 0) ≤ 11 then some s.data
        else none
      else none := rfl

theorem emit_packet_some (s : DecoderState) (hc : s.halfBitCounter ≠ 0xFF)
    (h0 : s.data.getD 0 0 = 0x75)
    (h6 : 6 ≤ announcedLength (s.data.getD 2 0)) (h11 : announcedLength (s.data.getD 2 0) ≤ 11) :
    emit_packet s = some s.data := by
  rw [emit_packet_eq, if_pos hc, if_pos ⟨h0, h6, h11⟩]

/-- What `emit_packet` hands over is the buffer, its byte 0 is the preamble and the length
derived from its byte 2 is in range. -/
theorem emit_packet_sound (s : DecoderState) (pkt : List Nat) (h : emit_packet s = some pkt) :
    pkt = s.data ∧ pkt.getD 0 0 = 0x75 ∧
      6 ≤ announcedLength (pkt.getD 2 0) ∧ announcedLength (pkt.getD 2 0) ≤ 11 := by
  rw [emit_packet_eq] at h
  split_ifs at h with h1 h2
  have e : pkt = s.data := (Option.some.inj h).symm
  subst e
  exact ⟨rfl, h2.1, h2.2.1, h2.2.2⟩

theorem advance_short (s : DecoderState) (d : Nat)
    (h : d ≤ (s.clockTime + (s.clockTime >>> 1)) % 2 ^ 32) :
    advance s d = { s with halfBit := (s.halfBit + 1) % 256 } := by
  unfold advance
  have : ¬ (d > (s.clockTime + (s.clockTime >>> 1)) % 2 ^ 32) := by omega
  simp only [this, if_false]

theorem advance_long (s : DecoderState) (d : Nat)
    (h : d > (s.clockTime + (s.clockTime >>> 1)) % 2 ^ 32) :
    advance s d = { s with isOne := !s.isOne, halfBit := ((s.halfBit + 1) % 256 + 1) % 256 } := by
  unfold advance
  simp only [h, if_true]

/-! ## Edges of a valid clock -/

theorem tolerance_bounds (C : Nat) (hC : C ≤ 1000) :
    C >>> 1 = C / 2 ∧ ((C <<< 1) % 2 ^ 32 + C) % 2 ^ 32 = 3 * C ∧
      (C + (C >>> 1)) % 2 ^ 32 = C + C / 2 := by
  simp only [Nat.shiftRight_eq_div_pow, Nat.shiftLeft_eq]
  norm_num
  omega

theorem inTolerance_iff (C d : Nat) (hC : C ≤ 1000) :
    InTolerance C d ↔ C / 2 ≤ d ∧ d ≤ 3 * C := by
  obtain ⟨h1, h2, _⟩ := tolerance_bounds C hC
  unfold InTolerance
  rw [h1, h2]
  omega

/-! ## The buffer while a frame is received -/

theorem dataOK_write (p data0 data : List Nat) (n : Nat) (h : DataOK p data0 n data)
    (hn : n / 9 < 14) (hk : n % 9 < 8) :
    DataOK p data0 (n + 1)
      (data.set (n / 9) (putBit (data.getD (n / 9) 0) (n % 9) (bitAt p n))) := by
  obtain ⟨hlen, hb, hbits, hrest⟩ := h
  have hx : data.getD (n / 9) 0 < 256 := getD_lt_of_forall data hb _
  have hin : n / 9 < data.length := by rw [hlen]; exact hn
  refine ⟨by rw [List.length_set]; exact hlen, ?_, ?_, ?_⟩
  · intro b hbm
    rcases List.mem_or_eq_of_mem_set hbm with h1 | h1
    · exact hb b h1
    · rw [h1]; exact putBit_lt hx _ _
  · intro m hm hmk
    rw [getD_set _ _ _ _ hin]
    by_cases hd : m / 9 = n / 9
    · rw [if_pos hd, testBit_putBit hx hk]
      by_cases hmod : m % 9 = n % 9
      · have : m = n := by omega
        rw [if_pos hmod, this]
      · rw [if_neg hmod, ← hd]
        exact hbits m (by omega) hmk
    · rw [if_neg hd]
      exact hbits m (by omega) hmk
  · intro j hj
    rw [getD_set _ _ _ _ hin]
    have : ¬ j = n / 9 := by omega
    rw [if_neg this]
    exact hrest j (by omega)

theorem dataOK_skip (p data0 data : List Nat) (n : Nat) (h : DataOK p data0 n data)
    (hk : ¬ n % 9 < 8) : DataOK p data0 (n + 1) data := by
  obtain ⟨hlen, hb, hbits, hrest⟩ := h
  refine ⟨hlen, hb, ?_, fun j hj => hrest j (by omega)⟩
  intro m hm hmk
  have : m ≠ n := fun e => hk (e ▸ hmk)
  exact hbits m (by omega) hmk

/-- Once the eight data bits of byte `j` are in place the byte is that of the frame. -/
theorem dataOK_byte (p data0 data : List Nat) (n j : Nat) (h : DataOK p data0 n data)
    (hj : 9 * j + 8 ≤ n) (hp : ∀ b ∈ p, b < 256) : data.getD j 0 = p.getD j 0 := by
  obtain ⟨_, hb, hbits, _⟩ := h
  apply byte_eq_of_testBit (getD_lt_of_forall data hb j) (getD_lt_of_forall p hp j)
  intro i hi
  have h1 := hbits (9 * j + i) (by omega) (by omega)
  have e1 : (9 * j + i) / 9 = j := by omega
  have e2 : (9 * j + i) % 9 = i := by omega
  unfold bitAt at h1
  rw [e1, e2, if_pos hi] at h1
  exact h1

/-! ## One edge of a synchronised decoder -/

/-- At the edge that completes bit `n` the bit is written and the header checks pass. -/
theorem synced_prepare (C : Nat) (p data0 : List Nat) (hbc0 n : Nat) (s : DecoderState)
    (hp : IsFrame p) (hs : Synced C p data0 hbc0 n s)
    (hn : n + 1 < 9 * (announcedLength (p.getD 2 0) + 3)) :
    ∃ s1 s2, write_bit s = some s1 ∧ check_header s1 = (s2, true) ∧
      s2.halfBit = 2 * n + 1 ∧ s2.clockTime = C ∧ s2.isOne = bitAt p n ∧
      DataOK p data0 (n + 1) s2.data ∧
      s2.halfBitCounter
        = if n + 1 ≤ 26 then hbc0 else (announcedLength (p.getD 2 0) + 3) * 18 - 3 := by
  obtain ⟨hh, hc, hi, hd, ht⟩ := hs
  obtain ⟨hpb, hp0, hp6, hp11, _⟩ := hp
  have e1 : (s.halfBit >>> 1) % 9 = n % 9 := by
    rw [hh, Nat.shiftRight_eq_div_pow, Nat.pow_one]; omega
  have e2 : s.halfBit / 18 = n / 9 := by rw [hh]; omega
  have hn14 : n / 9 < 14 := by omega
  -- the bit write
  have hw : ∃ data1, write_bit s = some { s with data := data1 } ∧
      DataOK p data0 (n + 1) data1 := by
    rw [write_bit_eq, e1, e2]
    by_cases hk : n % 9 < 8
    · rw [if_pos hk, if_pos hn14, hi]
      exact ⟨_, rfl, dataOK_write p data0 s.data n hd hn14 hk⟩
    · have hf : s.isOne = false := by rw [hi]; unfold bitAt; rw [if_neg hk]
      refine ⟨s.data, ?_, dataOK_skip p data0 s.data n hd hk⟩
      rw [if_neg hk, if_neg (by rw [hf]; decide)]
  obtain ⟨data1, hw1, hd1⟩ := hw
  refine ⟨{ s with data := data1 }, ?_⟩
  by_cases h8 : n = 8
  · -- preamble check
    have hb0 : data1.getD 0 0 = 0x75 := by
      rw [dataOK_byte p data0 data1 (n + 1) 0 hd1 (by omega) hpb]; exact hp0
    refine ⟨_, hw1, check_header_17 _ (by show s.halfBit = 17; omega) hb0, hh, hc, hi, hd1, ?_⟩
    show s.halfBitCounter = _
    rw [ht, if_pos (by omega), if_pos (by omega)]
  · by_cases h26 : n = 26
    · -- length announcement
      have hb2 : data1.getD 2 0 = p.getD 2 0 :=
        dataOK_byte p data0 data1 (n + 1) 2 hd1 (by omega) hpb
      have hc53 := check_header_53 { s with data := data1 } (by show s.halfBit = 53; omega)
        (by show 6 ≤ announcedLength (data1.getD 2 0); rw [hb2]; exact hp6)
        (by show announcedLength (data1.getD 2 0) ≤ 11; rw [hb2]; exact hp11)
      refine ⟨_, hw1, hc53, hh, hc, hi, hd1, ?_⟩
      show (announcedLength (data1.getD 2 0) + 3) * 18 - 3 = _
      rw [hb2, if_neg (by omega)]
    · refine ⟨_, hw1, check_header_other _ (by show s.halfBit ≠ 17; omega)
        (by show s.halfBit ≠ 53; omega), hh, hc, hi, hd1, ?_⟩
      show s.halfBitCounter = _
      rw [ht]
      by_cases hle : n ≤ 26
      · rw [if_pos hle, if_pos (by omega)]
      · rw [if_neg hle, if_neg (by omega)]

/-- A long edge carries the decoder from bit `n` to a differing bit `n + 1`. -/
theorem synced_long (C : Nat) (p data0 : List Nat) (hbc0 n : Nat) (s : DecoderState)
    (hC : 200 ≤ C ∧ C ≤ 1000) (hp : IsFrame p) (h0 : 52 ≤ hbc0)
    (hs : Synced C p data0 hbc0 n s)
    (hn : n + 2 < 9 * (announcedLength (p.getD 2 0) + 3))
    (hb : bitAt p (n + 1) ≠ bitAt p n) :
    ∃ s', cresta_manchester_decoder s (2 * C) = (s', none) ∧
      Synced C p data0 hbc0 (n + 1) s' := by
  obtain ⟨s1, s2, hw, hc, hh2, hc2, hi2, hd2, ht2⟩ :=
    synced_prepare C p data0 hbc0 n s hp hs (by omega)
  obtain ⟨hh, hcl, _, _, _⟩ := hs
  obtain ⟨_, _, _, hp11, _⟩ := hp
  obtain ⟨_, _, t3⟩ := tolerance_bounds C hC.2
  have hlt : s2.halfBit < s2.halfBitCounter := by
    rw [hh2, ht2]
    by_cases hle : n + 1 ≤ 26
    · rw [if_pos hle]; omega
    · rw [if_neg hle]; omega
  have hstep := decoder_odd_continue s s1 s2 (2 * C) (by omega)
    (by rw [hcl]; exact (inTolerance_iff C (2 * C) hC.2).mpr (by omega))
    (by rw [hh, Nat.and_one_is_mod]; omega) hw hc hlt
  rw [advance_long s2 (2 * C) (by rw [hc2, t3]; omega)] at hstep
  refine ⟨_, hstep, ?_, hc2, ?_, hd2, ht2⟩
  · show ((s2.halfBit + 1) % 256 + 1) % 256 = 2 * (n + 1) + 1
    rw [hh2]; omega
  · show (!s2.isOne) = bitAt p (n + 1)
    rw [hi2]
    cases h1 : bitAt p (n + 1) <;> cases h2 : bitAt p n <;> simp_all

/-- Two short edges carry the decoder from bit `n` to an equal bit `n + 1`. -/
theorem synced_short (C : Nat) (p data0 : List Nat) (hbc0 n : Nat) (s : DecoderState)
    (hC : 200 ≤ C ∧ C ≤ 1000) (hp : IsFrame p) (h0 : 52 ≤ hbc0)
    (hs : Synced C p data0 hbc0 n s)
    (hn : n + 2 < 9 * (announcedLength (p.getD 2 0) + 3))
    (hb : bitAt p (n + 1) = bitAt p n) :
    ∃ s' t2, cresta_manchester_decoder s C = (s', none) ∧
      cresta_manchester_decoder s' C = (t2, none) ∧
      Synced C p data0 hbc0 (n + 1) t2 := by
  obtain ⟨s1, s2, hw, hc, hh2, hc2, hi2, hd2, ht2⟩ :=
    synced_prepare C p data0 hbc0 n s hp hs (by omega)
  obtain ⟨hh, hcl, _, _, _⟩ := hs
  obtain ⟨_, _, _, hp11, _⟩ := hp
  obtain ⟨_, _, t3⟩ := tolerance_bounds C hC.2
  have hlt : s2.halfBit < s2.halfBitCounter := by
    rw [hh2, ht2]
    by_cases hle : n + 1 ≤ 26
    · rw [if_pos hle]; omega
    · rw [if_neg hle]; omega
  have htol : InTolerance C C := (inTolerance_iff C C hC.2).mpr (by omega)
  have hstep := decoder_odd_continue s s1 s2 C (by omega) (by rw [hcl]; exact htol)
    (by rw [hh, Nat.and_one_is_mod]; omega) hw hc hlt
  rw [advance_short s2 C (by rw [hc2, t3]; omega)] at hstep
  have hstep2 := decoder_even { s2 with halfBit := (s2.halfBit + 1) % 256 } C
    (by show (s2.halfBit + 1) % 256 ≠ 0; rw [hh2]; omega)
    (by show InTolerance s2.clockTime C; rw [hc2]; exact htol)
    (by show (s2.halfBit + 1) % 256 &&& 1 = 0; rw [hh2, Nat.and_one_is_mod]; omega)
  rw [advance_short _ C (by show C ≤ (s2.clockTime + (s2.clockTime >>> 1)) % 2 ^ 32
                            rw [hc2, t3]; omega)] at hstep2
  refine ⟨_, _, hstep, hstep2, ?_, hc2, ?_, hd2, ht2⟩
  · show ((s2.halfBit + 1) % 256 + 1) % 256 = 2 * (n + 1) + 1
    rw [hh2]; omega
  · show s2.isOne = bitAt p (n + 1)
    rw [hi2, hb]

/-- The closing edge: the edge that completes the last bit of the frame makes the decoder
hand over the buffer, which holds the frame, and return to idle. -/
theorem synced_close (C : Nat) (p data0 : List Nat) (hbc0 n d : Nat) (s : DecoderState)
    (hp : IsFrame p)
    (hs : Synced C p data0 hbc0 n s)
    (hn : n + 2 = 9 * (announcedLength (p.getD 2 0) + 3))
    (hd : InTolerance C d) :
    ∃ s' pkt, cresta_manchester_decoder s d = (s', some pkt) ∧
      s'.halfBit = 0 ∧ s'.halfBitCounter = 0xFF ∧ s'.data = pkt ∧
      DataOK p data0 (n + 1) pkt := by
  obtain ⟨s1, s2, hw, hc, hh2, hc2, hi2, hd2, ht2⟩ :=
    synced_prepare C p data0 hbc0 n s hp hs (by omega)
  obtain ⟨hh, hcl, _, _, _⟩ := hs
  obtain ⟨hpb, hp0, hp6, hp11, _⟩ := hp
  have hT : s2.halfBitCounter = (announcedLength (p.getD 2 0) + 3) * 18 - 3 := by
    rw [ht2, if_neg (by omega)]
  have hstep := decoder_odd_complete s s1 s2 d (by omega) (by rw [hcl]; exact hd)
    (by rw [hh, Nat.and_one_is_mod]; omega) hw hc (by rw [hh2, hT]; omega)
  have hb0 : s2.data.getD 0 0 = p.getD 0 0 := dataOK_byte p data0 _ (n + 1) 0 hd2 (by omega) hpb
  have hb2 : s2.data.getD 2 0 = p.getD 2 0 := dataOK_byte p data0 _ (n + 1) 2 hd2 (by omega) hpb
  rw [emit_packet_some s2 (by rw [hT]; omega) (by rw [hb0]; exact hp0)
    (by rw [hb2]; exact hp6) (by rw [hb2]; exact hp11)] at hstep
  exact ⟨_, _, hstep, rfl, rfl, rfl, hd2⟩

/-- The sync edge: an idle decoder that sees an edge of twice a valid clock is
synchronised on the first bit of the frame. -/
theorem synced_start (C : Nat) (p : List Nat) (s : DecoderState)
    (hC : 200 ≤ C ∧ C ≤ 1000) (hp : IsFrame p) (h0 : s.halfBit = 0)
    (hlen : s.data.length = 14) (hb : ∀ b ∈ s.data, b < 256) :
    ∃ s', cresta_manchester_decoder s (2 * C) = (s', none) ∧
      Synced C p s.data s.halfBitCounter 0 s' := by
  have e : (2 * C) >>> 1 = C := by
    rw [Nat.shiftRight_eq_div_pow, Nat.pow_one]; omega
  have hstep := decoder_first_edge s (2 * C) h0 (by rw [e]; exact hC.1) (by rw [e]; exact hC.2)
  rw [e] at hstep
  refine ⟨_, hstep, rfl, rfl, ?_, ⟨hlen, hb, fun m hm _ => absurd hm (by omega),
    fun _ _ => rfl⟩, rfl⟩
  show true = bitAt p 0
  unfold bitAt
  rw [hp.2.1]
  decide

/-! ## Runs of the decoder -/

theorem feed_cons (s : DecoderState) (d : Nat) (ds : List Nat) :
    feed s (d :: ds)
      = ((feed (cresta_manchester_decoder s d).1 ds).1,
          (cresta_manchester_decoder s d).2 :: (feed (cresta_manchester_decoder s d).1 ds).2) :=
  rfl

theorem feed_append (s : DecoderState) (a b : List Nat) :
    feed s (a ++ b) = ((feed (feed s a).1 b).1, (feed s a).2 ++ (feed (feed s a).1 b).2) := by
  induction a generalizing s with
  | nil => rfl
  | cons d ds ih =>
    rw [List.cons_append, feed_cons, ih, feed_cons, List.cons_append]

theorem feed_length (s : DecoderState) (ds : List Nat) : (feed s ds).2.length = ds.length := by
  induction ds generalizing s with
  | nil => rfl
  | cons d ds ih => simp only [feed, List.length_cons, ih]

/-- The edges of the bits `n + 1 .. n + k` carry a synchronised decoder from bit `n` to
bit `n + k` without any packet being handed over. -/
theorem synced_run (C : Nat) (p data0 : List Nat) (hbc0 : Nat)
    (hC : 200 ≤ C ∧ C ≤ 1000) (hp : IsFrame p) (h0 : 52 ≤ hbc0) :
    ∀ (k n : Nat) (s : DecoderState), Synced C p data0 hbc0 n s →
      n + k + 1 < 9 * (announcedLength (p.getD 2 0) + 3) →
      ∃ s', Synced C p data0 hbc0 (n + k) s' ∧
        feed s (bitEdges C (bitAt p n) ((List.range' (n + 1) k).map (bitAt p)))
          = (s', List.replicate
              (bitEdges C (bitAt p n) ((List.range' (n + 1) k).map (bitAt p))).length none) := by
  intro k
  induction k with
  | zero =>
    intro n s hs _
    exact ⟨s, hs, rfl⟩
  | succ k ih =>
    intro n s hs hn
    rw [List.range'_succ, List.map_cons]
    unfold bitEdges
    by_cases hb : bitAt p (n + 1) = bitAt p n
    · obtain ⟨s', t2, h1, h2, ht2⟩ := synced_short C p data0 hbc0 n s hC hp h0 hs (by omega) hb
      obtain ⟨t, ht, hrun⟩ := ih (n + 1) t2 ht2 (by omega)
      refine ⟨t, by rw [show n + (k + 1) = n + 1 + k by omega]; exact ht, ?_⟩
      rw [if_pos hb]
      simp only [feed_cons, h1, h2, hrun, List.cons_append, List.nil_append, List.length_cons,
        List.replicate_succ]
    · obtain ⟨s', h1, hs'⟩ := synced_long C p data0 hbc0 n s hC hp h0 hs (by omega) hb
      obtain ⟨t, ht, hrun⟩ := ih (n + 1) s' hs' (by omega)
      refine ⟨t, by rw [show n + (k + 1) = n + 1 + k by omega]; exact ht, ?_⟩
      rw [if_neg hb]
      simp only [feed_cons, h1, hrun, List.cons_append, List.nil_append, List.length_cons,
        List.replicate_succ]

/-! ## The bit stream of a frame -/

theorem bitAt_cons (b : Nat) (bs : List Nat) (i : Nat) :
    bitAt (b :: bs) (9 + i) = bitAt bs i := by
  unfold bitAt
  have e1 : (9 + i) % 9 = i % 9 := by omega
  have e2 : (9 + i) / 9 = i / 9 + 1 := by omega
  rw [e1, e2]
  rfl

theorem map_bitAt_shift (b : Nat) (bs : List Nat) (m : Nat) :
    (List.range' 9 m).map (bitAt (b :: bs)) = (List.range' 0 m).map (bitAt bs) := by
  have h : ∀ (m a : Nat), (List.range' (9 + a) m).map (bitAt (b :: bs))
      = (List.range' a m).map (bitAt bs) := by
    intro m
    induction m with
    | zero => intro a; rfl
    | succ m ih =>
      intro a
      rw [List.range'_succ, List.range'_succ, List.map_cons, List.map_cons, bitAt_cons]
      rw [show 9 + a + 1 = 9 + (a + 1) by omega, ih]
  exact h m 0

/-- The bit stream of a frame, bit by bit. -/
theorem frameBits_eq (p : List Nat) :
    frameBits p = (List.range' 0 (9 * p.length - 1)).map (bitAt p) := by
  induction p with
  | nil => rfl
  | cons b bs ih =>
    cases bs with
    | nil => rfl
    | cons b2 bs =>
      have e : 9 * (b :: b2 :: bs).length - 1 = (9 * (b2 :: bs).length - 1) + 9 := by
        simp only [List.length_cons]; omega
      rw [e, ← List.range'_append 0 9 _ 1, List.map_append]
      show byteBits b ++ false :: frameBits (b2 :: bs) = _
      rw [ih, show 0 + 1 * 9 = 9 by rfl, map_bitAt_shift]
      rfl

/-! ## The round trip -/

/-- The edges of a frame, fed to an idle decoder, make it hand over exactly one packet,
on the closing edge: the frame in bytes `0..L+2`, the old buffer beyond. -/
theorem round_trip (C : Nat) (p : List Nat) (closing : Nat) (s : DecoderState)
    (hC : 200 ≤ C ∧ C ≤ 1000) (hp : IsFrame p) (hcl : InTolerance C closing)
    (h0 : s.halfBit = 0) (hlen : s.data.length = 14) (hb : ∀ b ∈ s.data, b < 256)
    (hh : 52 ≤ s.halfBitCounter) :
    ∃ s' pkt, feed s (manchesterEdges C p closing)
        = (s', List.replicate ((manchesterEdges C p closing).length - 1) none ++ [some pkt]) ∧
      s'.halfBit = 0 ∧ s'.halfBitCounter = 0xFF ∧ s'.data = pkt ∧ pkt.length = 14 ∧
      (∀ b ∈ pkt, b < 256) ∧
      (∀ j, j < announcedLength (p.getD 2 0) + 3 → pkt.getD j 0 = p.getD j 0) ∧
      (∀ j, announcedLength (p.getD 2 0) + 3 ≤ j → pkt.getD j 0 = s.data.getD j 0) := by
  have hpl := hp.2.2.2.2
  have hfb : frameBits p = bitAt p 0 ::
      (List.range' 1 (9 * (announcedLength (p.getD 2 0) + 3) - 2)).map (bitAt p) := by
    rw [frameBits_eq, hpl,
      show 9 * (announcedLength (p.getD 2 0) + 3) - 1
        = (9 * (announcedLength (p.getD 2 0) + 3) - 2) + 1 by omega,
      List.range'_succ, List.map_cons]
  obtain ⟨s1, hs1, hsync⟩ := synced_start C p s hC hp h0 hlen hb
  obtain ⟨t, ht, hrun⟩ := synced_run C p s.data s.halfBitCounter hC hp hh
    (9 * (announcedLength (p.getD 2 0) + 3) - 2) 0 s1 hsync (by omega)
  obtain ⟨s', pkt, hclose, hz, hc, hd, hok⟩ := synced_close C p s.data s.halfBitCounter
    (0 + (9 * (announcedLength (p.getD 2 0) + 3) - 2)) closing t hp ht (by omega) hcl
  refine ⟨s', pkt, ?_, hz, hc, hd, hok.1, hok.2.1, ?_, ?_⟩
  · unfold manchesterEdges
    rw [hfb]
    simp only [feed_cons, feed_append, hs1, hrun, hclose, List.length_cons, List.length_append,
      List.length_nil, List.replicate_succ, List.cons_append, List.nil_append,
      Nat.add_sub_cancel, List.replicate_add, List.replicate_zero, List.append_nil, feed]
  · intro j hj
    exact dataOK_byte p s.data pkt _ j hok (by omega) hp.1
  · intro j hj
    exact hok.2.2.2 j (by omega)

/-! ## Reachable decoder states -/

theorem write_bit_inv (s s1 : DecoderState) (h : DecoderInv s) (hw : write_bit s = some s1) :
    DecoderInv s1 := by
  rw [write_bit_eq] at hw
  obtain ⟨hlen, hb, ht⟩ := h
  split_ifs at hw with h1 h2 h3
  · have e := (Option.some.inj hw).symm
    subst e
    refine ⟨by show (s.data.set _ _).length = 14; rw [List.length_set]; exact hlen, ?_, ht⟩
    intro b hbm
    rcases List.mem_or_eq_of_mem_set hbm with hm | hm
    · exact hb b hm
    · rw [hm]; exact putBit_lt (getD_lt_of_forall s.data hb _) _ _
  · have e := (Option.some.inj hw).symm
    subst e
    exact ⟨hlen, hb, ht⟩
  · have e := (Option.some.inj hw).symm
    subst e
    exact ⟨hlen, hb, ht⟩

theorem check_header_inv (s : DecoderState) (h : DecoderInv s) :
    DecoderInv (check_header s).1 := by
  obtain ⟨hlen, hb, ht⟩ := h
  by_cases h17 : s.halfBit = 17
  · by_cases h0 : s.data.getD 0 0 = 0x75
    · rw [check_header_17 s h17 h0]; exact ⟨hlen, hb, ht⟩
    · rw [check_header_17_fail s h17 h0]; exact ⟨hlen, hb, ht⟩
  · by_cases h53 : s.halfBit = 53
    · by_cases hr : 6 ≤ announcedLength (s.data.getD 2 0) ∧ announcedLength (s.data.getD 2 0) ≤ 11
      · rw [check_header_53 s h53 hr.1 hr.2]
        refine ⟨hlen, hb, Or.inr ?_⟩
        show 159 ≤ (announcedLength (s.data.getD 2 0) + 3) * 18 - 3
          ∧ (announcedLength (s.data.getD 2 0) + 3) * 18 - 3 ≤ 249
        omega
      · rw [check_header_53_fail s h53 (by omega)]
        exact ⟨hlen, hb, ht⟩
    · rw [check_header_other s h17 h53]; exact ⟨hlen, hb, ht⟩

theorem advance_inv (s : DecoderState) (d : Nat) (h : DecoderInv s) :
    DecoderInv (advance s d) := by
  unfold advance
  split_ifs <;> exact h

theorem reset_inv (s : DecoderState) (d : Nat) (h : DecoderInv s) :
    DecoderInv (reset_manchester_decoder s d) :=
  ⟨h.1, h.2.1, Or.inl rfl⟩

/-- Every call of the decoder preserves the invariant. -/
theorem decoder_inv_step (s : DecoderState) (d : Nat) (h : DecoderInv s) :
    DecoderInv (cresta_manchester_decoder s d).1 := by
  by_cases h0 : s.halfBit = 0
  · rw [decoder_idle s d h0]
    split_ifs <;> exact h
  · by_cases ht : InTolerance s.clockTime d
    · by_cases he : s.halfBit &&& 1 = 0
      · rw [decoder_even s d h0 ht he]
        exact advance_inv s d h
      · have ho : s.halfBit &&& 1 = 1 := by
          rw [Nat.and_one_is_mod] at he ⊢; omega
        cases hw : write_bit s with
        | none => rw [decoder_odd_framing s d h0 ht ho hw]; exact reset_inv s d h
        | some s1 =>
          have i1 := write_bit_inv s s1 h hw
          have i2 := check_header_inv s1 i1
          cases hc : check_header s1 with
          | mk s2 ok =>
          rw [hc] at i2
          cases ok with
          | false => rw [decoder_odd_header s s1 s2 d h0 ht ho hw hc]; exact reset_inv s2 d i2
          | true =>
            by_cases hge : s2.halfBit ≥ s2.halfBitCounter
            · rw [decoder_odd_complete s s1 s2 d h0 ht ho hw hc hge]
              exact ⟨i2.1, i2.2.1, Or.inl rfl⟩
            · rw [decoder_odd_continue s s1 s2 d h0 ht ho hw hc (by omega)]
              exact advance_inv s2 d i2
    · rw [decoder_reject s d h0 ht]
      exact reset_inv s d h

theorem reachable_inv (s : DecoderState) (h : Reachable s) : DecoderInv s := by
  induction h with
  | init => exact ⟨rfl, by decide, Or.inl rfl⟩
  | step s d _ _ ih => exact decoder_inv_step s d ih

/-! ## Validator: corrupted packets -/

theorem foldl_congr_mem {α β : Type} (f g : β → α → β) (l : List α)
    (h : ∀ x ∈ l, ∀ b, f b x = g b x) (b : β) : l.foldl f b = l.foldl g b := by
  induction l generalizing b with
  | nil => rfl
  | cons x xs ih =>
    rw [List.foldl_cons, List.foldl_cons, h x (List.mem_cons_self x xs) b]
    exact ih (fun y hy => h y (List.mem_cons_of_mem x hy)) _

/-- The checksums read the bytes `1..L+1` only. -/
theorem checksum_congr (raw raw' : List Nat) (L : Nat)
    (h : ∀ i, 1 ≤ i → i ≤ L + 1 → raw.getD i 0 = raw'.getD i 0) :
    checksumA raw L = checksumA raw' L ∧ checksumB raw L = checksumB raw' L := by
  have hm : ∀ i ∈ List.range' 1 (L + 1), raw.getD i 0 = raw'.getD i 0 := by
    intro i hi
    have := List.mem_range'_1.mp hi
    exact h i this.1 (by omega)
  unfold checksumA checksumB
  exact ⟨foldl_congr_mem _ _ _ (fun i hi b => by rw [hm i hi]) 0,
    foldl_congr_mem _ _ _ (fun i hi b => by rw [hm i hi]) 0⟩

theorem isPacket_set (raw : List Nat) (hp : IsPacket raw) (i v : Nat) (hv : v < 256) :
    IsPacket (raw.set i v) := by
  refine ⟨by rw [List.length_set]; exact hp.1, ?_⟩
  intro b hb
  rcases List.mem_or_eq_of_mem_set hb with h | h
  · exact hp.2 b h
  · rw [h]; exact hv

/-- A different checksum-B byte makes an accepted packet a rejected one. -/
theorem corrupt_checksumB_rejected (raw : List Nat) (v : Nat) (hp : IsPacket raw)
    (hacc : (decrypt_and_check raw).2 = false) (hv : v < 256)
    (hne : v ≠ raw.getD (announcedLength (raw.getD 2 0) + 2) 0) :
    (decrypt_and_check (raw.set (announcedLength (raw.getD 2 0) + 2) v)).2 = true := by
  obtain ⟨h6, h11, hA, hB⟩ := (decrypt_and_check_accepts raw hp).mp hacc
  have hin : announcedLength (raw.getD 2 0) + 2 < raw.length := by rw [hp.1]; omega
  have h2 : (raw.set (announcedLength (raw.getD 2 0) + 2) v).getD 2 0 = raw.getD 2 0 := by
    rw [getD_set _ _ _ _ hin, if_neg (by omega)]
  have hcs := checksum_congr (raw.set (announcedLength (raw.getD 2 0) + 2) v) raw
    (announcedLength (raw.getD 2 0))
    (fun i _ hi => by rw [getD_set _ _ _ _ hin, if_neg (by omega)])
  cases hr : (decrypt_and_check (raw.set (announcedLength (raw.getD 2 0) + 2) v)).2 with
  | true => rfl
  | false =>
    obtain ⟨_, _, _, hB'⟩ :=
      (decrypt_and_check_accepts _ (isPacket_set raw hp _ v hv)).mp hr
    rw [h2, hcs.2, hB, getD_set _ _ _ _ hin, if_pos rfl] at hB'
    exact absurd hB'.symm hne

/-! ## The work function -/

/-- A record that `decrypt_and_check` rejects is taken from the FIFO and dropped. -/
theorem record_rejected (k : Module) (e : Env) (raw : List Nat) (rest : List (List Nat))
    (hq : k.rawdata_kfifo = raw :: rest) (hrej : (decrypt_and_check raw).2 = true) :
    handle_encrypted_record k e = k ∨
      handle_encrypted_record k e = { k with rawdata_kfifo := rest } := by
  unfold handle_encrypted_record
  cases e.kzalloc_ok with
  | false => exact Or.inl rfl
  | true =>
    right
    simp only [hq, if_true, hrej, Bool.not_true, Bool.false_eq_true, if_false]
    split_ifs <;> rfl

/-! ## What the decoder hands over -/

/-- A call of the decoder hands over a packet only through `emit_packet`, at an odd
half-bit index at or beyond the completion target, after the bit write and the header
checks went through. -/
theorem decoder_output (s : DecoderState) (d : Nat) (pkt : List Nat)
    (h : (cresta_manchester_decoder s d).2 = some pkt) :
    s.halfBit ≠ 0 ∧ InTolerance s.clockTime d ∧ s.halfBit &&& 1 = 1 ∧
    ∃ s1 s2, write_bit s = some s1 ∧ check_header s1 = (s2, true) ∧
      s2.halfBit ≥ s2.halfBitCounter ∧ emit_packet s2 = some pkt := by
  by_cases h0 : s.halfBit = 0
  · rw [decoder_idle s d h0] at h
    split_ifs at h
  · by_cases ht : InTolerance s.clockTime d
    · by_cases he : s.halfBit &&& 1 = 0
      · rw [decoder_even s d h0 ht he] at h
        exact Option.noConfusion h
      · have ho : s.halfBit &&& 1 = 1 := by
          rw [Nat.and_one_is_mod] at he ⊢; omega
        cases hw : write_bit s with
        | none =>
          rw [decoder_odd_framing s d h0 ht ho hw] at h
          exact Option.noConfusion h
        | some s1 =>
          cases hc : check_header s1 with
          | mk s2 ok =>
          cases ok with
          | false =>
            rw [decoder_odd_header s s1 s2 d h0 ht ho hw hc] at h
            exact Option.noConfusion h
          | true =>
            by_cases hge : s2.halfBit ≥ s2.halfBitCounter
            · rw [decoder_odd_complete s s1 s2 d h0 ht ho hw hc hge] at h
              exact ⟨h0, ht, ho, s1, s2, rfl, hc, hge, h⟩
            · rw [decoder_odd_continue s s1 s2 d h0 ht ho hw hc (by omega)] at h
              exact Option.noConfusion h
    · rw [decoder_reject s d h0 ht] at h
      exact Option.noConfusion h

/-- With an announced length in range, `decrypt_and_check` is its loop followed by the
two checksum tests. -/
theorem decrypt_and_check_in_range (raw : List Nat)
    (hL : 6 ≤ announcedLength (raw.getD 2 0) ∧ announcedLength (raw.getD 2 0) ≤ 11) :
    decrypt_and_check raw =
      if (decryptLoop raw).cs1 ≠ 0 then ((decryptLoop raw).raw_data, true)
      else if (decryptLoop raw).cs2
          ≠ (decryptLoop raw).raw_data.getD (announcedLength (raw.getD 2 0) + 2) 0 then
        ((decryptLoop raw).raw_data, true)
      else ((decryptLoop raw).raw_data, false) := by
  rw [decrypt_and_check_unfold, if_pos hL]
  rfl

/-- A FIFO of rejected records is drained without any change to the registry. -/
theorem loop_rejected (es : List Env) :
    ∀ (k : Module), (∀ raw ∈ k.rawdata_kfifo, (decrypt_and_check raw).2 = true) →
      (handle_encrypted_sensor_data k es).heap = k.heap ∧
      (handle_encrypted_sensor_data k es).cresta_sensor_list = k.cresta_sensor_list ∧
      (handle_encrypted_sensor_data k es).sensor_counts = k.sensor_counts ∧
      (handle_encrypted_sensor_data k es).devices = k.devices := by
  induction es with
  | nil => intro k _; exact ⟨rfl, rfl, rfl, rfl⟩
  | cons e es ih =>
    intro k hall
    unfold handle_encrypted_sensor_data
    cases hq : k.rawdata_kfifo with
    | nil => exact ⟨rfl, rfl, rfl, rfl⟩
    | cons raw rest =>
      have hrej : (decrypt_and_check raw).2 = true := hall raw (by rw [hq]; exact List.mem_cons_self _ _)
      simp only [List.isEmpty_cons, Bool.false_eq_true, if_false]
      rcases record_rejected k e raw rest hq hrej with h | h
      · rw [h]; exact ih k hall
      · rw [h]
        exact ih { k with rawdata_kfifo := rest }
          (fun r hr => hall r (by rw [hq]; exact List.mem_cons_of_mem _ hr))

/-! ## Resolve-or-create -/

/-- Publishing to the sensor found for the packet's address. -/
theorem handle_existing (k : Module) (e : Env) (d : cresta_measurement_data) (q : Nat)
    (hg : get_cresta_sensor_by_address k d.sensor_address = some q) :
    (handle_decrypted_sensor_data k e d).2 = 0 ∧
    get_cresta_sensor_by_address (handle_decrypted_sensor_data k e d).1 d.sensor_address
      = some q ∧
    (∃ dev, k.deref q = some dev ∧ dev.sensor_addr = d.sensor_address ∧
      (handle_decrypted_sensor_data k e d).1.deref q
        = some ⟨dev.sensor_addr, dev.sensor_type, some d⟩) ∧
    (∀ r, r ≠ q → (handle_decrypted_sensor_data k e d).1.deref r = k.deref r) ∧
    (handle_decrypted_sensor_data k e d).1.cresta_sensor_list = k.cresta_sensor_list ∧
    (handle_decrypted_sensor_data k e d).1.heap.length = k.heap.length := by
  rw [handle_found k e d q hg]
  obtain ⟨_, dev, hdev, haddr⟩ := get_eq_some k _ q hg
  refine ⟨update_ret k q d, ?_, ⟨dev, hdev, haddr, ?_⟩, ?_, update_list k q d,
    update_heap_length k q d⟩
  · rw [← hg]
    exact get_congr _ k _ (update_list k q d) (fun r _ => addrOf_update k q r d)
  · rw [deref_update, if_pos rfl, hdev]; rfl
  · intro r hr
    rw [deref_update, if_neg hr]

/-- Creating the sensor for a packet with an unknown address and publishing to it. -/
theorem handle_created (k : Module) (hk : k.WF) (e : Env) (d : cresta_measurement_data)
    (hg : get_cresta_sensor_by_address k d.sensor_address = none)
    (he : e.kmalloc_ok = true) :
    (handle_decrypted_sensor_data k e d).2 = 0 ∧
    get_cresta_sensor_by_address (handle_decrypted_sensor_data k e d).1 d.sensor_address
      = some k.heap.length ∧
    (handle_decrypted_sensor_data k e d).1.deref k.heap.length
      = some ⟨d.sensor_address, d.sensor_type, some d⟩ ∧
    (∀ r, r ≠ k.heap.length → (handle_decrypted_sensor_data k e d).1.deref r = k.deref r) ∧
    (handle_decrypted_sensor_data k e d).1.cresta_sensor_list
      = k.heap.length :: k.cresta_sensor_list ∧
    (handle_decrypted_sensor_data k e d).1.heap.length = k.heap.length + 1 := by
  rw [handle_new k hk e d hg he]
  have hd : (update_cresta_sensor_data
      (make_device_entry (withNewSensor k d.sensor_address d.sensor_type) e.cdev_add_ok
        k.heap.length) k.heap.length d).1.deref k.heap.length
      = some ⟨d.sensor_address, d.sensor_type, some d⟩ := by
    rw [deref_update, if_pos rfl, make_device_entry_deref, deref_withNewSensor_new]; rfl
  have hl : (update_cresta_sensor_data
      (make_device_entry (withNewSensor k d.sensor_address d.sensor_type) e.cdev_add_ok
        k.heap.length) k.heap.length d).1.cresta_sensor_list
      = k.heap.length :: k.cresta_sensor_list := by
    rw [update_list, make_device_entry_list]; rfl
  refine ⟨update_ret _ _ _, ?_, hd, ?_, hl, ?_⟩
  · unfold get_cresta_sensor_by_address
    rw [hl, List.find?_cons_of_pos]
    rw [hd]
    exact beq_self_eq_true _
  · intro r hr
    rw [deref_update, if_neg hr, make_device_entry_deref]
    by_cases hlt : r < k.heap.length
    · exact deref_withNewSensor_old k _ _ r hlt
    · have h1 : (withNewSensor k d.sensor_address d.sensor_type).deref r = none := by
        show (k.heap ++ [_]).getD r none = none
        rw [List.getD_eq_getElem?_getD, List.getElem?_eq_none (by simp; omega)]; rfl
      have h2 : k.deref r = none := by
        show k.heap.getD r none = none
        rw [List.getD_eq_getElem?_getD, List.getElem?_eq_none (by omega)]; rfl
      rw [h1, h2]
  · rw [update_heap_length, make_device_entry_heap]
    show (k.heap ++ [_]).length = _
    simp

/-! ## Lists given byte by byte -/

theorem list_eq_of_getD (l1 l2 : List Nat) (hl : l1.length = l2.length)
    (h : ∀ j, j < l1.length → l1.getD j 0 = l2.getD j 0) : l1 = l2 := by
  apply List.ext_getElem hl
  intro j h1 h2
  have := h j h1
  rw [List.getD_eq_getElem _ _ h1, List.getD_eq_getElem _ _ h2] at this
  exact this

theorem take_eq_of_getD (pkt p : List Nat) (hp : p.length ≤ pkt.length)
    (h : ∀ j, j < p.length → pkt.getD j 0 = p.getD j 0) : pkt.take p.length = p := by
  apply list_eq_of_getD
  · rw [List.length_take]; omega
  · intro j hj
    rw [List.length_take] at hj
    have hj' : j < p.length := by omega
    rw [← h j hj', List.getD_eq_getElem?_getD, List.getD_eq_getElem?_getD,
      List.getElem?_take_of_lt hj']

theorem padded_eq_of_getD (pkt p : List Nat) (hlen : pkt.length = 14) (hp : p.length ≤ 14)
    (h1 : ∀ j, j < p.length → pkt.getD j 0 = p.getD j 0)
    (h2 : ∀ j, p.length ≤ j → pkt.getD j 0 = 0) : pkt = padded p := by
  apply list_eq_of_getD
  · unfold padded
    rw [List.length_append, List.length_replicate, hlen]; omega
  · intro j _
    unfold padded
    by_cases hj : j < p.length
    · rw [h1 j hj, List.getD_append _ _ _ _ hj]
    · rw [h2 j (by omega), List.getD_append_right _ _ _ _ (by omega),
        List.getD_eq_getElem?_getD]
      cases hh : (List.replicate (14 - p.length) 0)[j - p.length]? with
      | none => rfl
      | some v =>
        have := List.getElem?_mem hh
        rw [List.mem_replicate] at this
        rw [this.2]; rfl

theorem reduceOption_nones (n : Nat) (x : List Nat) :
    (List.replicate n (none : Option (List Nat)) ++ [some x]).reduceOption = [x] := by
  induction n with
  | zero => rfl
  | succ n ih =>
    rw [List.replicate_succ, List.cons_append, List.reduceOption_cons_of_none, ih]

theorem inTolerance_of_bounds (C d : Nat) (hC : C ≤ 1000) (h : C / 2 ≤ d ∧ d ≤ 3 * C) :
    InTolerance C d :=
  (inTolerance_iff C d hC).mpr h

/-- The round trip from a reachable idle state. -/
theorem round_trip_reachable (C : Nat) (p : List Nat) (closing : Nat) (s : DecoderState)
    (hC : 200 ≤ C ∧ C ≤ 1000) (hp : IsFrame p) (hcl : C / 2 ≤ closing ∧ closing ≤ 3 * C)
    (hs : Reachable s) (h0 : s.halfBit = 0) :
    ∃ s' pkt, feed s (manchesterEdges C p closing)
        = (s', List.replicate ((manchesterEdges C p closing).length - 1) none ++ [some pkt]) ∧
      s'.halfBit = 0 ∧ s'.halfBitCounter = 0xFF ∧ s'.data = pkt ∧ pkt.length = 14 ∧
      (∀ b ∈ pkt, b < 256) ∧
      (∀ j, j < announcedLength (p.getD 2 0) + 3 → pkt.getD j 0 = p.getD j 0) ∧
      (∀ j, announcedLength (p.getD 2 0) + 3 ≤ j → pkt.getD j 0 = s.data.getD j 0) := by
  obtain ⟨hlen, hb, ht⟩ := reachable_inv s hs
  exact round_trip C p closing s hC hp (inTolerance_of_bounds C closing hC.2 hcl) h0 hlen hb
    (by rcases ht with h | h <;> omega)

/-! ## The pipeline -/

/-- An accepted record at the head of the FIFO is decrypted and dispatched. -/
theorem record_accepted (k : Module) (e : Env) (raw : List Nat) (rest : List (List Nat))
    (hq : k.rawdata_kfifo = raw :: rest) (hz : e.kzalloc_ok = true) (hlen : raw.length = 14)
    (hacc : (decrypt_and_check raw).2 = false) :
    handle_encrypted_record k e =
      (handle_decrypted_sensor_data { k with rawdata_kfifo := rest } e
        { sensor_address := get_sensor_address_from_decrypted_data (decrypt_and_check raw).1,
          len := get_packet_length_from_decrypted_data (decrypt_and_check raw).1,
          sensor_type := get_sensor_type_from_decrypted_data (decrypt_and_check raw).1,
          measurement := ⟨e.now, (decrypt_and_check raw).1⟩ }).1 := by
  unfold handle_encrypted_record CRESTA_MAXDATA_LEN
  simp only [hz, if_true, hq, hlen, hacc, Bool.not_false]

theorem with_fifo_self (k : Module) (hq : k.rawdata_kfifo = []) :
    ({ k with rawdata_kfifo := [] } : Module) = k := by
  cases k
  simp only at hq
  subst hq
  rfl

/-- The pipeline on a valid frame whose address is new to the registry: the work function
dispatches the one packet the decoder hands over. -/
theorem endToEnd_eq (C : Nat) (p : List Nat) (closing : Nat) (s : DecoderState) (k : Module)
    (e : Env) (hC : 200 ≤ C ∧ C ≤ 1000) (hp : IsFrame p)
    (hcl : C / 2 ≤ closing ∧ closing ≤ 3 * C) (hs : Reachable s) (h0 : s.halfBit = 0)
    (hz : s.data = List.replicate 14 0) (hacc : (decrypt_and_check (padded p)).2 = false)
    (hq : k.rawdata_kfifo = []) (he : e.kzalloc_ok = true) :
    (feed s (manchesterEdges C p closing)).2.reduceOption = [padded p] ∧
    endToEnd s k e C p closing =
      (handle_decrypted_sensor_data k e
        { sensor_address := get_sensor_address_from_decrypted_data (decrypt_and_check (padded p)).1,
          len := get_packet_length_from_decrypted_data (decrypt_and_check (padded p)).1,
          sensor_type := get_sensor_type_from_decrypted_data (decrypt_and_check (padded p)).1,
          measurement := ⟨e.now, (decrypt_and_check (padded p)).1⟩ }).1 := by
  obtain ⟨s', pkt, hf, _, _, _, hlen, _, hpre, hpost⟩ :=
    round_trip_reachable C p closing s hC hp hcl hs h0
  have hpl := hp.2.2.2.2
  have h11 := hp.2.2.2.1
  have hpkt : pkt = padded p := by
    apply padded_eq_of_getD pkt p hlen (by omega)
    · intro j hj; exact hpre j (by omega)
    · intro j hj
      rw [hpost j (by omega), hz, List.getD_eq_getElem?_getD]
      cases hh : (List.replicate 14 0)[j]? with
      | none => rfl
      | some v =>
        have := List.getElem?_mem hh
        rw [List.mem_replicate] at this
        rw [this.2]; rfl
  subst hpkt
  have hout : (feed s (manchesterEdges C p closing)).2.reduceOption = [padded p] := by
    rw [hf]; exact reduceOption_nones _ _
  refine ⟨hout, ?_⟩
  unfold endToEnd queue_packets
  rw [hout, hq, List.nil_append]
  show handle_encrypted_sensor_data
    (handle_encrypted_record { k with rawdata_kfifo := [padded p] } e) [] = _
  rw [record_accepted { k with rawdata_kfifo := [padded p] } e (padded p) [] rfl he hlen hacc]
  show (handle_decrypted_sensor_data ({ k with rawdata_kfifo := [] } : Module) e _).1 = _
  rw [with_fifo_self k hq]

/-! ## Checksum A under a bit flip -/

theorem foldl_xor_init (g : Nat → Nat) (l : List Nat) (c : Nat) :
    l.foldl (fun a j => a ^^^ g j) c = c ^^^ l.foldl (fun a j => a ^^^ g j) 0 := by
  induction l generalizing c with
  | nil => simp
  | cons x xs ih =>
    rw [List.foldl_cons, List.foldl_cons, ih (c ^^^ g x), ih (0 ^^^ g x), Nat.zero_xor,
      Nat.xor_assoc]

/-- Changing one summand of an XOR sum by `m` changes the sum by `m`. -/
theorem foldl_xor_flip (g g2 : Nat → Nat) (i m : Nat)
    (hg : ∀ j, g2 j = if j = i then g i ^^^ m else g j) :
    ∀ (n a : Nat), (List.range' a n).foldl (fun c j => c ^^^ g2 j) 0
      = (List.range' a n).foldl (fun c j => c ^^^ g j) 0
          ^^^ (if a ≤ i ∧ i < a + n then m else 0) := by
  intro n
  induction n with
  | zero =>
    intro a
    have : ¬ (a ≤ i ∧ i < a + 0) := by omega
    rw [if_neg this, Nat.xor_zero]; rfl
  | succ n ih =>
    intro a
    rw [List.range'_succ, List.foldl_cons, List.foldl_cons, foldl_xor_init g2,
      foldl_xor_init g, ih (a + 1), Nat.zero_xor, Nat.zero_xor, hg a]
    by_cases hai : a = i
    · subst hai
      have c1 : ¬ (a + 1 ≤ a ∧ a < a + 1 + n) := by omega
      have c2 : a ≤ a ∧ a < a + (n + 1) := by omega
      rw [if_pos rfl, if_neg c1, if_pos c2, Nat.xor_zero]
      rw [Nat.xor_assoc, Nat.xor_assoc, Nat.xor_comm m]
    · rw [if_neg hai]
      by_cases hin : a + 1 ≤ i ∧ i < a + 1 + n
      · have c2 : a ≤ i ∧ i < a + (n + 1) := by omega
        rw [if_pos hin, if_pos c2, Nat.xor_assoc]
      · have c2 : ¬ (a ≤ i ∧ i < a + (n + 1)) := by omega
        rw [if_neg hin, if_neg c2, Nat.xor_assoc]

theorem one_shiftLeft_lt_256 {b : Nat} (hb : b < 8) : 1 <<< b < 256 := by
  rw [Nat.one_shiftLeft]
  calc 2 ^ b ≤ 2 ^ 7 := Nat.pow_le_pow_right (by decide) (by omega)
    _ < 256 := by decide

/-- Flipping one bit of a checksummed byte other than the length byte makes checksum A
non-zero. -/
theorem flip_checksumA (raw : List Nat) (hp : IsPacket raw)
    (hacc : (decrypt_and_check raw).2 = false) (i b : Nat) (hi1 : 1 ≤ i)
    (hi2 : i ≤ announcedLength (raw.getD 2 0) + 1) (hi : i ≠ 2) :
    (raw.set i (raw.getD i 0 ^^^ (1 <<< b))).getD 2 0 = raw.getD 2 0 ∧
    checksumA (raw.set i (raw.getD i 0 ^^^ (1 <<< b))) (announcedLength (raw.getD 2 0))
      = 1 <<< b := by
  obtain ⟨h6, h11, hA, _⟩ := (decrypt_and_check_accepts raw hp).mp hacc
  have hin : i < raw.length := by rw [hp.1]; omega
  refine ⟨by rw [getD_set _ _ _ _ hin, if_neg (fun h => hi h.symm)], ?_⟩
  unfold checksumA at hA ⊢
  rw [foldl_xor_flip (fun j => raw.getD j 0)
    (fun j => (raw.set i (raw.getD i 0 ^^^ (1 <<< b))).getD j 0) i (1 <<< b)
    (fun j => getD_set _ _ _ _ hin) (announcedLength (raw.getD 2 0) + 1) 1, hA,
    if_pos (by omega), Nat.zero_xor]

/-! ## Framing failures -/

theorem write_bit_framing (s : DecoderState) (h : (s.halfBit >>> 1) % 9 = 8) :
    write_bit s = if s.isOne then none else some s := by
  rw [write_bit_eq, if_neg (by omega)]

/-- Every framing failure ends in `reset_manchester_decoder` on a state with the buffer of
the state before, and hands over nothing. -/
theorem framing_failure_resets (s : DecoderState) (d : Nat) (h : FramingFailure s d) :
    ∃ s1, cresta_manchester_decoder s d = (reset_manchester_decoder s1 d, none) ∧
      s1.data = s.data := by
  obtain ⟨h0, hf⟩ := h
  rcases hf with ht | ⟨ht, hb | ⟨h17, hd⟩ | ⟨h53, hL⟩⟩
  · exact ⟨s, decoder_reject s d h0 ht, rfl⟩
  · obtain ⟨ho, h8, hi⟩ := hb
    have hw : write_bit s = none := by rw [write_bit_framing s h8, hi]; rfl
    exact ⟨s, decoder_odd_framing s d h0 ht ho hw, rfl⟩
  · have ho : s.halfBit &&& 1 = 1 := by rw [h17]; rfl
    have h8 : (s.halfBit >>> 1) % 9 = 8 := by rw [h17]; rfl
    cases hi : s.isOne with
    | true =>
      have hw : write_bit s = none := by rw [write_bit_framing s h8, hi]; rfl
      exact ⟨s, decoder_odd_framing s d h0 ht ho hw, rfl⟩
    | false =>
      have hw : write_bit s = some s := by rw [write_bit_framing s h8, hi]; rfl
      exact ⟨s, decoder_odd_header s s s d h0 ht ho hw (check_header_17_fail s h17 hd), rfl⟩
  · have ho : s.halfBit &&& 1 = 1 := by rw [h53]; rfl
    have h8 : (s.halfBit >>> 1) % 9 = 8 := by rw [h53]; rfl
    cases hi : s.isOne with
    | true =>
      have hw : write_bit s = none := by rw [write_bit_framing s h8, hi]; rfl
      exact ⟨s, decoder_odd_framing s d h0 ht ho hw, rfl⟩
    | false =>
      have hw : write_bit s = some s := by rw [write_bit_framing s h8, hi]; rfl
      exact ⟨_, decoder_odd_header s s _ d h0 ht ho hw (check_header_53_fail s h53 hL), rfl⟩

/-! ## Several contexts in `handle_decrypted_sensor_data` -/

theorem handle_eq_after_lookup (k : Module) (e : Env) (d : cresta_measurement_data) :
    handle_decrypted_sensor_data k e d
      = handle_decrypted_after_lookup k e d
          (get_cresta_sensor_by_address k d.sensor_address) := by
  unfold handle_decrypted_sensor_data handle_decrypted_after_lookup
  cases get_cresta_sensor_by_address k d.sensor_address <;> rfl

/-- A context whose lookup missed, but whose address has been inserted by another context
in the meantime, frees its own sensor and returns -1. -/
theorem after_lookup_loser (k : Module) (hk : k.WF) (e : Env) (d : cresta_measurement_data)
    (w : Nat) (hw : get_cresta_sensor_by_address k d.sensor_address = some w)
    (he : e.kmalloc_ok = true) :
    handle_decrypted_after_lookup k e d none
      = ({ k with heap := k.heap ++ [none] }, -1) := by
  have hget := (get_append k hk d.sensor_address
    (some ⟨d.sensor_address, d.sensor_type, none⟩)).trans hw
  unfold handle_decrypted_after_lookup create_cresta_sensor add_cresta_sensor_to_sensor_list
  simp only [he, if_true, deref_append_new, hget, Option.isSome_some]
  show (delete_cresta_sensor _ _, _) = _
  unfold delete_cresta_sensor
  simp

theorem after_lookup_no_memory (k : Module) (e : Env) (d : cresta_measurement_data)
    (he : e.kmalloc_ok = false) :
    handle_decrypted_after_lookup k e d none = (k, -1) := by
  unfold handle_decrypted_after_lookup create_cresta_sensor
  rw [he]
  rfl

/-- The losing context, whether or not its allocation succeeds: -1 is returned, the list
is unchanged and so is every sensor that was live. -/
theorem loser_result (k : Module) (hk : k.WF) (e : Env) (d : cresta_measurement_data)
    (w : Nat) (hw : get_cresta_sensor_by_address k d.sensor_address = some w) :
    (handle_decrypted_after_lookup k e d none).2 = -1 ∧
    (handle_decrypted_after_lookup k e d none).1.cresta_sensor_list = k.cresta_sensor_list ∧
    ∀ q, q < k.heap.length →
      (handle_decrypted_after_lookup k e d none).1.deref q = k.deref q := by
  cases he : e.kmalloc_ok with
  | false =>
    rw [after_lookup_no_memory k e d he]
    exact ⟨rfl, rfl, fun _ _ => rfl⟩
  | true =>
    rw [after_lookup_loser k hk e d w hw he]
    exact ⟨rfl, rfl, fun q hq => deref_append_old k none q hq⟩

/-- One new sensor at the head of the list is the only one with its address when the
lookup for that address had missed. -/
theorem filter_new_sensor (k K : Module) (hk : k.WF) (a ptr : Nat) (dev : cresta_dev)
    (hmiss : get_cresta_sensor_by_address k a = none)
    (hl : K.cresta_sensor_list = ptr :: k.cresta_sensor_list)
    (hptr : K.deref ptr = some dev) (ha : dev.sensor_addr = a)
    (hold : ∀ q, q < k.heap.length → K.deref q = k.deref q) :
    K.cresta_sensor_list.filter (fun q => K.addrOf q == some a) = [ptr] := by
  rw [hl, List.filter_cons_of_pos, List.filter_eq_nil_iff.mpr]
  · intro q hq
    have hne := (get_eq_none k a).mp hmiss q hq
    unfold Module.addrOf at hne ⊢
    rw [hold q (WF_lt k hk q hq)]
    simpa using hne
  · unfold Module.addrOf
    rw [hptr]
    simp [ha]

/-! ## Reading a sensor device -/

theorem measurement_bytes_length (pad : Nat) (m : measurement)
    (hm : m.decrypted_data.length = 14) :
    (measurement_bytes pad m).length = sizeof_measurement pad := by
  unfold measurement_bytes uint64_bytes sizeof_measurement
  simp only [List.length_append, List.length_map, List.length_range, List.length_replicate, hm]

/-- A read at or past the end returns 0 and copies nothing. -/
theorem cresta_read_at_end (pad : Nat) (filp : file) (count : Nat) (copy_ok : Bool)
    (hpos : sizeof_measurement pad % 256 ≤ filp.f_pos) :
    cresta_read pad filp count copy_ok = some (filp, 0, []) := by
  unfold cresta_read
  simp only [ge_iff_le, hpos, if_true]

/-- A successful read before the end: the count is cut at the end of the block and that
many bytes of the block are copied, starting at the file position. -/
theorem cresta_read_inside (pad : Nat) (filp : file) (m : measurement) (count : Nat)
    (hd : filp.private_data = some m) (hpos : filp.f_pos < sizeof_measurement pad % 256) :
    cresta_read pad filp count true =
      some ({ filp with f_pos := filp.f_pos + min count (sizeof_measurement pad % 256 - filp.f_pos) },
        ((min count (sizeof_measurement pad % 256 - filp.f_pos) : Nat) : Int),
        ((measurement_bytes pad m).drop filp.f_pos).take
          (min count (sizeof_measurement pad % 256 - filp.f_pos))) := by
  have hc : (if filp.f_pos + count > sizeof_measurement pad % 256
      then sizeof_measurement pad % 256 - filp.f_pos else count)
      = min count (sizeof_measurement pad % 256 - filp.f_pos) := by
    split_ifs with h
    · rw [Nat.min_eq_right (by omega)]
    · rw [Nat.min_eq_left (by omega)]
  unfold cresta_read
  have hn : ¬ (filp.f_pos ≥ sizeof_measurement pad % 256) := by omega
  simp only [hn, if_false, hd, hc, if_true]

/-- Reading with positive sizes until a call returns 0 delivers the block from the file
position to its end. -/
theorem read_until_zero_spec (pad : Nat) (m : measurement)
    (hm : m.decrypted_data.length = 14) (hs : sizeof_measurement pad < 256) :
    ∀ (cs : List Nat) (filp : file), filp.private_data = some m →
      (∀ c ∈ cs, 0 < c) → sizeof_measurement pad - filp.f_pos < cs.length →
      read_until_zero pad filp cs = ((measurement_bytes pad m).drop filp.f_pos, true) := by
  have hmod : sizeof_measurement pad % 256 = sizeof_measurement pad := Nat.mod_eq_of_lt hs
  have hlen := measurement_bytes_length pad m hm
  intro cs
  induction cs with
  | nil => intro filp _ _ h; exact absurd h (by simp)
  | cons c cs ih =>
    intro filp hd hpos hl
    have hc : 0 < c := hpos c (List.mem_cons_self c cs)
    unfold read_until_zero
    by_cases hend : sizeof_measurement pad ≤ filp.f_pos
    · rw [cresta_read_at_end pad filp c true (by rw [hmod]; exact hend)]
      simp only [if_true]
      rw [List.drop_eq_nil_of_le (by rw [hlen]; exact hend)]
    · rw [cresta_read_inside pad filp m c hd (by rw [hmod]; omega), hmod]
      have hn : ¬ (((min c (sizeof_measurement pad - filp.f_pos) : Nat) : Int) = 0) := by
        have : 0 < min c (sizeof_measurement pad - filp.f_pos) := by
          rw [Nat.lt_min]; omega
        omega
      simp only [hn, if_false]
      rw [ih { filp with f_pos := filp.f_pos + min c (sizeof_measurement pad - filp.f_pos) } hd
        (fun x hx => hpos x (List.mem_cons_of_mem c hx))
        (by
          have : 0 < min c (sizeof_measurement pad - filp.f_pos) := by
            rw [Nat.lt_min]; omega
          simp only [List.length_cons] at hl
          show sizeof_measurement pad
            - (filp.f_pos + min c (sizeof_measurement pad - filp.f_pos)) < cs.length
          omega)]
      show (List.take _ (List.drop filp.f_pos _)
        ++ List.drop (filp.f_pos + _) _, true) = _
      rw [← List.drop_drop, List.take_append_drop]

/-- The sensor after a sequence of publishes: address and type as before, the current
measurement is the last one published. -/
theorem deref_after_updates (sensor : Nat) :
    ∀ (updates : List cresta_measurement_data) (k : Module) (dev : cresta_dev),
      k.deref sensor = some dev →
      (updates.foldl (fun k nd => (update_cresta_sensor_data k sensor nd).1) k).deref sensor
        = some ⟨dev.sensor_addr, dev.sensor_type,
            updates.foldl (fun _ nd => some nd) dev.current_data⟩ := by
  intro updates
  induction updates with
  | nil => intro k dev h; exact h
  | cons nd us ih =>
    intro k dev h
    rw [List.foldl_cons, List.foldl_cons]
    have h1 : (update_cresta_sensor_data k sensor nd).1.deref sensor
        = some ⟨dev.sensor_addr, dev.sensor_type, some nd⟩ := by
      rw [deref_update, if_pos rfl, h]; rfl
    exact ih _ _ h1

theorem cresta_open_copy (k : Module) (sensor : Nat) (dev : cresta_dev)
    (md : cresta_measurement_data) (filp : file) (hdev : k.deref sensor = some dev)
    (hcur : dev.current_data = some md) :
    cresta_open k true sensor filp = ({ filp with private_data := some md.measurement }, 0) := by
  unfold cresta_open
  rw [hdev]
  show (match dev.current_data with
    | none => (filp, -ERESTARTSYS)
    | some data => if true = true then ({ filp with private_data := some data.measurement }, 0)
        else ({ filp with private_data := none }, 0)) = _
  rw [hcur]
  rfl

/-! ## Resynchronisation -/

theorem feed_inv (ds : List Nat) :
    ∀ (s : DecoderState), DecoderInv s → DecoderInv (feed s ds).1 := by
  induction ds with
  | nil => intro s h; exact h
  | cons d ds ih =>
    intro s h
    rw [feed_cons]
    exact ih _ (decoder_inv_step s d h)

/-- The first of the two short edges of an equal bit leaves the decoder in the middle of
the bit, on the same clock. -/
theorem synced_short_mid (C : Nat) (p data0 : List Nat) (hbc0 n : Nat) (s : DecoderState)
    (hC : 200 ≤ C ∧ C ≤ 1000) (hp : IsFrame p) (h0 : 52 ≤ hbc0)
    (hs : Synced C p data0 hbc0 n s)
    (hn : n + 2 < 9 * (announcedLength (p.getD 2 0) + 3)) :
    ∃ t, cresta_manchester_decoder s C = (t, none) ∧ t.halfBit = 2 * n + 2 ∧
      t.clockTime = C := by
  obtain ⟨s1, s2, hw, hc, hh2, hc2, hi2, hd2, ht2⟩ :=
    synced_prepare C p data0 hbc0 n s hp hs (by omega)
  obtain ⟨hh, hcl, _, _, _⟩ := hs
  obtain ⟨_, _, _, hp11, _⟩ := hp
  obtain ⟨_, _, t3⟩ := tolerance_bounds C hC.2
  have hlt : s2.halfBit < s2.halfBitCounter := by
    rw [hh2, ht2]
    by_cases hle : n + 1 ≤ 26
    · rw [if_pos hle]; omega
    · rw [if_neg hle]; omega
  have htol : InTolerance C C := (inTolerance_iff C C hC.2).mpr (by omega)
  have hstep := decoder_odd_continue s s1 s2 C (by omega) (by rw [hcl]; exact htol)
    (by rw [hh, Nat.and_one_is_mod]; omega) hw hc hlt
  rw [advance_short s2 C (by rw [hc2, t3]; omega)] at hstep
  refine ⟨_, hstep, ?_, hc2⟩
  show (s2.halfBit + 1) % 256 = 2 * n + 2
  rw [hh2]; omega

/-- Any part of the edges of the bits `n + 1 .. n + k` leaves a synchronised decoder
inside the frame, on the same clock, without a packet being handed over. -/
theorem prefix_run (C : Nat) (p data0 : List Nat) (hbc0 : Nat)
    (hC : 200 ≤ C ∧ C ≤ 1000) (hp : IsFrame p) (h0 : 52 ≤ hbc0) :
    ∀ (k n : Nat) (s : DecoderState) (m : Nat), Synced C p data0 hbc0 n s →
      n + k + 1 < 9 * (announcedLength (p.getD 2 0) + 3) →
      ∃ t, feed s ((bitEdges C (bitAt p n) ((List.range' (n + 1) k).map (bitAt p))).take m)
          = (t, List.replicate
              ((bitEdges C (bitAt p n) ((List.range' (n + 1) k).map (bitAt p))).take m).length
              none) ∧
        t.halfBit ≠ 0 ∧ t.clockTime = C := by
  intro k
  induction k with
  | zero =>
    intro n s m hs _
    refine ⟨s, ?_, by rw [hs.1]; omega, hs.2.1⟩
    have e : bitEdges C (bitAt p n) ((List.range' (n + 1) 0).map (bitAt p)) = [] := rfl
    rw [e, List.take_nil]
    rfl
  | succ k ih =>
    intro n s m hs hn
    rw [List.range'_succ, List.map_cons]
    unfold bitEdges
    cases m with
    | zero => exact ⟨s, by rw [List.take_zero]; rfl, by rw [hs.1]; omega, hs.2.1⟩
    | succ m =>
      by_cases hb : bitAt p (n + 1) = bitAt p n
      · rw [if_pos hb, List.cons_append, List.cons_append, List.nil_append,
          List.take_succ_cons]
        cases m with
        | zero =>
          obtain ⟨t, h1, hh, hc⟩ := synced_short_mid C p data0 hbc0 n s hC hp h0 hs (by omega)
          refine ⟨t, ?_, by rw [hh]; omega, hc⟩
          rw [List.take_zero, feed_cons, h1]
          rfl
        | succ m =>
          obtain ⟨s1, s2, h1, h2, hs2⟩ :=
            synced_short C p data0 hbc0 n s hC hp h0 hs (by omega) hb
          obtain ⟨t, hrun, hh, hc⟩ := ih (n + 1) s2 m hs2 (by omega)
          refine ⟨t, ?_, hh, hc⟩
          rw [List.take_succ_cons, feed_cons, h1, feed_cons, h2, hrun]
          simp only [List.length_cons, List.replicate_succ]
      · obtain ⟨s1, h1, hs1⟩ := synced_long C p data0 hbc0 n s hC hp h0 hs (by omega) hb
        obtain ⟨t, hrun, hh, hc⟩ := ih (n + 1) s1 m hs1 (by omega)
        refine ⟨t, ?_, hh, hc⟩
        rw [if_neg hb, List.cons_append, List.nil_append, List.take_succ_cons, feed_cons, h1,
          hrun]
        simp only [List.length_cons, List.replicate_succ]

/-- The edge sequence of a frame: sync edge, the edges of the bits 1 .. 9(L+3)-2, closing
edge. -/
theorem manchesterEdges_eq (C : Nat) (p : List Nat) (closing : Nat) (hp : IsFrame p) :
    manchesterEdges C p closing = 2 * C ::
      (bitEdges C (bitAt p 0)
        ((List.range' 1 (9 * (announcedLength (p.getD 2 0) + 3) - 2)).map (bitAt p))
        ++ [closing]) := by
  have hpl := hp.2.2.2.2
  have hfb : frameBits p = bitAt p 0 ::
      (List.range' 1 (9 * (announcedLength (p.getD 2 0) + 3) - 2)).map (bitAt p) := by
    rw [frameBits_eq, hpl,
      show 9 * (announcedLength (p.getD 2 0) + 3) - 1
        = (9 * (announcedLength (p.getD 2 0) + 3) - 2) + 1 by omega,
      List.range'_succ, List.map_cons]
  unfold manchesterEdges
  rw [hfb]

/-- From the state right after the sync edge, the bit edges and the closing edge of the
frame make the decoder hand over exactly one packet, on the closing edge. -/
theorem synced_frame (C : Nat) (p : List Nat) (closing : Nat) (data0 : List Nat)
    (hbc0 : Nat) (s1 : DecoderState) (hC : 200 ≤ C ∧ C ≤ 1000) (hp : IsFrame p)
    (hcl : InTolerance C closing) (h0 : 52 ≤ hbc0) (hs : Synced C p data0 hbc0 0 s1) :
    ∃ s2 pkt, feed s1 (bitEdges C (bitAt p 0)
          ((List.range' 1 (9 * (announcedLength (p.getD 2 0) + 3) - 2)).map (bitAt p))
          ++ [closing])
        = (s2, List.replicate (bitEdges C (bitAt p 0)
            ((List.range' 1 (9 * (announcedLength (p.getD 2 0) + 3) - 2)).map (bitAt p))).length
            none ++ [some pkt]) ∧
      pkt.length = 14 ∧ (∀ b ∈ pkt, b < 256) ∧
      (∀ j, j < announcedLength (p.getD 2 0) + 3 → pkt.getD j 0 = p.getD j 0) ∧
      (∀ j, announcedLength (p.getD 2 0) + 3 ≤ j → pkt.getD j 0 = data0.getD j 0) := by
  obtain ⟨t, ht, hrun⟩ := synced_run C p data0 hbc0 hC hp h0
    (9 * (announcedLength (p.getD 2 0) + 3) - 2) 0 s1 hs (by have := hp.2.2.1; omega)
  obtain ⟨s2, pkt, hclose, _, _, _, hok⟩ := synced_close C p data0 hbc0
    (0 + (9 * (announcedLength (p.getD 2 0) + 3) - 2)) closing t hp ht
    (by have := hp.2.2.1; omega) hcl
  refine ⟨s2, pkt, ?_, hok.1, hok.2.1, ?_, ?_⟩
  · rw [feed_append, hrun]
    simp only [feed_cons, hclose, feed]
  · intro j hj
    exact dataOK_byte p data0 pkt _ j hok (by have := hp.2.2.1; omega) hp.1
  · intro j hj
    exact hok.2.2.2 j (by have := hp.2.2.1; omega)

theorem not_inTolerance_of_bounds (c x : Nat) (hx : x ≤ 2000)
    (h : x < c / 2 ∨ 3 * c < x) : ¬ InTolerance c x := by
  unfold InTolerance
  rw [not_not]
  rcases h with h | h
  · left
    rw [Nat.shiftRight_eq_div_pow, Nat.pow_one]; exact h
  · right
    have hc2 : c ≤ 1000 := by omega
    rw [(tolerance_bounds c hc2).2.1]
    exact h

/-- A decoder that is idle, or that rejects the sync edge of the frame as out of
tolerance, decodes the frame that follows. -/
theorem fresh_frame (C : Nat) (p : List Nat) (closing : Nat) (r : DecoderState)
    (hC : 200 ≤ C ∧ C ≤ 1000) (hp : IsFrame p) (hcl : C / 2 ≤ closing ∧ closing ≤ 3 * C)
    (hr : DecoderInv r)
    (hst : r.halfBit = 0 ∨ (r.halfBit ≠ 0 ∧ ¬ InTolerance r.clockTime (2 * C))) :
    ∃ pkt, (feed r (manchesterEdges C p closing)).2
        = List.replicate ((manchesterEdges C p closing).length - 1) none ++ [some pkt] ∧
      pkt.length = 14 ∧ pkt.take (announcedLength (p.getD 2 0) + 3) = p ∧
      (∀ j, announcedLength (p.getD 2 0) + 3 ≤ j → pkt.getD j 0 = r.data.getD j 0) := by
  have hpl := hp.2.2.2.2
  have h11 := hp.2.2.2.1
  have htol := inTolerance_of_bounds C closing hC.2 hcl
  have htake : ∀ pkt : List Nat, pkt.length = 14 →
      (∀ j, j < announcedLength (p.getD 2 0) + 3 → pkt.getD j 0 = p.getD j 0) →
      pkt.take (announcedLength (p.getD 2 0) + 3) = p := by
    intro pkt hlen hpre
    rw [← hpl]
    exact take_eq_of_getD pkt p (by rw [hlen, hpl]; omega)
      (fun j hj => hpre j (by rw [← hpl]; exact hj))
  rcases hst with h0 | ⟨hne, hrej⟩
  · obtain ⟨_, pkt, hf, _, _, _, hlen, _, hpre, hpost⟩ := round_trip C p closing r hC hp htol
      h0 hr.1 hr.2.1 (by rcases hr.2.2 with h | h <;> omega)
    exact ⟨pkt, by rw [hf], hlen, htake pkt hlen hpre, hpost⟩
  · have e : (2 * C) >>> 1 = C := by
      rw [Nat.shiftRight_eq_div_pow, Nat.pow_one]; omega
    have hsync : Synced C p r.data 0xFF 0 (reset_manchester_decoder r (2 * C)) := by
      refine ⟨rfl, e, ?_, ⟨hr.1, hr.2.1, fun m hm _ => absurd hm (by omega), fun _ _ => rfl⟩,
        rfl⟩
      show true = bitAt p 0
      unfold bitAt
      rw [hp.2.1]
      decide
    obtain ⟨s2, pkt, hf, hlen, _, hpre, hpost⟩ := synced_frame C p closing r.data 0xFF
      (reset_manchester_decoder r (2 * C)) hC hp htol (by decide) hsync
    refine ⟨pkt, ?_, hlen, htake pkt hlen hpre, hpost⟩
    rw [manchesterEdges_eq C p closing hp, feed_cons, decoder_reject r (2 * C) hne hrej, hf]
    simp only [List.length_cons, List.length_append, List.length_nil, Nat.add_sub_cancel,
      List.replicate_succ, List.cons_append, Nat.zero_add, List.replicate_add,
      List.replicate_zero, List.append_nil, List.nil_append]

/-- A proper prefix of the edges of a frame followed by an edge out of tolerance hands
over no packet, and leaves the decoder idle or at half-bit 1 on half the injected
duration. -/
theorem after_injected (C : Nat) (p : List Nat) (closing : Nat) (s : DecoderState)
    (m d : Nat) (hC : 200 ≤ C ∧ C ≤ 1000) (hp : IsFrame p) (hs : DecoderInv s)
    (h0 : s.halfBit = 0) (hm : m < (manchesterEdges C p closing).length)
    (hd : d < C / 2 ∨ 3 * C < d) :
    ∃ r, feed s ((manchesterEdges C p closing).take m ++ [d])
        = (r, List.replicate (m + 1) none) ∧
      DecoderInv r ∧
      (r.halfBit = 0 ∨ (r.halfBit ≠ 0 ∧ r.clockTime = d >>> 1)) := by
  have hbc : 52 ≤ s.halfBitCounter := by rcases hs.2.2 with h | h <;> omega
  have hinv := feed_inv ((manchesterEdges C p closing).take m ++ [d]) s hs
  suffices h : ∃ r, feed s ((manchesterEdges C p closing).take m ++ [d])
        = (r, List.replicate (m + 1) none) ∧
      (r.halfBit = 0 ∨ (r.halfBit ≠ 0 ∧ r.clockTime = d >>> 1)) by
    obtain ⟨r, hr, hst⟩ := h
    rw [hr] at hinv
    exact ⟨r, hr, hinv, hst⟩
  clear hinv
  cases m with
  | zero =>
    rw [List.take_zero, List.nil_append]
    simp only [feed_cons, feed, decoder_idle s d h0]
    by_cases hr : d >>> 1 < 200 ∨ d >>> 1 > 1000
    · rw [if_pos hr]
      exact ⟨_, rfl, Or.inl h0⟩
    · rw [if_neg hr]
      exact ⟨_, rfl, Or.inr ⟨Nat.one_ne_zero, rfl⟩⟩
  | succ m =>
    rw [manchesterEdges_eq C p closing hp] at hm ⊢
    simp only [List.length_cons, List.length_append, List.length_nil] at hm
    rw [List.take_succ_cons, List.take_append_of_le_length (by omega), List.cons_append,
      feed_cons]
    obtain ⟨s1, hs1, hsync⟩ := synced_start C p s hC hp h0 hs.1 hs.2.1
    rw [hs1]
    obtain ⟨t, ht, hne, hclk⟩ := prefix_run C p s.data s.halfBitCounter hC hp hbc
      (9 * (announcedLength (p.getD 2 0) + 3) - 2) 0 s1 m hsync
      (by have := hp.2.2.1; omega)
    rw [Nat.zero_add] at ht
    rw [feed_append, ht]
    have hrej : ¬ InTolerance t.clockTime d := by
      rw [hclk, inTolerance_iff C d hC.2]
      omega
    simp only [feed_cons, feed, decoder_reject t d hne hrej]
    refine ⟨reset_manchester_decoder t d, ?_, Or.inr ⟨Nat.one_ne_zero, rfl⟩⟩
    rw [List.length_take, Nat.min_eq_left (by omega)]
    simp only [List.replicate_succ, List.cons_append, List.replicate_add,
      List.replicate_zero, List.append_nil, List.nil_append]
    rw [show [(none : Option (List Nat))] = List.replicate 1 none from rfl,
      ← List.replicate_add]
    rfl

/-! ## The bytes behind the frame -/

theorem isPacket_padded (p : List Nat) (hp : IsFrame p) : IsPacket (padded p) := by
  have hpl := hp.2.2.2.2
  have h11 := hp.2.2.2.1
  refine ⟨by unfold padded; rw [List.length_append, List.length_replicate]; omega, ?_⟩
  intro b hb
  unfold padded at hb
  rcases List.mem_append.mp hb with h | h
  · exact hp.1 b h
  · rw [(List.mem_replicate.mp h).2]; decide

theorem getD_padded (p : List Nat) (j : Nat) (hj : j < p.length) :
    (padded p).getD j 0 = p.getD j 0 := by
  unfold padded; exact List.getD_append _ _ _ _ hj

/-- The pipeline on a valid frame, whatever the buffer of the idle decoder holds: the one
packet handed over carries the frame in its first `L + 3` bytes and the bytes of the
buffer behind them, it is accepted, and the work function dispatches it. -/
theorem endToEnd_stale (C : Nat) (p : List Nat) (closing : Nat) (s : DecoderState)
    (k : Module) (e : Env) (hC : 200 ≤ C ∧ C ≤ 1000) (hp : IsFrame p)
    (hcl : C / 2 ≤ closing ∧ closing ≤ 3 * C) (hs : Reachable s) (h0 : s.halfBit = 0)
    (hacc : (decrypt_and_check (padded p)).2 = false)
    (hq : k.rawdata_kfifo = []) (he : e.kzalloc_ok = true) :
    ∃ pkt, (feed s (manchesterEdges C p closing)).2.reduceOption = [pkt] ∧ IsPacket pkt ∧
      (∀ j, j < announcedLength (p.getD 2 0) + 3 → pkt.getD j 0 = p.getD j 0) ∧
      (∀ j, announcedLength (p.getD 2 0) + 3 ≤ j → pkt.getD j 0 = s.data.getD j 0) ∧
      (decrypt_and_check pkt).2 = false ∧
      endToEnd s k e C p closing =
        (handle_decrypted_sensor_data k e
          { sensor_address := get_sensor_address_from_decrypted_data (decrypt_and_check pkt).1,
            len := get_packet_length_from_decrypted_data (decrypt_and_check pkt).1,
            sensor_type := get_sensor_type_from_decrypted_data (decrypt_and_check pkt).1,
            measurement := ⟨e.now, (decrypt_and_check pkt).1⟩ }).1 := by
  obtain ⟨_, pkt, hf, _, _, _, hlen, hb, hpre, hpost⟩ :=
    round_trip_reachable C p closing s hC hp hcl hs h0
  have hpl := hp.2.2.2.2
  have h11 := hp.2.2.2.1
  have h6 := hp.2.2.1
  have hpk : IsPacket pkt := ⟨hlen, hb⟩
  have hout : (feed s (manchesterEdges C p closing)).2.reduceOption = [pkt] := by
    rw [hf]; exact reduceOption_nones _ _
  have hpad : ∀ j, j < announcedLength (p.getD 2 0) + 3 →
      pkt.getD j 0 = (padded p).getD j 0 := by
    intro j hj
    rw [hpre j hj, getD_padded p j (by omega)]
  have hL : announcedLength (pkt.getD 2 0) = announcedLength ((padded p).getD 2 0) := by
    rw [hpad 2 (by omega)]
  have hLp : announcedLength ((padded p).getD 2 0) = announcedLength (p.getD 2 0) := by
    rw [getD_padded p 2 (by omega)]
  have hok : (decrypt_and_check pkt).2 = false := by
    obtain ⟨_, _, hA, hB⟩ := (decrypt_and_check_accepts (padded p) (isPacket_padded p hp)).mp hacc
    rw [decrypt_and_check_accepts pkt hpk, hL]
    rw [hLp] at hA hB ⊢
    obtain ⟨cA, cB⟩ := checksum_congr pkt (padded p) (announcedLength (p.getD 2 0))
      (fun i _ hi => hpad i (by omega))
    exact ⟨h6, h11, by rw [cA]; exact hA, by rw [cB, hB, hpad _ (by omega)]⟩
  refine ⟨pkt, hout, hpk, hpre, hpost, hok, ?_⟩
  unfold endToEnd queue_packets
  rw [hout, hq, List.nil_append]
  show handle_encrypted_sensor_data
    (handle_encrypted_record { k with rawdata_kfifo := [pkt] } e) [] = _
  rw [record_accepted { k with rawdata_kfifo := [pkt] } e pkt [] rfl he hlen hok]
  show (handle_decrypted_sensor_data ({ k with rawdata_kfifo := [] } : Module) e _).1 = _
  rw [with_fifo_self k hq]

theorem reachable_feed (ds : List Nat) :
    ∀ (s : DecoderState), Reachable s → (∀ d ∈ ds, d < 2 ^ 32) → Reachable (feed s ds).1 := by
  induction ds with
  | nil => intro s h _; exact h
  | cons d ds ih =>
    intro s h hd
    rw [feed_cons]
    exact ih _ (Reachable.step s d h (hd d (List.mem_cons_self _ _)))
      (fun x hx => hd x (List.mem_cons_of_mem _ hx))

/-! ## What a call of the decoder leaves alone -/

theorem write_bit_fields (s s1 : DecoderState) (hw : write_bit s = some s1) :
    s1.halfBit = s.halfBit ∧ s1.clockTime = s.clockTime ∧ s1.isOne = s.isOne ∧
    s1.packageLength = s.packageLength ∧ s1.halfBitCounter = s.halfBitCounter := by
  rw [write_bit_eq] at hw
  split_ifs at hw <;>
  · have e := (Option.some.inj hw).symm
    subst e
    exact ⟨rfl, rfl, rfl, rfl, rfl⟩

theorem write_bit_none (s : DecoderState) (hw : write_bit s = none) :
    (s.halfBit >>> 1) % 9 = 8 ∧ s.isOne = true := by
  rw [write_bit_eq] at hw
  split_ifs at hw with h1 h2 h3
  exact ⟨by omega, h3⟩

theorem check_header_fields (s : DecoderState) :
    (check_header s).1.halfBit = s.halfBit ∧ (check_header s).1.clockTime = s.clockTime ∧
    (check_header s).1.isOne = s.isOne ∧ (check_header s).1.data = s.data := by
  by_cases h17 : s.halfBit = 17
  · by_cases h0 : s.data.getD 0 0 = 0x75
    · rw [check_header_17 s h17 h0]; exact ⟨rfl, rfl, rfl, rfl⟩
    · rw [check_header_17_fail s h17 h0]; exact ⟨rfl, rfl, rfl, rfl⟩
  · by_cases h53 : s.halfBit = 53
    · by_cases hr : 6 ≤ announcedLength (s.data.getD 2 0) ∧ announcedLength (s.data.getD 2 0) ≤ 11
      · rw [check_header_53 s h53 hr.1 hr.2]; exact ⟨rfl, rfl, rfl, rfl⟩
      · rw [check_header_53_fail s h53 (by omega)]; exact ⟨rfl, rfl, rfl, rfl⟩
    · rw [check_header_other s h17 h53]; exact ⟨rfl, rfl, rfl, rfl⟩

theorem advance_fields (s : DecoderState) (d : Nat) :
    (advance s d).clockTime = s.clockTime ∧ (advance s d).data = s.data ∧
    (advance s d).halfBitCounter = s.halfBitCounter ∧
    (advance s d).packageLength = s.packageLength := by
  unfold advance
  split_ifs <;> exact ⟨rfl, rfl, rfl, rfl⟩

/-- An in-tolerance edge at an odd half-bit index that is no framing failure: the bit
write and the header checks go through, and only the buffer, the stored length and the
completion target can differ afterwards, the latter two at half-bit 53 only. -/
theorem odd_no_failure (s : DecoderState) (d : Nat) (h0 : s.halfBit ≠ 0)
    (ht : InTolerance s.clockTime d) (ho : s.halfBit &&& 1 = 1)
    (hf : ¬ FramingFailure s d) :
    ∃ s1 s2, write_bit s = some s1 ∧ check_header s1 = (s2, true) ∧
      s2.halfBit = s.halfBit ∧ s2.clockTime = s.clockTime ∧ s2.isOne = s.isOne ∧
      s2.data = s1.data ∧
      (s.halfBit ≠ 53 →
        s2.halfBitCounter = s.halfBitCounter ∧ s2.packageLength = s.packageLength) ∧
      (s.halfBit = 53 →
        6 ≤ announcedLength (s.data.getD 2 0) ∧ announcedLength (s.data.getD 2 0) ≤ 11 ∧
        s2.halfBitCounter = (announcedLength (s.data.getD 2 0) + 3) * 18 - 3 ∧
        s2.packageLength = announcedLength (s.data.getD 2 0)) := by
  cases hw : write_bit s with
  | none =>
    obtain ⟨h8, hi⟩ := write_bit_none s hw
    exact absurd ⟨h0, Or.inr ⟨ht, Or.inl ⟨ho, h8, hi⟩⟩⟩ hf
  | some s1 =>
    obtain ⟨f1, f2, f3, f4, f5⟩ := write_bit_fields s s1 hw
    by_cases h17 : s.halfBit = 17
    · have h8 : (s.halfBit >>> 1) % 9 = 8 := by rw [h17]; rfl
      have e1 : s1 = s := by
        rw [write_bit_framing s h8] at hw
        split_ifs at hw
        exact (Option.some.inj hw).symm
      subst e1
      have hd : s1.data.getD 0 0 = 0x75 := by
        by_contra hne
        exact hf ⟨h0, Or.inr ⟨ht, Or.inr (Or.inl ⟨h17, hne⟩)⟩⟩
      exact ⟨s1, s1, rfl, check_header_17 s1 h17 hd, rfl, rfl, rfl, rfl,
        fun _ => ⟨rfl, rfl⟩, fun h => absurd h (by omega)⟩
    · by_cases h53 : s.halfBit = 53
      · have h8 : (s.halfBit >>> 1) % 9 = 8 := by rw [h53]; rfl
        have e1 : s1 = s := by
          rw [write_bit_framing s h8] at hw
          split_ifs at hw
          exact (Option.some.inj hw).symm
        subst e1
        have hL : 6 ≤ announcedLength (s1.data.getD 2 0)
            ∧ announcedLength (s1.data.getD 2 0) ≤ 11 := by
          by_contra hne
          exact hf ⟨h0, Or.inr ⟨ht, Or.inr (Or.inr ⟨h53, by omega⟩)⟩⟩
        exact ⟨s1, _, rfl, check_header_53 s1 h53 hL.1 hL.2, rfl, rfl, rfl, rfl,
          fun h => absurd h53 h, fun _ => ⟨hL.1, hL.2, rfl, rfl⟩⟩
      · exact ⟨s1, s1, rfl, check_header_other s1 (by rw [f1]; exact h17)
          (by rw [f1]; exact h53), f1, f2, f3, rfl, fun _ => ⟨f5, f4⟩,
          fun h => absurd h h53⟩

/-- The clock of a reachable state is half of a 32-bit duration. -/
theorem reachable_clock (s : DecoderState) (h : Reachable s) : s.clockTime < 2 ^ 31 := by
  induction h with
  | init => decide
  | step s d _ hd ih =>
    have hd2 : d >>> 1 < 2 ^ 31 := by
      rw [Nat.shiftRight_eq_div_pow, Nat.pow_one]; omega
    by_cases h0 : s.halfBit = 0
    · rw [decoder_idle s d h0]
      split_ifs <;> exact hd2
    · by_cases ht : InTolerance s.clockTime d
      · by_cases he : s.halfBit &&& 1 = 0
        · rw [decoder_even s d h0 ht he, (advance_fields s d).1]
          exact ih
        · have ho : s.halfBit &&& 1 = 1 := by
            rw [Nat.and_one_is_mod] at he ⊢; omega
          cases hw : write_bit s with
          | none => rw [decoder_odd_framing s d h0 ht ho hw]; exact hd2
          | some s1 =>
            cases hc : check_header s1 with
            | mk s2 ok =>
            cases ok with
            | false => rw [decoder_odd_header s s1 s2 d h0 ht ho hw hc]; exact hd2
            | true =>
              by_cases hge : s2.halfBit ≥ s2.halfBitCounter
              · rw [decoder_odd_complete s s1 s2 d h0 ht ho hw hc hge]; exact hd2
              · rw [decoder_odd_continue s s1 s2 d h0 ht ho hw hc (by omega),
                  (advance_fields s2 d).1]
                have e2 : s2 = (check_header s1).1 := by rw [hc]
                rw [e2, (check_header_fields s1).2.1, (write_bit_fields s s1 hw).2.1]
                exact ih
      · rw [decoder_reject s d h0 ht]; exact hd2

theorem advance_halfBit (s : DecoderState) (d : Nat) (hc : s.clockTime < 2 ^ 31) :
    (d > s.clockTime + s.clockTime / 2 →
      (advance s d).isOne = (!s.isOne) ∧ (advance s d).halfBit = (s.halfBit + 2) % 256) ∧
    (d ≤ s.clockTime + s.clockTime / 2 →
      (advance s d).isOne = s.isOne ∧ (advance s d).halfBit = (s.halfBit + 1) % 256) := by
  have e : (s.clockTime + (s.clockTime >>> 1)) % 2 ^ 32 = s.clockTime + s.clockTime / 2 := by
    rw [Nat.shiftRight_eq_div_pow, Nat.pow_one]
    apply Nat.mod_eq_of_lt
    omega
  constructor
  · intro h
    rw [advance_long s d (by rw [e]; exact h)]
    refine ⟨rfl, ?_⟩
    show ((s.halfBit + 1) % 256 + 1) % 256 = (s.halfBit + 2) % 256
    omega
  · intro h
    rw [advance_short s d (by rw [e]; exact h)]
    exact ⟨rfl, rfl⟩

/-- An in-tolerance edge that is no framing failure and does not complete a packet: the
call ends in `advance` on a state with the index, clock and polarity of the state before. -/
theorem decoder_continue (s : DecoderState) (d : Nat)
    (h0 : s.halfBit ≠ 0) (ht : InTolerance s.clockTime d) (hf : ¬ FramingFailure s d)
    (hc : ¬ (s.halfBit % 2 = 1 ∧ s.halfBit ≥ s.halfBitCounter)) :
    ∃ s2, cresta_manchester_decoder s d = (advance s2 d, none) ∧
      s2.halfBit = s.halfBit ∧ s2.clockTime = s.clockTime ∧ s2.isOne = s.isOne := by
  by_cases he : s.halfBit &&& 1 = 0
  · exact ⟨s, decoder_even s d h0 ht he, rfl, rfl, rfl⟩
  · have ho : s.halfBit &&& 1 = 1 := by
      rw [Nat.and_one_is_mod] at he ⊢; omega
    have hodd : s.halfBit % 2 = 1 := by rw [Nat.and_one_is_mod] at ho; exact ho
    obtain ⟨s1, s2, hw, hch, f1, f2, f3, _, hne, heq⟩ := odd_no_failure s d h0 ht ho hf
    have hlt : s2.halfBit < s2.halfBitCounter := by
      rw [f1]
      by_cases h53 : s.halfBit = 53
      · rw [(heq h53).2.2.1]
        have := (heq h53).1
        omega
      · rw [(hne h53).1]
        by_contra hge
        exact hc ⟨hodd, by omega⟩
    exact ⟨s2, decoder_odd_continue s s1 s2 d h0 ht ho hw hch hlt, f1, f2, f3⟩

/-! ## The buffer across a call of the decoder -/

/-- An edge at an even half-bit index leaves the buffer as it is. -/
theorem decoder_data_even (s : DecoderState) (d : Nat) (he : s.halfBit &&& 1 = 0) :
    (cresta_manchester_decoder s d).1.data = s.data := by
  by_cases h0 : s.halfBit = 0
  · rw [decoder_idle s d h0]
    split_ifs <;> rfl
  · by_cases ht : InTolerance s.clockTime d
    · rw [decoder_even s d h0 ht he]
      exact (advance_fields s d).2.1
    · rw [decoder_reject s d h0 ht]
      rfl

/-- After an in-tolerance edge at an odd half-bit index whose bit write went through, the
buffer is the one the bit write left. -/
theorem decoder_data_written (s s1 : DecoderState) (d : Nat) (h0 : s.halfBit ≠ 0)
    (ht : InTolerance s.clockTime d) (ho : s.halfBit &&& 1 = 1)
    (hw : write_bit s = some s1) :
    (cresta_manchester_decoder s d).1.data = s1.data := by
  have hd := (check_header_fields s1).2.2.2
  cases hc : check_header s1 with
  | mk s2 ok =>
  rw [hc] at hd
  cases ok with
  | false => rw [decoder_odd_header s s1 s2 d h0 ht ho hw hc]; exact hd
  | true =>
    by_cases hge : s2.halfBit ≥ s2.halfBitCounter
    · rw [decoder_odd_complete s s1 s2 d h0 ht ho hw hc hge]; exact hd
    · rw [decoder_odd_continue s s1 s2 d h0 ht ho hw hc (by omega), (advance_fields s2 d).2.1]
      exact hd

/-- The bit write inside the buffer: byte `halfBit / 18` gets the polarity at position
`(halfBit / 2) mod 9`. -/
theorem write_bit_data (s : DecoderState) (h8 : (s.halfBit / 2) % 9 < 8)
    (h14 : s.halfBit / 18 < 14) :
    write_bit s = some { s with
      data := s.data.set (s.halfBit / 18)
        (putBit (s.data.getD (s.halfBit / 18) 0) ((s.halfBit / 2) % 9) s.isOne) } := by
  have e : s.halfBit >>> 1 = s.halfBit / 2 := by
    rw [Nat.shiftRight_eq_div_pow, Nat.pow_one]
  rw [write_bit_eq, e, if_pos h8, if_pos h14]

/-- The bit write touches byte `halfBit / 18` only. -/
theorem write_bit_other (s s1 : DecoderState) (hinv : DecoderInv s)
    (hw : write_bit s = some s1) (j : Nat) (hj : j ≠ s.halfBit / 18) :
    s1.data.getD j 0 = s.data.getD j 0 := by
  rw [write_bit_eq] at hw
  split_ifs at hw with h1 h2 h3
  · have e := (Option.some.inj hw).symm
    subst e
    show (s.data.set _ _).getD j 0 = _
    rw [getD_set _ _ _ _ (by rw [hinv.1]; exact h2), if_neg hj]
  · have e := (Option.some.inj hw).symm
    subst e
    rfl
  · have e := (Option.some.inj hw).symm
    subst e
    rfl

/-! ## The completion target and the stored length -/

theorem check_header_target (s : DecoderState)
    (h : s.halfBitCounter = 0xFF ∨ (6 ≤ s.packageLength ∧ s.packageLength ≤ 11 ∧
      s.halfBitCounter = (s.packageLength + 3) * 18 - 3))
    (hok : (check_header s).2 = true) :
    (check_header s).1.halfBitCounter = 0xFF ∨
      (6 ≤ (check_header s).1.packageLength ∧ (check_header s).1.packageLength ≤ 11 ∧
        (check_header s).1.halfBitCounter = ((check_header s).1.packageLength + 3) * 18 - 3) := by
  by_cases h17 : s.halfBit = 17
  · by_cases h0 : s.data.getD 0 0 = 0x75
    · rw [check_header_17 s h17 h0]; exact h
    · rw [check_header_17_fail s h17 h0] at hok
      exact absurd (show false = true from hok) (by decide)
  · by_cases h53 : s.halfBit = 53
    · by_cases hr : 6 ≤ announcedLength (s.data.getD 2 0) ∧ announcedLength (s.data.getD 2 0) ≤ 11
      · rw [check_header_53 s h53 hr.1 hr.2]
        exact Or.inr ⟨hr.1, hr.2, rfl⟩
      · rw [check_header_53_fail s h53 (by omega)] at hok
        exact absurd (show false = true from hok) (by decide)
    · rw [check_header_other s h17 h53]; exact h

/-- In every reachable state the completion target is the sentinel 0xFF or the target
`(L + 3) * 18 - 3` of the stored length `L`, which is in [6,11]. -/
theorem reachable_target (s : DecoderState) (h : Reachable s) :
    s.halfBitCounter = 0xFF ∨ (6 ≤ s.packageLength ∧ s.packageLength ≤ 11 ∧
      s.halfBitCounter = (s.packageLength + 3) * 18 - 3) := by
  induction h with
  | init => exact Or.inl rfl
  | step s d _ _ ih =>
    by_cases h0 : s.halfBit = 0
    · rw [decoder_idle s d h0]
      split_ifs <;> exact ih
    · by_cases ht : InTolerance s.clockTime d
      · by_cases he : s.halfBit &&& 1 = 0
        · rw [decoder_even s d h0 ht he, (advance_fields s d).2.2.1,
            (advance_fields s d).2.2.2]
          exact ih
        · have ho : s.halfBit &&& 1 = 1 := by
            rw [Nat.and_one_is_mod] at he ⊢; omega
          cases hw : write_bit s with
          | none => rw [decoder_odd_framing s d h0 ht ho hw]; exact Or.inl rfl
          | some s1 =>
            obtain ⟨_, _, _, f4, f5⟩ := write_bit_fields s s1 hw
            have i1 : s1.halfBitCounter = 0xFF ∨ (6 ≤ s1.packageLength ∧
                s1.packageLength ≤ 11 ∧
                s1.halfBitCounter = (s1.packageLength + 3) * 18 - 3) := by
              rw [f4, f5]; exact ih
            cases hc : check_header s1 with
            | mk s2 ok =>
            cases ok with
            | false => rw [decoder_odd_header s s1 s2 d h0 ht ho hw hc]; exact Or.inl rfl
            | true =>
              have i2 := check_header_target s1 i1 (by rw [hc])
              rw [hc] at i2
              by_cases hge : s2.halfBit ≥ s2.halfBitCounter
              · rw [decoder_odd_complete s s1 s2 d h0 ht ho hw hc hge]; exact Or.inl rfl
              · rw [decoder_odd_continue s s1 s2 d h0 ht ho hw hc (by omega),
                  (advance_fields s2 d).2.2.1, (advance_fields s2 d).2.2.2]
                exact i2
      · rw [decoder_reject s d h0 ht]; exact Or.inl rfl

/-- A packet is handed over only at an odd half-bit index at or beyond the completion
target of the state before the call, the target being an announced one. -/
theorem decoder_output_target (s : DecoderState) (d : Nat) (pkt : List Nat)
    (h : (cresta_manchester_decoder s d).2 = some pkt) :
    s.halfBit % 2 = 1 ∧ s.halfBitCounter ≠ 0xFF ∧ s.halfBit ≥ s.halfBitCounter := by
  obtain ⟨_, _, ho, s1, s2, hw, hc, hge, he⟩ := decoder_output s d pkt h
  obtain ⟨f1, _, _, _, f5⟩ := write_bit_fields s s1 hw
  have e2 : s2 = (check_header s1).1 := by rw [hc]
  have g1 : s2.halfBit = s.halfBit := by rw [e2, (check_header_fields s1).1, f1]
  have hodd : s.halfBit % 2 = 1 := by rw [Nat.and_one_is_mod] at ho; exact ho
  have hne : s2.halfBitCounter ≠ 0xFF := by
    intro hff
    rw [emit_packet_eq, if_neg (by rw [hff]; decide)] at he
    exact Option.noConfusion he
  by_cases h17 : s1.halfBit = 17
  · by_cases hd : s1.data.getD 0 0 = 0x75
    · rw [check_header_17 s1 h17 hd] at hc
      have e3 : s2 = s1 := (Prod.mk.inj hc).1.symm
      subst e3
      exact ⟨hodd, by rw [← f5]; exact hne, by rw [← f5, ← f1]; exact hge⟩
    · rw [check_header_17_fail s1 h17 hd] at hc
      exact absurd (Prod.mk.inj hc).2 (by decide)
  · by_cases h53 : s1.halfBit = 53
    · by_cases hr : 6 ≤ announcedLength (s1.data.getD 2 0)
          ∧ announcedLength (s1.data.getD 2 0) ≤ 11
      · rw [check_header_53 s1 h53 hr.1 hr.2] at hc
        have e3 := (Prod.mk.inj hc).1.symm
        subst e3
        have hge2 : s1.halfBit ≥ (announcedLength (s1.data.getD 2 0) + 3) * 18 - 3 := hge
        omega
      · rw [check_header_53_fail s1 h53 (by omega)] at hc
        exact absurd (Prod.mk.inj hc).2 (by decide)
    · rw [check_header_other s1 h17 h53] at hc
      have e3 : s2 = s1 := (Prod.mk.inj hc).1.symm
      subst e3
      exact ⟨hodd, by rw [← f5]; exact hne, by rw [← f5, ← f1]; exact hge⟩

/-! ## BCD temperature of the userspace decoder -/

/-- Whenever the third digit is a decimal digit it does not enter the result of
`get_temperature_from_cresta_encoding`: the value is `10*d1 + d2`, negated for the sign
nibble 0x4. -/
theorem temperature_without_third_digit (decrypted_data : List Nat) (n : Nat)
    (h3 : decrypted_data.getD n 0 &&& 0x0F ≤ 9) :
    get_temperature_from_cresta_encoding decrypted_data n
      = if decrypted_data.getD (n + 1) 0 >>> 4 = 0x04 then
          - (((decrypted_data.getD (n + 1) 0 &&& 0x0F) * 10
              + decrypted_data.getD n 0 >>> 4 : Nat) : Int)
        else (((decrypted_data.getD (n + 1) 0 &&& 0x0F) * 10
              + decrypted_data.getD n 0 >>> 4 : Nat) : Int) := by
  have hz : (decrypted_data.getD n 0 &&& 0x0F) / 10 = 0 := by omega
  unfold get_temperature_from_cresta_encoding
  simp only [hz]
  split_ifs <;> push_cast <;> ring

/-! ## The tolerance window in 32-bit arithmetic -/

/-- While three clocks fit in 32 bits the window is the one over the natural numbers. -/
theorem tolerance_window_fits (c d : Nat) (hc : 3 * c < 2 ^ 32) :
    ¬ InTolerance c d ↔ (d < c / 2 ∨ d > 3 * c) := by
  have e1 : c >>> 1 = c / 2 := by rw [Nat.shiftRight_eq_div_pow, Nat.pow_one]
  have e2 : ((c <<< 1) % 2 ^ 32 + c) % 2 ^ 32 = 3 * c := by
    rw [Nat.shiftLeft_eq, Nat.pow_one, Nat.mod_eq_of_lt (by omega), Nat.mod_eq_of_lt (by omega)]
    omega
  unfold InTolerance
  rw [e1, e2, not_not]

/-- With a clock in the range of the first-edge check, an edge at a half-bit index other
than 0 is rejected as out of tolerance exactly when `d < c / 2` or `d > 3 * c`. -/
theorem tolerance_window_rejects (s : DecoderState) (d : Nat) (h0 : s.halfBit ≠ 0)
    (hc : 3 * s.clockTime < 2 ^ 32) (hd : d < s.clockTime / 2 ∨ d > 3 * s.clockTime) :
    cresta_manchester_decoder s d = (reset_manchester_decoder s d, none) :=
  decoder_reject s d h0 ((tolerance_window_fits s.clockTime d hc).mpr hd)

/-! ## The byte transforms, byte by byte -/

set_option maxRecDepth 10000

theorem second_check_reference (b : Nat) (hb : b < 256) :
    second_check b = secondCheckReference b := by
  revert b
  decide

theorem second_check_lt_128 (b : Nat) (hb : b < 256) : second_check b < 0x80 := by
  revert b
  decide

/-- Eight applications of the unscrambling transform give the byte back. -/
theorem unscramble_order (b : Nat) (hb : b < 256) :
    unscramble (unscramble (unscramble (unscramble
      (unscramble (unscramble (unscramble (unscramble b))))))) = b := by
  revert b
  decide

theorem unscramble_lt (b : Nat) : unscramble b < 256 := by
  unfold unscramble
  exact Nat.mod_lt _ (by decide)

theorem unscramble_twice (b : Nat) (hb : b < 256) :
    unscramble (unscramble b) = (b ^^^ (b <<< 2)) % 256 ∧
    (unscramble (unscramble b) = b ↔ b % 64 = 0) := by
  revert b
  decide

theorem unscramble_injective (a b : Nat) (ha : a < 256) (hb : b < 256)
    (h : unscramble a = unscramble b) : a = b := by
  rw [← unscramble_order a ha, ← unscramble_order b hb, h]

theorem checksumB_fold_lt (raw : List Nat) (l : List Nat) :
    ∀ c, c < 256 →
      l.foldl (fun cs2 i => second_check (raw.getD i 0 ^^^ cs2)) c < 256 := by
  induction l with
  | nil => intro c hc; exact hc
  | cons x xs ih =>
    intro c _
    rw [List.foldl_cons]
    exact ih _ (second_check_lt _)

/-- Checksum B is a value of `second_check` on a byte, so its bit 7 is clear. -/
theorem checksumB_lt_128 (raw : List Nat) (hp : IsPacket raw) (L : Nat) :
    checksumB raw L < 0x80 := by
  unfold checksumB
  rw [List.range'_concat, List.foldl_append]
  simp only [List.foldl_cons, List.foldl_nil]
  exact second_check_lt_128 _
    (xor_lt_256 (getD_lt_of_forall raw hp.2 _)
      (checksumB_fold_lt raw _ 0 (by decide)))

/-! ## Memory accesses of the validator -/

theorem decrypt_and_check_indices_eq (raw : List Nat) :
    decrypt_and_check_indices raw =
      [2, 2] ++
      if 6 ≤ announcedLength (raw.getD 2 0) ∧ announcedLength (raw.getD 2 0) ≤ 11 then
        ((List.range' 1 (announcedLength (raw.getD 2 0) + 1)).map
            (fun i => [i, i, i, i, i])).flatten ++
          (if ((List.range' 1 (announcedLength (raw.getD 2 0) + 1)).foldl decrypt_step
              ⟨raw, 0, 0⟩).cs1 ≠ 0 then []
            else [announcedLength (raw.getD 2 0) + 2])
      else [] := rfl

/-! ## Wind direction -/

theorem wind_direction_count_eq (n : Nat) (hn : n < 16) :
    wind_direction_count n = windStep n := by
  revert n
  decide

theorem windStep_injective :
    ∀ a, a < 16 → ∀ b, b < 16 → windStep a = windStep b → a = b := by
  decide

theorem windStep_onto (k : Nat) (hk : k < 16) : ∃ n, n < 16 ∧ windStep n = k := by
  revert k
  decide

/-! ## The sensor list across calls -/

/-- The sensor list after `handle_decrypted_sensor_data` is the list before, or the list
before with the newly allocated sensor in front. -/
theorem handle_list (k : Module) (hk : k.WF) (e : Env) (d : cresta_measurement_data) :
    (handle_decrypted_sensor_data k e d).1.cresta_sensor_list = k.cresta_sensor_list ∨
    (get_cresta_sensor_by_address k d.sensor_address = none ∧
      (handle_decrypted_sensor_data k e d).1.cresta_sensor_list
        = k.heap.length :: k.cresta_sensor_list) := by
  cases hg : get_cresta_sensor_by_address k d.sensor_address with
  | some p => exact Or.inl (handle_existing k e d p hg).2.2.2.2.1
  | none =>
    cases he : e.kmalloc_ok with
    | false => rw [handle_alloc_fail k e d hg he]; exact Or.inl rfl
    | true => exact Or.inr ⟨rfl, (handle_created k hk e d hg he).2.2.2.2.1⟩

/-- A live sensor is live after `handle_decrypted_sensor_data`, with its address and type,
and with a current measurement if it had one. -/
theorem handle_keeps_sensor (k : Module) (hk : k.WF) (e : Env)
    (d : cresta_measurement_data) (q : Nat) (dev : cresta_dev) (hq : k.deref q = some dev) :
    ∃ dev2, (handle_decrypted_sensor_data k e d).1.deref q = some dev2 ∧
      dev2.sensor_addr = dev.sensor_addr ∧ dev2.sensor_type = dev.sensor_type ∧
      (dev.current_data.isSome = true → dev2.current_data.isSome = true) := by
  cases hg : get_cresta_sensor_by_address k d.sensor_address with
  | some p =>
    obtain ⟨_, _, ⟨dev0, hdev0, _, h3⟩, h4, _, _⟩ := handle_existing k e d p hg
    by_cases hqp : q = p
    · subst hqp
      rw [hq] at hdev0
      have e0 : dev = dev0 := Option.some.inj hdev0
      subst e0
      exact ⟨_, h3, rfl, rfl, fun _ => rfl⟩
    · exact ⟨dev, by rw [h4 q hqp]; exact hq, rfl, rfl, fun h => h⟩
  | none =>
    cases he : e.kmalloc_ok with
    | false => rw [handle_alloc_fail k e d hg he]; exact ⟨dev, hq, rfl, rfl, fun h => h⟩
    | true =>
      obtain ⟨_, _, _, h4, _, _⟩ := handle_created k hk e d hg he
      have hlt := deref_lt k q dev hq
      exact ⟨dev, by rw [h4 q (by omega)]; exact hq, rfl, rfl, fun h => h⟩

/-- One registry call keeps a listed sensor that has a current measurement listed, live
and with a current measurement. -/
theorem call_keeps_data (k : Module) (hk : k.WF) (c : RegistryCall) (q : Nat)
    (dev : cresta_dev) (hq : q ∈ k.cresta_sensor_list) (hdev : k.deref q = some dev)
    (hd : dev.current_data.isSome = true) :
    (c.run k).WF ∧ q ∈ (c.run k).cresta_sensor_list ∧
    ∃ dev2, (c.run k).deref q = some dev2 ∧ dev2.current_data.isSome = true ∧
      dev2.sensor_addr = dev.sensor_addr ∧ dev2.sensor_type = dev.sensor_type := by
  cases c with
  | handle e d =>
    show (handle_decrypted_sensor_data k e d).1.WF ∧
      q ∈ (handle_decrypted_sensor_data k e d).1.cresta_sensor_list ∧ _
    obtain ⟨dev2, h1, h2, h3, h4⟩ := handle_keeps_sensor k hk e d q dev hdev
    refine ⟨wf_handle k hk e d, ?_, dev2, h1, h4 hd, h2, h3⟩
    rcases handle_list k hk e d with h | ⟨_, h⟩
    · rw [h]; exact hq
    · rw [h]; exact List.mem_cons_of_mem _ hq
  | update s nd =>
    show (update_cresta_sensor_data k s nd).1.WF ∧
      q ∈ (update_cresta_sensor_data k s nd).1.cresta_sensor_list ∧
      ∃ dev2, (update_cresta_sensor_data k s nd).1.deref q = some dev2 ∧ _
    refine ⟨wf_update k hk s nd, by rw [update_list]; exact hq, ?_⟩
    rw [deref_update]
    by_cases hqs : q = s
    · subst hqs
      rw [if_pos rfl, hdev]
      exact ⟨_, rfl, rfl, rfl, rfl⟩
    · rw [if_neg hqs]
      exact ⟨dev, hdev, hd, rfl, rfl⟩

/-! ## The buffer as the trace of its bit writes -/

/-- One call of the decoder changes a bit of the buffer only by writing the polarity to
it. -/
theorem decoder_bit (s : DecoderState) (d : Nat) (hinv : DecoderInv s) (j k : Nat)
    (hk : k < 8) :
    ((cresta_manchester_decoder s d).1.data.getD j 0).testBit k
      = if WritesBit s d j k then s.isOne else (s.data.getD j 0).testBit k := by
  by_cases h0 : s.halfBit = 0
  · rw [decoder_data_even s d (by rw [h0]; rfl), if_neg (fun h => h.1 h0)]
  · by_cases ht : InTolerance s.clockTime d
    · by_cases hodd : s.halfBit % 2 = 1
      · have ho : s.halfBit &&& 1 = 1 := by rw [Nat.and_one_is_mod]; exact hodd
        have e : s.halfBit >>> 1 = s.halfBit / 2 := by
          rw [Nat.shiftRight_eq_div_pow, Nat.pow_one]
        by_cases hw : (s.halfBit / 2) % 9 < 8 ∧ s.halfBit / 18 < 14
        · rw [decoder_data_written s _ d h0 ht ho (write_bit_data s hw.1 hw.2)]
          show ((s.data.set _ _).getD j 0).testBit k = _
          rw [getD_set _ _ _ _ (by rw [hinv.1]; exact hw.2)]
          by_cases hj : j = s.halfBit / 18
          · rw [if_pos hj, testBit_putBit (getD_lt_of_forall s.data hinv.2.1 _) hw.1]
            by_cases hkk : k = (s.halfBit / 2) % 9
            · rw [if_pos hkk, if_pos ⟨h0, ht, hodd, hkk.symm, hk, hj.symm, by omega⟩]
            · rw [if_neg hkk, if_neg (fun h => hkk h.2.2.2.1.symm), hj]
          · rw [if_neg hj, if_neg (fun h => hj h.2.2.2.2.2.1.symm)]
        · have hnw : ¬ WritesBit s d j k := by
            intro h
            obtain ⟨_, _, _, h4, h5, h6, h7⟩ := h
            exact hw ⟨by omega, by omega⟩
          rw [if_neg hnw]
          cases hwb : write_bit s with
          | none => rw [decoder_odd_framing s d h0 ht ho hwb]; rfl
          | some s1 =>
            rw [decoder_data_written s s1 d h0 ht ho hwb]
            rw [write_bit_eq, e] at hwb
            split_ifs at hwb with h1 h2 h3
            · exact absurd ⟨h1, h2⟩ hw
            · rw [← Option.some.inj hwb]
            · rw [← Option.some.inj hwb]
      · rw [decoder_data_even s d (by rw [Nat.and_one_is_mod]; omega),
          if_neg (fun h => hodd h.2.2.1)]
    · rw [decoder_reject s d h0 ht, if_neg (fun h => ht h.2.1)]
      rfl

/-- Every bit of the buffer is the polarity of the last write to it, or what it was before
the edges when no edge wrote it: nothing else changes the buffer. -/
theorem buffer_bits (ds : List Nat) :
    ∀ (s : DecoderState), DecoderInv s → ∀ j k, k < 8 →
      ((feed s ds).1.data.getD j 0).testBit k
        = (lastWrite s ds j k).getD ((s.data.getD j 0).testBit k) := by
  induction ds with
  | nil => intro s _ j k _; rfl
  | cons d ds ih =>
    intro s hinv j k hk
    rw [feed_cons]
    show ((feed (cresta_manchester_decoder s d).1 ds).1.data.getD j 0).testBit k = _
    rw [ih _ (decoder_inv_step s d hinv) j k hk, decoder_bit s d hinv j k hk]
    show _ = (match lastWrite (cresta_manchester_decoder s d).1 ds j k with
      | some b => some b
      | none => if WritesBit s d j k then some s.isOne else none).getD _
    cases lastWrite (cresta_manchester_decoder s d).1 ds j k with
    | some b => rfl
    | none =>
      by_cases hw : WritesBit s d j k
      · simp only [hw, if_true, Option.getD_none, Option.getD_some]
      · simp only [hw, if_false, Option.getD_none]

/-- The output of the call number `n` of a run is the output of the decoder in the state
that the first `n` edges lead to. -/
theorem feed_output_at (ds : List Nat) :
    ∀ (s : DecoderState) (n : Nat) (pkt : List Nat),
      (feed s ds).2.getD n none = some pkt →
      (cresta_manchester_decoder (feed s (ds.take n)).1 (ds.getD n 0)).2 = some pkt ∧
      (feed s (ds.take (n + 1))).1
        = (cresta_manchester_decoder (feed s (ds.take n)).1 (ds.getD n 0)).1 := by
  induction ds with
  | nil =>
    intro s n pkt h
    exact Option.noConfusion (show (none : Option (List Nat)) = some pkt from h)
  | cons d ds ih =>
    intro s n pkt h
    cases n with
    | zero => exact ⟨h, rfl⟩
    | succ n =>
      rw [feed_cons] at h
      exact ih (cresta_manchester_decoder s d).1 n pkt h

/-- A packet that is handed over is the buffer as the call leaves it. -/
theorem emitted_is_buffer (s : DecoderState) (d : Nat) (pkt : List Nat)
    (h : (cresta_manchester_decoder s d).2 = some pkt) :
    pkt = (cresta_manchester_decoder s d).1.data := by
  obtain ⟨h0, ht, ho, s1, s2, hw, hc, _, he⟩ := decoder_output s d pkt h
  rw [decoder_data_written s s1 d h0 ht ho hw, (emit_packet_sound s2 pkt he).1]
  have e2 : s2 = (check_header s1).1 := by rw [hc]
  rw [e2, (check_header_fields s1).2.2.2]

theorem init_data_zero (j : Nat) : DecoderState.init.data.getD j 0 = 0 := by
  show (List.replicate 14 0).getD j 0 = 0
  rw [List.getD_eq_getElem?_getD]
  cases hh : (List.replicate 14 0)[j]? with
  | none => rfl
  | some v =>
    have := List.getElem?_mem hh
    rw [List.mem_replicate] at this
    rw [this.2]; rfl

/-! # The claims -/

/-- C2: `decrypt_and_check` accepts a 14-byte raw packet (returns false) if and only if, on
the original bytes, the derived length `L` lies in [6,11], checksum A (the XOR of
`raw[1..L+1]`) is zero and checksum B (the fold of `second_check`) equals `raw[L+2]`; in
every other case it returns true (failure). -/
theorem C2_accepts_iff (raw : List Nat) (hp : IsPacket raw) :
    ((decrypt_and_check raw).2 = false ↔
      (6 ≤ announcedLength (raw.getD 2 0) ∧ announcedLength (raw.getD 2 0) ≤ 11 ∧
        checksumA raw (announcedLength (raw.getD 2 0)) = 0 ∧
        checksumB raw (announcedLength (raw.getD 2 0))
          = raw.getD (announcedLength (raw.getD 2 0) + 2) 0)) ∧
    (¬ (6 ≤ announcedLength (raw.getD 2 0) ∧ announcedLength (raw.getD 2 0) ≤ 11 ∧
        checksumA raw (announcedLength (raw.getD 2 0)) = 0 ∧
        checksumB raw (announcedLength (raw.getD 2 0))
          = raw.getD (announcedLength (raw.getD 2 0) + 2) 0) →
      (decrypt_and_check raw).2 = true) := by
  refine ⟨decrypt_and_check_accepts raw hp, fun hn => ?_⟩
  cases hr : (decrypt_and_check raw).2 with
  | true => rfl
  | false => exact absurd ((decrypt_and_check_accepts raw hp).mp hr) hn

/-- Witness of C2 on the reference packet, which is accepted. -/
theorem C2_accepts_iff_witness :
    IsPacket thermoHygroPacket ∧ (decrypt_and_check thermoHygroPacket).2 = false ∧
      checksumA thermoHygroPacket 6 = 0 ∧ checksumB thermoHygroPacket 6 = 0x60 := by
  have hp : IsPacket thermoHygroPacket := by decide
  have h := ((C2_accepts_iff thermoHygroPacket hp).1).mp (by decide)
  exact ⟨hp, by decide, h.2.2.1, h.2.2.2⟩

/-- C3: when `decrypt_and_check` accepts a packet with derived length `L`, every byte
`i` in `1..L+1` of the buffer is `(raw[i] XOR (raw[i] << 1)) mod 256` afterwards, and
byte 0 and the bytes `L+2..13` are unchanged. -/
theorem C3_unscrambled_in_place (raw : List Nat) (hp : IsPacket raw)
    (hacc : (decrypt_and_check raw).2 = false) :
    (decrypt_and_check raw).1.length = 14 ∧
    (∀ i, 1 ≤ i → i ≤ announcedLength (raw.getD 2 0) + 1 →
      (decrypt_and_check raw).1.getD i 0 = (raw.getD i 0 ^^^ (raw.getD i 0 <<< 1)) % 256) ∧
    (decrypt_and_check raw).1.getD 0 0 = raw.getD 0 0 ∧
    (∀ i, announcedLength (raw.getD 2 0) + 2 ≤ i → i ≤ 13 →
      (decrypt_and_check raw).1.getD i 0 = raw.getD i 0) := by
  obtain ⟨h6, h11, _, _⟩ := (decrypt_and_check_accepts raw hp).mp hacc
  obtain ⟨hlen, hb⟩ := decrypt_and_check_buffer raw hp ⟨h6, h11⟩
  refine ⟨hlen, ?_, ?_, ?_⟩
  · intro i h1 h2
    rw [hb i, if_pos ⟨h1, by omega⟩]
    rfl
  · rw [hb 0, if_neg (by omega)]
  · intro i h1 _
    rw [hb i, if_neg (by omega)]

/-- Witness of C3 on the reference packet. -/
theorem C3_unscrambled_in_place_witness :
    IsPacket thermoHygroPacket ∧ (decrypt_and_check thermoHygroPacket).2 = false ∧
      (decrypt_and_check thermoHygroPacket).1.getD 1 0 = 0x20 ∧
      (decrypt_and_check thermoHygroPacket).1.getD 0 0 = 0x75 := by
  have hp : IsPacket thermoHygroPacket := by decide
  have h := C3_unscrambled_in_place thermoHygroPacket hp (by decide)
  exact ⟨hp, by decide, (h.2.1 1 (by decide) (by decide)).trans (by decide),
    h.2.2.1.trans (by decide)⟩

/-- C5: every packet handed over by `cresta_manchester_decoder`, from any decoder state
and for any duration, has byte 0 equal to 0x75 and a derived length in [6,11]; so
`decrypt_and_check` runs its loop on it, and whenever it rejects the packet, checksum A is
non-zero or checksum B differs from byte `L+2` (it is never the bogus-length exit). -/
theorem C5_emitted_packet_framed (s : DecoderState) (d : Nat) (pkt : List Nat)
    (h : (cresta_manchester_decoder s d).2 = some pkt) :
    pkt.getD 0 0 = 0x75 ∧
    6 ≤ announcedLength (pkt.getD 2 0) ∧ announcedLength (pkt.getD 2 0) ≤ 11 ∧
    ((decrypt_and_check pkt).2 = true →
      (decryptLoop pkt).cs1 ≠ 0 ∨
      (decryptLoop pkt).cs2
        ≠ (decryptLoop pkt).raw_data.getD (announcedLength (pkt.getD 2 0) + 2) 0) := by
  obtain ⟨_, _, _, s1, s2, _, _, _, hem⟩ := decoder_output s d pkt h
  obtain ⟨_, h0, h6, h11⟩ := emit_packet_sound s2 pkt hem
  refine ⟨h0, h6, h11, ?_⟩
  rw [decrypt_and_check_in_range pkt ⟨h6, h11⟩]
  intro hr
  by_cases hA : (decryptLoop pkt).cs1 ≠ 0
  · exact Or.inl hA
  · by_cases hB : (decryptLoop pkt).cs2
        ≠ (decryptLoop pkt).raw_data.getD (announcedLength (pkt.getD 2 0) + 2) 0
    · exact Or.inr hB
    · rw [if_neg hA, if_neg hB] at hr
      exact absurd (show false = true from hr) (by decide)

/-- Witness of C5: the closing edge of the reference frame. -/
theorem C5_emitted_packet_framed_witness :
    (cresta_manchester_decoder ⟨159, 488, false, 6, thermoHygroPacket, 159⟩ 488).2
        = some thermoHygroPacket ∧
      thermoHygroPacket.getD 0 0 = 0x75 ∧ 6 ≤ announcedLength (thermoHygroPacket.getD 2 0) :=
  have h : (cresta_manchester_decoder ⟨159, 488, false, 6, thermoHygroPacket, 159⟩ 488).2
      = some thermoHygroPacket := by decide
  ⟨h, (C5_emitted_packet_framed _ 488 thermoHygroPacket h).1,
    (C5_emitted_packet_framed _ 488 thermoHygroPacket h).2.1⟩

/-- C8: `update_cresta_sensor_data` on a live sensor returns 0 and makes the new
measurement the sensor's current one; the sensor's address and type, every other sensor,
the sensor list and the rest of the module state are unchanged; a second publish to the
same sensor leaves the second measurement current. -/
theorem C8_publish (k : Module) (sensor : Nat) (dev : cresta_dev)
    (n1 n2 : cresta_measurement_data) (hs : k.deref sensor = some dev) :
    (update_cresta_sensor_data k sensor n1).2 = 0 ∧
    (update_cresta_sensor_data k sensor n1).1.deref sensor
      = some ⟨dev.sensor_addr, dev.sensor_type, some n1⟩ ∧
    (∀ q, q ≠ sensor → (update_cresta_sensor_data k sensor n1).1.deref q = k.deref q) ∧
    (update_cresta_sensor_data k sensor n1).1.cresta_sensor_list = k.cresta_sensor_list ∧
    (update_cresta_sensor_data k sensor n1).1.heap.length = k.heap.length ∧
    (update_cresta_sensor_data k sensor n1).1.sensor_counts = k.sensor_counts ∧
    (update_cresta_sensor_data k sensor n1).1.devices = k.devices ∧
    (update_cresta_sensor_data k sensor n1).1.rawdata_kfifo = k.rawdata_kfifo ∧
    (update_cresta_sensor_data (update_cresta_sensor_data k sensor n1).1 sensor n2).2 = 0 ∧
    (update_cresta_sensor_data (update_cresta_sensor_data k sensor n1).1 sensor n2).1.deref sensor
      = some ⟨dev.sensor_addr, dev.sensor_type, some n2⟩ := by
  have h1 : (update_cresta_sensor_data k sensor n1).1.deref sensor
      = some ⟨dev.sensor_addr, dev.sensor_type, some n1⟩ := by
    rw [deref_update, if_pos rfl, hs]; rfl
  refine ⟨update_ret k sensor n1, h1, ?_, update_list k sensor n1,
    update_heap_length k sensor n1, ?_, ?_, ?_, update_ret _ sensor n2, ?_⟩
  · intro q hq
    rw [deref_update, if_neg hq]
  · unfold update_cresta_sensor_data; rw [hs]
  · unfold update_cresta_sensor_data; rw [hs]
  · unfold update_cresta_sensor_data; rw [hs]
  · rw [deref_update, if_pos rfl, h1]; rfl

/-- Witness of C8: two publishes to the sensor of `oneSensor`. -/
theorem C8_publish_witness :
    oneSensor.deref 0 = some ⟨0x20, 0x1E, none⟩ ∧
    (update_cresta_sensor_data
        (update_cresta_sensor_data oneSensor 0 (thermoHygroData 1)).1 0 (thermoHygroData 2)).1.deref 0
      = some ⟨0x20, 0x1E, some (thermoHygroData 2)⟩ :=
  ⟨rfl, (C8_publish oneSensor 0 ⟨0x20, 0x1E, none⟩ (thermoHygroData 1) (thermoHygroData 2)
    rfl).2.2.2.2.2.2.2.2.2⟩

/-- C6: address uniqueness is an invariant of the registry: if no two sensors in the list
share an address, then the same holds after `add_cresta_sensor_to_sensor_list`, after
`handle_decrypted_sensor_data` and after `update_cresta_sensor_data`, whatever they are
called with and whatever they return. -/
theorem C6_address_uniqueness (k : Module) (hk : k.WF) (hu : k.UniqueAddresses)
    (new_sensor : Option Nat) (e : Env) (data : cresta_measurement_data) (sensor : Nat) :
    (add_cresta_sensor_to_sensor_list k new_sensor).1.UniqueAddresses ∧
    (handle_decrypted_sensor_data k e data).1.UniqueAddresses ∧
    (update_cresta_sensor_data k sensor data).1.UniqueAddresses :=
  ⟨unique_add k hu new_sensor, unique_handle k hk hu e data, unique_update k hu sensor data⟩

/-- Witness of C6: a packet of a second sensor arrives at `oneSensor`. -/
theorem C6_address_uniqueness_witness :
    oneSensor.WF ∧ oneSensor.UniqueAddresses ∧
    (handle_decrypted_sensor_data oneSensor (Env.ok 5)
      { thermoHygroData 5 with sensor_address := 0x41 }).1.UniqueAddresses :=
  ⟨by decide, by decide,
    (C6_address_uniqueness oneSensor (by decide) (by decide) (some 0) (Env.ok 5)
      { thermoHygroData 5 with sensor_address := 0x41 } 0).2.1⟩

/-- C9: validation gate.  A raw packet that `decrypt_and_check` rejects never reaches the
registry: the pass of `handle_encrypted_sensor_data` that takes it from the FIFO leaves
the sensors, the sensor list, the counters and the device nodes unchanged, and so does
the whole loop when every queued record is rejected. -/
theorem C9_validation_gate (k : Module) (e : Env) (es : List Env) (raw : List Nat)
    (rest : List (List Nat)) (hq : k.rawdata_kfifo = raw :: rest)
    (hrej : (decrypt_and_check raw).2 = true) :
    (handle_encrypted_record k e).heap = k.heap ∧
    (handle_encrypted_record k e).cresta_sensor_list = k.cresta_sensor_list ∧
    (handle_encrypted_record k e).sensor_counts = k.sensor_counts ∧
    (handle_encrypted_record k e).devices = k.devices ∧
    ((∀ r ∈ rest, (decrypt_and_check r).2 = true) →
      (handle_encrypted_sensor_data k es).heap = k.heap ∧
      (handle_encrypted_sensor_data k es).cresta_sensor_list = k.cresta_sensor_list ∧
      (handle_encrypted_sensor_data k es).sensor_counts = k.sensor_counts ∧
      (handle_encrypted_sensor_data k es).devices = k.devices) := by
  have h1 : (handle_encrypted_record k e).heap = k.heap ∧
      (handle_encrypted_record k e).cresta_sensor_list = k.cresta_sensor_list ∧
      (handle_encrypted_record k e).sensor_counts = k.sensor_counts ∧
      (handle_encrypted_record k e).devices = k.devices := by
    rcases record_rejected k e raw rest hq hrej with h | h <;> rw [h] <;>
      exact ⟨rfl, rfl, rfl, rfl⟩
  refine ⟨h1.1, h1.2.1, h1.2.2.1, h1.2.2.2, fun hall => ?_⟩
  apply loop_rejected es k
  intro r hr
  rw [hq] at hr
  rcases List.mem_cons.mp hr with h | h
  · rw [h]; exact hrej
  · exact hall r h

/-- Witness of C9: the reference packet with a corrupted payload byte is dropped. -/
theorem C9_validation_gate_witness :
    (decrypt_and_check (thermoHygroPacket.set 4 0)).2 = true ∧
    (handle_encrypted_record
      { oneSensor with rawdata_kfifo := [thermoHygroPacket.set 4 0] } (Env.ok 9)).heap
      = oneSensor.heap :=
  ⟨by decide,
    (C9_validation_gate { oneSensor with rawdata_kfifo := [thermoHygroPacket.set 4 0] }
      (Env.ok 9) [] (thermoHygroPacket.set 4 0) [] rfl (by decide)).1⟩

/-- C10: corrupted final checksum.  If `decrypt_and_check` accepts a raw packet with
derived length `L`, the packet with byte `L+2` (checksum B) replaced by any other byte is
rejected, and the pass of `handle_encrypted_sensor_data` that takes it from the FIFO
publishes nothing: sensors and sensor list are unchanged. -/
theorem C10_corrupted_checksum (raw : List Nat) (v : Nat) (k : Module) (e : Env)
    (rest : List (List Nat)) (hp : IsPacket raw)
    (hacc : (decrypt_and_check raw).2 = false) (hv : v < 256)
    (hne : v ≠ raw.getD (announcedLength (raw.getD 2 0) + 2) 0)
    (hq : k.rawdata_kfifo = raw.set (announcedLength (raw.getD 2 0) + 2) v :: rest) :
    (decrypt_and_check (raw.set (announcedLength (raw.getD 2 0) + 2) v)).2 = true ∧
    (handle_encrypted_record k e).heap = k.heap ∧
    (handle_encrypted_record k e).cresta_sensor_list = k.cresta_sensor_list := by
  have hrej := corrupt_checksumB_rejected raw v hp hacc hv hne
  refine ⟨hrej, ?_⟩
  rcases record_rejected k e _ rest hq hrej with h | h <;> rw [h] <;> exact ⟨rfl, rfl⟩

/-- Witness of C10: checksum B of the reference packet (0x60, at index 8) replaced. -/
theorem C10_corrupted_checksum_witness :
    IsPacket thermoHygroPacket ∧ (decrypt_and_check thermoHygroPacket).2 = false ∧
    (decrypt_and_check (thermoHygroPacket.set 8 0x61)).2 = true ∧
    (handle_encrypted_record
      { oneSensor with rawdata_kfifo := [thermoHygroPacket.set 8 0x61] } (Env.ok 9)).heap
      = oneSensor.heap :=
  have h := C10_corrupted_checksum thermoHygroPacket 0x61
    { oneSensor with rawdata_kfifo := [thermoHygroPacket.set 8 0x61] } (Env.ok 9) []
    (by decide) (by decide) (by decide) (by decide) rfl
  ⟨by decide, by decide, h.1, h.2.1⟩

/-- C7: resolve-or-create then publish.  For every well-formed registry and every
decrypted packet `d` with address `a` and type `t`, allocation succeeding,
`handle_decrypted_sensor_data` returns 0 and afterwards `get_cresta_sensor_by_address a`
returns a sensor with address `a` whose current measurement is `d`.  If the lookup found
a sensor before, it is that same sensor (same pointer, same type) and nothing is created:
list and heap keep their size.  Otherwise exactly one sensor, with address `a` and type
`t`, has been allocated and put at the head of the list. -/
theorem C7_resolve_or_create (k : Module) (hk : k.WF) (e : Env)
    (d : cresta_measurement_data) (he : e.kmalloc_ok = true) :
    (handle_decrypted_sensor_data k e d).2 = 0 ∧
    ∃ p dev,
      get_cresta_sensor_by_address (handle_decrypted_sensor_data k e d).1 d.sensor_address
        = some p ∧
      (handle_decrypted_sensor_data k e d).1.deref p = some dev ∧
      dev.sensor_addr = d.sensor_address ∧ dev.current_data = some d ∧
      (∀ q, get_cresta_sensor_by_address k d.sensor_address = some q →
        p = q ∧ (k.deref q).map (fun x => x.sensor_type) = some dev.sensor_type ∧
        (handle_decrypted_sensor_data k e d).1.cresta_sensor_list = k.cresta_sensor_list ∧
        (handle_decrypted_sensor_data k e d).1.heap.length = k.heap.length) ∧
      (get_cresta_sensor_by_address k d.sensor_address = none →
        k.deref p = none ∧ dev.sensor_type = d.sensor_type ∧
        (handle_decrypted_sensor_data k e d).1.cresta_sensor_list
          = p :: k.cresta_sensor_list ∧
        (handle_decrypted_sensor_data k e d).1.heap.length = k.heap.length + 1) ∧
      (∀ r, r ≠ p → (handle_decrypted_sensor_data k e d).1.deref r = k.deref r) := by
  cases hg : get_cresta_sensor_by_address k d.sensor_address with
  | some q =>
    obtain ⟨h1, h2, ⟨dev, hdev, haddr, h3⟩, h4, h5, h6⟩ := handle_existing k e d q hg
    refine ⟨h1, q, _, h2, h3, haddr, rfl, ?_, fun h => Option.noConfusion h, h4⟩
    intro q' hq'
    have e' : q = q' := Option.some.inj hq'
    subst e'
    exact ⟨rfl, by rw [hdev]; rfl, h5, h6⟩
  | none =>
    obtain ⟨h1, h2, h3, h4, h5, h6⟩ := handle_created k hk e d hg he
    exact ⟨h1, k.heap.length, _, h2, h3, rfl, rfl, fun q h => Option.noConfusion h,
      fun _ => ⟨deref_length_none k, rfl, h5, h6⟩, h4⟩

/-- Witness of C7: a first packet of address 0x20 reaches the empty registry. -/
theorem C7_resolve_or_create_witness :
    Module.init.WF ∧ (Env.ok 3).kmalloc_ok = true ∧
    (handle_decrypted_sensor_data Module.init (Env.ok 3) (thermoHygroData 3)).2 = 0 :=
  ⟨by decide, rfl,
    (C7_resolve_or_create Module.init (by decide) (Env.ok 3) (thermoHygroData 3) rfl).1⟩

/-- C1: Manchester round trip.  For every clock period `C` in [200,1000] and every frame
`p` (bytes `p[0..L+2]`, `p[0] = 0x75`, announced length `L` in [6,11]), feeding the
decoder, from any idle state it can be in (`halfBit = 0`), the edges that encode `p`
(sync edge `2C`, bits least significant first with a 0 framing bit after every byte but
the last, two short edges `C` for an equal bit and one long edge `2C` for a differing
bit, one closing edge within tolerance) hands over exactly one packet, on the closing
edge, and bytes `0..L+2` of that packet are `p`. -/
theorem C1_manchester_round_trip (C : Nat) (p : List Nat) (closing : Nat) (s : DecoderState)
    (hC : 200 ≤ C ∧ C ≤ 1000) (hp : IsFrame p) (hcl : C / 2 ≤ closing ∧ closing ≤ 3 * C)
    (hs : Reachable s) (h0 : s.halfBit = 0) :
    ∃ pkt, (feed s (manchesterEdges C p closing)).2
        = List.replicate ((manchesterEdges C p closing).length - 1) none ++ [some pkt] ∧
      pkt.length = 14 ∧ pkt.take (announcedLength (p.getD 2 0) + 3) = p := by
  obtain ⟨s', pkt, hf, _, _, _, hlen, _, hpre, _⟩ :=
    round_trip_reachable C p closing s hC hp hcl hs h0
  have hpl := hp.2.2.2.2
  refine ⟨pkt, by rw [hf], hlen, ?_⟩
  rw [← hpl]
  exact take_eq_of_getD pkt p (by rw [hlen, hpl]; have := hp.2.2.2.1; omega)
    (fun j hj => hpre j (by rw [← hpl]; exact hj))

/-- Witness of C1: the reference frame at clock 488 into the freshly loaded decoder. -/
theorem C1_manchester_round_trip_witness :
    IsFrame thermoHygroFrame ∧ Reachable DecoderState.init ∧
    ∃ pkt, (feed DecoderState.init (manchesterEdges 488 thermoHygroFrame 488)).2
        = List.replicate ((manchesterEdges 488 thermoHygroFrame 488).length - 1) none
            ++ [some pkt] ∧
      pkt.length = 14 ∧
      pkt.take (announcedLength (thermoHygroFrame.getD 2 0) + 3) = thermoHygroFrame :=
  ⟨by decide, Reachable.init,
    C1_manchester_round_trip 488 thermoHygroFrame 488 DecoderState.init (by decide) (by decide)
      (by decide) Reachable.init rfl⟩

/-- C4: end to end.  For every valid frame `p` (`p[0] = 0x75`, accepted by
`decrypt_and_check`), feeding its edges to an idle decoder with a zeroed buffer and
running the work function (`decrypt_and_check`, then `handle_decrypted_sensor_data`) on a
registry that does not hold the unscrambled address yet, allocation succeeding: the
decoder hands over exactly one packet, exactly one sensor is added, it is the only sensor
with the unscrambled address, its current measurement carries the 14-byte unscrambled
packet, and every other sensor is as before. -/
theorem C4_end_to_end (C : Nat) (p : List Nat) (closing : Nat) (s : DecoderState)
    (k : Module) (e : Env) (hC : 200 ≤ C ∧ C ≤ 1000) (hp : IsFrame p)
    (hcl : C / 2 ≤ closing ∧ closing ≤ 3 * C) (hs : Reachable s) (h0 : s.halfBit = 0)
    (hz : s.data = List.replicate 14 0) (hacc : (decrypt_and_check (padded p)).2 = false)
    (hk : k.WF) (hq : k.rawdata_kfifo = [])
    (hnew : get_cresta_sensor_by_address k (unscramble (p.getD 1 0)) = none)
    (he : e.kzalloc_ok = true ∧ e.kmalloc_ok = true) :
    (feed s (manchesterEdges C p closing)).2.reduceOption = [padded p] ∧
    (endToEnd s k e C p closing).cresta_sensor_list = k.heap.length :: k.cresta_sensor_list ∧
    (endToEnd s k e C p closing).cresta_sensor_list.filter
        (fun q => (endToEnd s k e C p closing).addrOf q == some (unscramble (p.getD 1 0)))
      = [k.heap.length] ∧
    (∃ dev m, (endToEnd s k e C p closing).deref k.heap.length = some dev ∧
      dev.sensor_addr = unscramble (p.getD 1 0) ∧ dev.current_data = some m ∧
      m.measurement.decrypted_data = (decrypt_and_check (padded p)).1 ∧
      m.measurement.decrypted_data.length = 14) ∧
    (∀ r, r ≠ k.heap.length → (endToEnd s k e C p closing).deref r = k.deref r) := by
  obtain ⟨hout, heq⟩ := endToEnd_eq C p closing s k e hC hp hcl hs h0 hz hacc hq he.1
  have hpl := hp.2.2.2.2
  have h11 := hp.2.2.2.1
  have hpk : IsPacket (padded p) := by
    refine ⟨by unfold padded; rw [List.length_append, List.length_replicate]; omega, ?_⟩
    intro b hb
    unfold padded at hb
    rcases List.mem_append.mp hb with h | h
    · exact hp.1 b h
    · rw [(List.mem_replicate.mp h).2]; decide
  have hp1 : (padded p).getD 1 0 = p.getD 1 0 := by
    unfold padded; exact List.getD_append _ _ _ _ (by omega)
  have hp2 : (padded p).getD 2 0 = p.getD 2 0 := by
    unfold padded; exact List.getD_append _ _ _ _ (by omega)
  obtain ⟨hdl, hdb⟩ := decrypt_and_check_buffer (padded p) hpk
    (by rw [hp2]; exact ⟨hp.2.2.1, h11⟩)
  have haddr : get_sensor_address_from_decrypted_data (decrypt_and_check (padded p)).1
      = unscramble (p.getD 1 0) := by
    unfold get_sensor_address_from_decrypted_data
    rw [hdb 1, if_pos (by omega), hp1]
  rw [heq]
  obtain ⟨_, _, h3, h4, h5, _⟩ := handle_created k hk e
    { sensor_address := get_sensor_address_from_decrypted_data (decrypt_and_check (padded p)).1,
      len := get_packet_length_from_decrypted_data (decrypt_and_check (padded p)).1,
      sensor_type := get_sensor_type_from_decrypted_data (decrypt_and_check (padded p)).1,
      measurement := ⟨e.now, (decrypt_and_check (padded p)).1⟩ }
    (by show get_cresta_sensor_by_address k _ = none; rw [haddr]; exact hnew) he.2
  refine ⟨hout, h5, ?_, ⟨_, _, h3, haddr, rfl, rfl, hdl⟩, h4⟩
  rw [h5, List.filter_cons_of_pos, List.filter_eq_nil_iff.mpr]
  · intro q hq'
    have hlt := WF_lt k hk q hq'
    have hne := (get_eq_none k _).mp hnew q hq'
    unfold Module.addrOf at hne ⊢
    rw [h4 q (by omega)]
    simpa using hne
  · unfold Module.addrOf
    rw [h3]
    simp [haddr]

/-- Witness of C4: the reference frame, the freshly loaded decoder, the empty registry. -/
theorem C4_end_to_end_witness :
    IsFrame thermoHygroFrame ∧ (decrypt_and_check (padded thermoHygroFrame)).2 = false ∧
    (endToEnd DecoderState.init Module.init (Env.ok 7) 488 thermoHygroFrame 488).cresta_sensor_list
      = [0] ∧
    (endToEnd DecoderState.init Module.init (Env.ok 7) 488 thermoHygroFrame 488).deref 0
      = some ⟨0x20, 0x1E, some (thermoHygroData 7)⟩ :=
  have h := C4_end_to_end 488 thermoHygroFrame 488 DecoderState.init Module.init (Env.ok 7)
    (by decide) (by decide) (by decide) Reachable.init rfl rfl (by decide) (by decide) rfl
    (by decide) ⟨rfl, rfl⟩
  ⟨by decide, by decide, h.2.1, by decide⟩

/-- C18: a sensor's address and type never change after creation.  For every well-formed
registry and every decrypted packet, every live sensor has the same address and the same
type after `handle_decrypted_sensor_data`, also when the packet carries that sensor's
address together with another sensor type. -/
theorem C18_address_type_fixed (k : Module) (hk : k.WF) (e : Env)
    (d : cresta_measurement_data) (q : Nat) (dev : cresta_dev) (hq : k.deref q = some dev) :
    ∃ dev2, (handle_decrypted_sensor_data k e d).1.deref q = some dev2 ∧
      dev2.sensor_addr = dev.sensor_addr ∧ dev2.sensor_type = dev.sensor_type := by
  cases hg : get_cresta_sensor_by_address k d.sensor_address with
  | some p =>
    obtain ⟨_, _, ⟨dev0, hdev0, _, h3⟩, h4, _, _⟩ := handle_existing k e d p hg
    by_cases hqp : q = p
    · subst hqp
      rw [hq] at hdev0
      have e0 : dev = dev0 := Option.some.inj hdev0
      subst e0
      exact ⟨_, h3, rfl, rfl⟩
    · exact ⟨dev, by rw [h4 q hqp]; exact hq, rfl, rfl⟩
  | none =>
    cases he : e.kmalloc_ok with
    | false => rw [handle_alloc_fail k e d hg he]; exact ⟨dev, hq, rfl, rfl⟩
    | true =>
      obtain ⟨_, _, _, h4, _, _⟩ := handle_created k hk e d hg he
      have hlt := deref_lt k q dev hq
      exact ⟨dev, by rw [h4 q (by omega)]; exact hq, rfl, rfl⟩

/-- Witness of C18: a packet with the address of the sensor of `oneSensor` and the
anemometer type. -/
theorem C18_address_type_fixed_witness :
    oneSensor.WF ∧ oneSensor.deref 0 = some ⟨0x20, 0x1E, none⟩ ∧
    ∃ dev2, (handle_decrypted_sensor_data oneSensor (Env.ok 4)
        { thermoHygroData 4 with sensor_type := 0x0C }).1.deref 0 = some dev2 ∧
      dev2.sensor_addr = 0x20 ∧ dev2.sensor_type = 0x1E :=
  ⟨by decide, rfl,
    C18_address_type_fixed oneSensor (by decide) (Env.ok 4)
      { thermoHygroData 4 with sensor_type := 0x0C } 0 ⟨0x20, 0x1E, none⟩ rfl⟩

/-- C19: `add_cresta_sensor_to_sensor_list` puts the sensor at the head of the list and
returns 0 if and only if the sensor is not `NULL` and no sensor of the list has its
address; it returns -1 when the address is already in the list and -2 when the sensor is
`NULL`, and in both failure cases the module state, the list included, is unchanged. -/
theorem C19_add_to_list (k : Module) (p : Nat) (dev : cresta_dev)
    (hp : k.deref p = some dev) :
    add_cresta_sensor_to_sensor_list k none = (k, -2) ∧
    ((∀ q ∈ k.cresta_sensor_list, k.addrOf q ≠ some dev.sensor_addr) →
      add_cresta_sensor_to_sensor_list k (some p)
        = ({ k with cresta_sensor_list := p :: k.cresta_sensor_list }, 0)) ∧
    (¬ (∀ q ∈ k.cresta_sensor_list, k.addrOf q ≠ some dev.sensor_addr) →
      add_cresta_sensor_to_sensor_list k (some p) = (k, -1)) ∧
    ((add_cresta_sensor_to_sensor_list k (some p)).2 = 0 ↔
      ∀ q ∈ k.cresta_sensor_list, k.addrOf q ≠ some dev.sensor_addr) := by
  have hyes : (∀ q ∈ k.cresta_sensor_list, k.addrOf q ≠ some dev.sensor_addr) →
      add_cresta_sensor_to_sensor_list k (some p)
        = ({ k with cresta_sensor_list := p :: k.cresta_sensor_list }, 0) := by
    intro h
    have hg := (get_eq_none k dev.sensor_addr).mpr h
    unfold add_cresta_sensor_to_sensor_list
    simp only [hp, hg, Option.isSome_none, Bool.false_eq_true, if_false]
  have hno : ¬ (∀ q ∈ k.cresta_sensor_list, k.addrOf q ≠ some dev.sensor_addr) →
      add_cresta_sensor_to_sensor_list k (some p) = (k, -1) := by
    intro h
    cases hg : get_cresta_sensor_by_address k dev.sensor_addr with
    | none => exact absurd ((get_eq_none k dev.sensor_addr).mp hg) h
    | some q =>
      unfold add_cresta_sensor_to_sensor_list
      simp only [hp, hg, Option.isSome_some, if_true]
  refine ⟨rfl, hyes, hno, ?_⟩
  constructor
  · intro h0
    by_contra hc
    rw [hno hc] at h0
    exact absurd (show (-1 : Int) = 0 from h0) (by decide)
  · intro h
    rw [hyes h]

/-- Witness of C19: the sensor of `oneSensor` is offered to the list a second time. -/
theorem C19_add_to_list_witness :
    oneSensor.deref 0 = some ⟨0x20, 0x1E, none⟩ ∧
    add_cresta_sensor_to_sensor_list oneSensor (some 0) = (oneSensor, -1) :=
  ⟨rfl, (C19_add_to_list oneSensor 0 ⟨0x20, 0x1E, none⟩ rfl).2.2.1 (by decide)⟩

/-- C20: allocation failure.  If `create_cresta_sensor` cannot allocate for a packet whose
address is not in the list, `handle_decrypted_sensor_data` returns -1 and the module state
(sensor list, sensors and their current measurements) is unchanged; the pass of
`handle_encrypted_sensor_data` that took the packet from the FIFO drops it. -/
theorem C20_allocation_failure (k : Module) (e : Env) (d : cresta_measurement_data)
    (raw : List Nat) (rest : List (List Nat))
    (hmiss : ∀ q ∈ k.cresta_sensor_list, k.addrOf q ≠ some d.sensor_address)
    (he : e.kmalloc_ok = false) :
    handle_decrypted_sensor_data k e d = (k, -1) ∧
    (k.rawdata_kfifo = raw :: rest → e.kzalloc_ok = true → raw.length = 14 →
      (decrypt_and_check raw).2 = false →
      d.sensor_address = get_sensor_address_from_decrypted_data (decrypt_and_check raw).1 →
      handle_encrypted_record k e = { k with rawdata_kfifo := rest }) := by
  have hg := (get_eq_none k d.sensor_address).mpr hmiss
  refine ⟨handle_alloc_fail k e d hg he, ?_⟩
  intro hq hz hlen hacc haddr
  rw [record_accepted k e raw rest hq hz hlen hacc]
  rw [handle_alloc_fail _ e _ (by rw [← haddr]; exact hg) he]

/-- Witness of C20: the reference packet reaches the empty registry while `kmalloc`
fails. -/
theorem C20_allocation_failure_witness :
    (∀ q ∈ Module.init.cresta_sensor_list,
      Module.init.addrOf q ≠ some (thermoHygroData 3).sensor_address) ∧
    handle_decrypted_sensor_data Module.init ⟨true, false, true, 3⟩ (thermoHygroData 3)
      = (Module.init, -1) :=
  ⟨by decide,
    (C20_allocation_failure Module.init ⟨true, false, true, 3⟩ (thermoHygroData 3) [] []
      (by decide) rfl).1⟩

/-- C11: single-bit-flip rejection.  If `decrypt_and_check` accepts a raw packet with
derived length `L`, then flipping any one bit of any byte at an index `i` with
`1 <= i <= L+1` and `i != 2` gives a packet that it rejects: the derived length is the
same and checksum A is no longer zero. -/
theorem C11_single_bit_flip (raw : List Nat) (hp : IsPacket raw)
    (hacc : (decrypt_and_check raw).2 = false) (i b : Nat) (hi1 : 1 ≤ i)
    (hi2 : i ≤ announcedLength (raw.getD 2 0) + 1) (hi : i ≠ 2) (hb : b < 8) :
    (decrypt_and_check (raw.set i (raw.getD i 0 ^^^ (1 <<< b)))).2 = true ∧
    checksumA (raw.set i (raw.getD i 0 ^^^ (1 <<< b))) (announcedLength (raw.getD 2 0))
      ≠ 0 := by
  obtain ⟨h2, hA⟩ := flip_checksumA raw hp hacc i b hi1 hi2 hi
  have hne : checksumA (raw.set i (raw.getD i 0 ^^^ (1 <<< b)))
      (announcedLength (raw.getD 2 0)) ≠ 0 := by
    rw [hA, Nat.one_shiftLeft]
    exact Nat.pos_iff_ne_zero.mp (Nat.pow_pos (by decide))
  refine ⟨?_, hne⟩
  have hp2 : IsPacket (raw.set i (raw.getD i 0 ^^^ (1 <<< b))) :=
    isPacket_set raw hp i _ (xor_lt_256 (getD_lt_of_forall raw hp.2 i) (one_shiftLeft_lt_256 hb))
  cases hr : (decrypt_and_check (raw.set i (raw.getD i 0 ^^^ (1 <<< b)))).2 with
  | true => rfl
  | false =>
    obtain ⟨_, _, hA2, _⟩ := (decrypt_and_check_accepts _ hp2).mp hr
    rw [h2] at hA2
    exact absurd hA2 hne

/-- Witness of C11: bit 3 of payload byte 5 of the reference packet flipped. -/
theorem C11_single_bit_flip_witness :
    IsPacket thermoHygroPacket ∧ (decrypt_and_check thermoHygroPacket).2 = false ∧
    (decrypt_and_check
      (thermoHygroPacket.set 5 (thermoHygroPacket.getD 5 0 ^^^ (1 <<< 3)))).2 = true :=
  ⟨by decide, by decide,
    (C11_single_bit_flip thermoHygroPacket (by decide) (by decide) 5 3 (by decide)
      (by decide) (by decide) (by decide)).1⟩

/-- C13, as stated, fails: after the sync edge 976 an edge of 100 is out of tolerance,
and the decoder is then at half-bit index 1, not 0, with the clock 50 taken from the
failing edge although it is below 200; the next edge of 100 is decoded as a bit edge. -/
theorem C13_counterexample :
    FramingFailure (feed DecoderState.init [976]).1 100 ∧
    (feed DecoderState.init [976, 100]).1.halfBit = 1 ∧
    (feed DecoderState.init [976, 100]).1.clockTime = 50 ∧
    (feed DecoderState.init [976, 100, 100]).1.halfBit = 3 := by
  decide

/-- C13, amended: after any framing failure (edge out of tolerance, framing bit decoded
as 1, preamble mismatch at half-bit 17, length out of range at half-bit 53) the decoder
has handed over nothing and is reset by `reset_manchester_decoder`: the half-bit index is
1 (the failing edge counts as the first edge of a new frame), the clock is half the
duration of the failing edge, the polarity is one, no completion target is announced
(0xFF) and the buffer is unchanged; the next edge is checked for tolerance against that
clock. -/
theorem C13_reset_after_failure (s : DecoderState) (d d2 : Nat) (h : FramingFailure s d) :
    (cresta_manchester_decoder s d).2 = none ∧
    (cresta_manchester_decoder s d).1.halfBit = 1 ∧
    (cresta_manchester_decoder s d).1.clockTime = d >>> 1 ∧
    (cresta_manchester_decoder s d).1.isOne = true ∧
    (cresta_manchester_decoder s d).1.halfBitCounter = 0xFF ∧
    (cresta_manchester_decoder s d).1.data = s.data ∧
    (¬ InTolerance (d >>> 1) d2 →
      cresta_manchester_decoder (cresta_manchester_decoder s d).1 d2
        = (reset_manchester_decoder (cresta_manchester_decoder s d).1 d2, none)) := by
  obtain ⟨s1, hr, hd⟩ := framing_failure_resets s d h
  rw [hr]
  refine ⟨rfl, rfl, rfl, rfl, rfl, hd, fun ht => ?_⟩
  exact decoder_reject _ d2 (by show (1 : Nat) ≠ 0; decide) ht

/-- Witness of C13 (amended): the out-of-tolerance edge of the counterexample. -/
theorem C13_reset_after_failure_witness :
    FramingFailure (feed DecoderState.init [976]).1 100 ∧
    (cresta_manchester_decoder (feed DecoderState.init [976]).1 100).1.halfBit = 1 :=
  ⟨by decide, (C13_reset_after_failure (feed DecoderState.init [976]).1 100 0 (by decide)).2.1⟩

/-- C17, as stated, fails: two contexts handle a packet of the new address 0x20, both miss
in the lookup, the first runs to its end and the second goes on from its miss.  The
second context returns -1, and the sensor's current measurement is the first context's:
the second measurement is not published. -/
theorem C17_counterexample :
    get_cresta_sensor_by_address Module.init (thermoHygroData 1).sensor_address = none ∧
    (handle_decrypted_after_lookup
      (handle_decrypted_after_lookup Module.init (Env.ok 1) (thermoHygroData 1) none).1
      (Env.ok 2) (thermoHygroData 2) none).2 = -1 ∧
    (handle_decrypted_after_lookup
      (handle_decrypted_after_lookup Module.init (Env.ok 1) (thermoHygroData 1) none).1
      (Env.ok 2) (thermoHygroData 2) none).1.deref 0
      = some ⟨0x20, 0x1E, some (thermoHygroData 1)⟩ ∧
    thermoHygroData 1 ≠ thermoHygroData 2 := by
  decide

/-- C17, amended: when two contexts run `handle_decrypted_sensor_data` for the same new
address and both miss in the lookup, the insertion succeeds for the first one only.
The winner returns 0 and publishes its measurement; the loser gets a negative value from
`add_cresta_sensor_to_sensor_list` (or no memory), gives up its own sensor and returns -1,
and its measurement is not published.  Afterwards exactly one sensor of the list has the
address, and the state is such that any further loser fares the same. -/
theorem C17_duplicate_creation (k : Module) (hk : k.WF) (eA eB : Env)
    (dA dB : cresta_measurement_data) (hsame : dB.sensor_address = dA.sensor_address)
    (hmiss : get_cresta_sensor_by_address k dA.sensor_address = none)
    (hA : eA.kmalloc_ok = true) :
    (handle_decrypted_after_lookup k eA dA none).2 = 0 ∧
    (handle_decrypted_after_lookup
      (handle_decrypted_after_lookup k eA dA none).1 eB dB none).2 = -1 ∧
    (handle_decrypted_after_lookup
      (handle_decrypted_after_lookup k eA dA none).1 eB dB none).1.cresta_sensor_list
      = k.heap.length :: k.cresta_sensor_list ∧
    (handle_decrypted_after_lookup
      (handle_decrypted_after_lookup k eA dA none).1 eB dB none).1.cresta_sensor_list.filter
        (fun q => (handle_decrypted_after_lookup
          (handle_decrypted_after_lookup k eA dA none).1 eB dB none).1.addrOf q
            == some dA.sensor_address)
      = [k.heap.length] ∧
    (handle_decrypted_after_lookup
      (handle_decrypted_after_lookup k eA dA none).1 eB dB none).1.deref k.heap.length
      = some ⟨dA.sensor_address, dA.sensor_type, some dA⟩ ∧
    (handle_decrypted_after_lookup
      (handle_decrypted_after_lookup k eA dA none).1 eB dB none).1.WF ∧
    get_cresta_sensor_by_address (handle_decrypted_after_lookup
      (handle_decrypted_after_lookup k eA dA none).1 eB dB none).1 dA.sensor_address
      = some k.heap.length := by
  have hAeq : handle_decrypted_after_lookup k eA dA none = handle_decrypted_sensor_data k eA dA := by
    rw [handle_eq_after_lookup, hmiss]
  rw [hAeq]
  obtain ⟨h1, h2, h3, h4, h5, h6⟩ := handle_created k hk eA dA hmiss hA
  have hkA := wf_handle k hk eA dA
  obtain ⟨r1, r2, r3⟩ := loser_result (handle_decrypted_sensor_data k eA dA).1 hkA eB dB
    k.heap.length (by rw [hsame]; exact h2)
  have hptr : (handle_decrypted_after_lookup (handle_decrypted_sensor_data k eA dA).1 eB dB
      none).1.deref k.heap.length = some ⟨dA.sensor_address, dA.sensor_type, some dA⟩ := by
    rw [r3 _ (by omega)]; exact h3
  have hold : ∀ q, q < k.heap.length →
      (handle_decrypted_after_lookup (handle_decrypted_sensor_data k eA dA).1 eB dB
        none).1.deref q = k.deref q := by
    intro q hq
    rw [r3 q (by omega), h4 q (by omega)]
  have hwf : (handle_decrypted_after_lookup (handle_decrypted_sensor_data k eA dA).1 eB dB
      none).1.WF := by
    intro q hq
    rw [r2] at hq
    rw [r3 q (WF_lt _ hkA q hq)]
    exact hkA q hq
  refine ⟨h1, r1, r2.trans h5, ?_, hptr, hwf, ?_⟩
  · exact filter_new_sensor k _ hk _ _ _ hmiss (r2.trans h5) hptr rfl hold
  · rw [← h2]
    refine get_congr _ _ _ r2 ?_
    intro q hq
    unfold Module.addrOf
    rw [r2] at hq
    rw [r3 q (WF_lt _ hkA q hq)]

/-- Witness of C17 (amended): the two contexts of the counterexample. -/
theorem C17_duplicate_creation_witness :
    Module.init.WF ∧
    get_cresta_sensor_by_address Module.init (thermoHygroData 1).sensor_address = none ∧
    (handle_decrypted_after_lookup
      (handle_decrypted_after_lookup Module.init (Env.ok 1) (thermoHygroData 1) none).1
      (Env.ok 2) (thermoHygroData 2) none).1.cresta_sensor_list = [0] :=
  ⟨by decide, by decide,
    (C17_duplicate_creation Module.init (by decide) (Env.ok 1) (Env.ok 2) (thermoHygroData 1)
      (thermoHygroData 2) rfl (by decide) rfl).2.2.1⟩

/-- C15, as stated, fails where `uint64_t` is aligned to 4 or 8 bytes, the structure then
having 2 bytes of tail padding: reading the device in calls of 22 bytes until a call
returns 0 delivers 24 bytes, not 22. -/
theorem C15_counterexample :
    (read_until_zero 2 ⟨some (thermoHygroData 5).measurement, 0⟩ [22, 22, 22]).2 = true ∧
    (read_until_zero 2 ⟨some (thermoHygroData 5).measurement, 0⟩ [22, 22, 22]).1.length = 24 ∧
    (read_until_zero 2 ⟨some (thermoHygroData 5).measurement, 0⟩ [22, 22, 22]).1
      = [5, 0, 0, 0, 0, 0, 0, 0,
         0x75, 0x20, 0xcc, 0x1e, 0x23, 0xc1, 0x45, 0x55, 0x60, 0, 0, 0, 0, 0, 0, 0] := by
  decide

/-- C15, amended: reading a sensor device from offset 0 with `cresta_read`, in calls of
any positive sizes, until a call returns 0 delivers exactly `sizeof(struct measurement)`
bytes: the 8-byte timestamp, the 14-byte decrypted payload and then the tail padding of
the structure (22 bytes for a packed layout, 24 with 2 bytes of padding).  A read at an
offset at or past that size returns 0, and what a read copies is always a piece of that
block starting at the file position, no longer than the count asked for. -/
theorem C15_read_layout (pad : Nat) (m : measurement) (cs : List Nat) (filp : file)
    (count : Nat) (copy_ok : Bool) (hm : m.decrypted_data.length = 14)
    (hs : sizeof_measurement pad < 256) (hd : filp.private_data = some m)
    (hcs : ∀ c ∈ cs, 0 < c) (hl : sizeof_measurement pad < cs.length) :
    read_until_zero pad { filp with f_pos := 0 } cs
      = (uint64_bytes m.measurement_time_seconds ++ m.decrypted_data ++ List.replicate pad 0,
          true) ∧
    (uint64_bytes m.measurement_time_seconds ++ m.decrypted_data
      ++ List.replicate pad 0).length = 8 + 14 + pad ∧
    (sizeof_measurement pad ≤ filp.f_pos →
      cresta_read pad filp count copy_ok = some (filp, 0, [])) ∧
    ∃ f2 ret n, cresta_read pad filp count copy_ok = some (f2, ret, 
      ((measurement_bytes pad m).drop filp.f_pos).take n) ∧ n ≤ count := by
  have hmod : sizeof_measurement pad % 256 = sizeof_measurement pad := Nat.mod_eq_of_lt hs
  refine ⟨?_, measurement_bytes_length pad m hm, ?_, ?_⟩
  · exact read_until_zero_spec pad m hm hs cs { filp with f_pos := 0 } hd hcs
      (by show sizeof_measurement pad - 0 < cs.length; omega)
  · intro h
    exact cresta_read_at_end pad filp count copy_ok (by rw [hmod]; exact h)
  · by_cases hend : sizeof_measurement pad ≤ filp.f_pos
    · exact ⟨filp, 0, 0, by
        rw [cresta_read_at_end pad filp count copy_ok (by rw [hmod]; exact hend)]; rfl,
        Nat.zero_le _⟩
    · cases copy_ok with
      | true =>
        exact ⟨_, _, _, cresta_read_inside pad filp m count hd (by rw [hmod]; omega),
          Nat.min_le_left _ _⟩
      | false =>
        refine ⟨filp, -EFAULT, 0, ?_, Nat.zero_le _⟩
        unfold cresta_read
        have hn : ¬ (filp.f_pos ≥ sizeof_measurement pad % 256) := by rw [hmod]; omega
        simp only [hn, if_false, hd, Bool.false_eq_true, List.take_zero]

/-- Witness of C15 (amended): the padded layout read in calls of 5 bytes. -/
theorem C15_read_layout_witness :
    (thermoHygroData 5).measurement.decrypted_data.length = 14 ∧
    (read_until_zero 2 ⟨some (thermoHygroData 5).measurement, 0⟩
      (List.replicate 25 5)).1.length = 24 :=
  ⟨rfl, by
    rw [(C15_read_layout 2 (thermoHygroData 5).measurement (List.replicate 25 5)
      ⟨some (thermoHygroData 5).measurement, 0⟩ 5 true rfl (by decide) rfl
      (by decide) (by decide)).1]
    rfl⟩

/-- C16: point-in-time copy.  `cresta_open` copies the measurement that is the sensor's
current one at that moment into the file; `cresta_read` on that file returns bytes of
that copy, whatever is published to the sensor by `update_cresta_sensor_data` afterwards
(after which the sensor's current measurement is the last one published). -/
theorem C16_point_in_time (k : Module) (sensor : Nat) (dev : cresta_dev)
    (md : cresta_measurement_data) (updates : List cresta_measurement_data) (filp0 : file)
    (pad pos count : Nat) (hdev : k.deref sensor = some dev)
    (hcur : dev.current_data = some md) (hpos : pos < sizeof_measurement pad % 256) :
    (cresta_open k true sensor filp0).2 = 0 ∧
    (cresta_open k true sensor filp0).1.private_data = some md.measurement ∧
    (updates.foldl (fun k nd => (update_cresta_sensor_data k sensor nd).1) k).deref sensor
      = some ⟨dev.sensor_addr, dev.sensor_type,
          updates.foldl (fun _ nd => some nd) (some md)⟩ ∧
    ∃ (f2 : file) (n : Nat),
      cresta_read pad { (cresta_open k true sensor filp0).1 with f_pos := pos } count true
        = some (f2, (n : Int), ((measurement_bytes pad md.measurement).drop pos).take n) ∧
      n = min count (sizeof_measurement pad % 256 - pos) := by
  rw [cresta_open_copy k sensor dev md filp0 hdev hcur]
  refine ⟨rfl, rfl, ?_, ?_⟩
  · rw [deref_after_updates sensor updates k dev hdev, hcur]
  · exact ⟨_, _, cresta_read_inside pad _ md.measurement count rfl hpos, rfl⟩

/-- Witness of C16: a file opened on a sensor that holds the measurement of time 1, read
after the measurement of time 2 was published. -/
theorem C16_point_in_time_witness :
    (update_cresta_sensor_data oneSensor 0 (thermoHygroData 1)).1.deref 0
      = some ⟨0x20, 0x1E, some (thermoHygroData 1)⟩ ∧
    (cresta_open (update_cresta_sensor_data oneSensor 0 (thermoHygroData 1)).1 true 0
      ⟨none, 0⟩).1.private_data = some (thermoHygroData 1).measurement :=
  ⟨by decide,
    (C16_point_in_time (update_cresta_sensor_data oneSensor 0 (thermoHygroData 1)).1 0
      ⟨0x20, 0x1E, some (thermoHygroData 1)⟩ (thermoHygroData 1) [thermoHygroData 2]
      ⟨none, 0⟩ 2 0 24 (by decide) rfl (by decide)).2.1⟩

set_option maxRecDepth 10000

/-- C12, as stated, fails: the first 50 edges of the reference frame at clock 488 followed
by an edge of 1465 (above three clocks, so out of tolerance) hand over no packet, but the
decoder is then at half-bit 1 on the clock 732 taken from the injected edge, for which the
sync edge 976 of the next frame is within tolerance: the complete edge sequence of the
reference frame fed immediately afterwards hands over no packet either. -/
theorem C12_counterexample :
    IsFrame thermoHygroFrame ∧ 50 < (manchesterEdges 488 thermoHygroFrame 488).length ∧
    ¬ InTolerance 488 1465 ∧
    (feed DecoderState.init
      ((manchesterEdges 488 thermoHygroFrame 488).take 50 ++ [1465])).2.reduceOption = [] ∧
    (feed DecoderState.init
      ((manchesterEdges 488 thermoHygroFrame 488).take 50 ++ [1465])).1.halfBit = 1 ∧
    (feed DecoderState.init
      ((manchesterEdges 488 thermoHygroFrame 488).take 50 ++ [1465])).1.clockTime = 732 ∧
    InTolerance 732 976 ∧
    (feed (feed DecoderState.init
        ((manchesterEdges 488 thermoHygroFrame 488).take 50 ++ [1465])).1
      (manchesterEdges 488 thermoHygroFrame 488)).2.reduceOption = [] := by
  decide

/-- C12, amended: for every frame `p` (preamble 0x75, announced length in [6,11]) sent at
a clock `C` in [200,1000], the first `m` edges of its edge sequence (`m` less than the
number of edges) fed to an idle reachable decoder and followed by one injected edge `d` out
of tolerance (`d < C / 2` or `d > 3 * C`) hand over no packet.  The complete edge sequence
of any frame `p2` at any clock `C2` in [200,1000] fed immediately afterwards hands over
exactly one packet, on its last edge, whose first `L2 + 3` bytes are `p2`, provided the
sync edge `2 * C2` of the fresh frame is out of tolerance for the clock `d / 2` that the
injected edge leaves behind (`2 * C2 < d / 4` or `2 * C2 > 3 * (d / 2)`); an injected edge
below 266 or above 8003 meets this for every `C2`. -/
theorem C12_resync (C : Nat) (p : List Nat) (closing : Nat) (s : DecoderState) (m d : Nat)
    (C2 : Nat) (p2 : List Nat) (closing2 : Nat)
    (hC : 200 ≤ C ∧ C ≤ 1000) (hp : IsFrame p) (hs : Reachable s) (h0 : s.halfBit = 0)
    (hm : m < (manchesterEdges C p closing).length) (hd : d < C / 2 ∨ 3 * C < d)
    (hC2 : 200 ≤ C2 ∧ C2 ≤ 1000) (hp2 : IsFrame p2)
    (hcl2 : C2 / 2 ≤ closing2 ∧ closing2 ≤ 3 * C2)
    (hsync : 2 * C2 < d / 2 / 2 ∨ 3 * (d / 2) < 2 * C2) :
    (feed s ((manchesterEdges C p closing).take m ++ [d])).2 = List.replicate (m + 1) none ∧
    ∃ pkt, (feed (feed s ((manchesterEdges C p closing).take m ++ [d])).1
          (manchesterEdges C2 p2 closing2)).2
        = List.replicate ((manchesterEdges C2 p2 closing2).length - 1) none ++ [some pkt] ∧
      pkt.length = 14 ∧ pkt.take (announcedLength (p2.getD 2 0) + 3) = p2 := by
  obtain ⟨r, hr, hinv, hst⟩ := after_injected C p closing s m d hC hp (reachable_inv s hs) h0
    hm hd
  rw [hr]
  refine ⟨rfl, ?_⟩
  have hst2 : r.halfBit = 0 ∨ (r.halfBit ≠ 0 ∧ ¬ InTolerance r.clockTime (2 * C2)) := by
    rcases hst with h | ⟨h, hclk⟩
    · exact Or.inl h
    · refine Or.inr ⟨h, ?_⟩
      rw [hclk, Nat.shiftRight_eq_div_pow, Nat.pow_one]
      exact not_inTolerance_of_bounds (d / 2) (2 * C2) (by omega) hsync
  obtain ⟨pkt, hf, hlen, htake, _⟩ := fresh_frame C2 p2 closing2 r hC2 hp2 hcl2 hinv hst2
  exact ⟨pkt, hf, hlen, htake⟩

/-- Witness of C12 (amended): the first 50 edges of the reference frame at clock 488, an
injected edge of 100, then the UV frame at clock 300. -/
theorem C12_resync_witness :
    IsFrame thermoHygroFrame ∧ IsFrame uvFrame ∧
    (feed DecoderState.init
      ((manchesterEdges 488 thermoHygroFrame 488).take 50 ++ [100])).2
        = List.replicate (50 + 1) none ∧
    ∃ pkt, (feed (feed DecoderState.init
          ((manchesterEdges 488 thermoHygroFrame 488).take 50 ++ [100])).1
          (manchesterEdges 300 uvFrame 300)).2
        = List.replicate ((manchesterEdges 300 uvFrame 300).length - 1) none ++ [some pkt] ∧
      pkt.length = 14 ∧ pkt.take (announcedLength (uvFrame.getD 2 0) + 3) = uvFrame :=
  ⟨by decide, by decide,
    C12_resync 488 thermoHygroFrame 488 DecoderState.init 50 100 300 uvFrame 300 (by decide)
      (by decide) Reachable.init rfl (by decide) (by decide) (by decide) (by decide)
      (by decide) (by decide)⟩

/-- C14, as stated, fails, in two ways.  First, the UV frame (length 7, ten bytes)
followed by the reference frame (length 6, nine bytes), fed from the initial state: both
packets are handed over, accepted and published, and the payload published for the second
has the byte 57 at index 9, above `L + 2 = 8`; it is checksum B of the first frame, which
stayed in the buffer.  Second, the reference frame up to half-bit index 157, then a short
edge, twelve long edges at even indices and two short edges, all in tolerance: the decoder
reaches index 183 beyond the target 159 and writes bit 1 of `data[10]` on the way, so the
first packet after the initial state is handed over, accepted and published with the byte
2 at index 10. -/
theorem C14_counterexample :
    (feed DecoderState.init
        (manchesterEdges 488 uvFrame 488 ++ manchesterEdges 488 thermoHygroFrame 488)).2.reduceOption
      = [uvFrame ++ [0, 0, 0, 0], thermoHygroFrame ++ [57, 0, 0, 0, 0]] ∧
    (decrypt_and_check (uvFrame ++ [0, 0, 0, 0])).2 = false ∧
    (decrypt_and_check (thermoHygroFrame ++ [57, 0, 0, 0, 0])).2 = false ∧
    announcedLength ((thermoHygroFrame ++ [57, 0, 0, 0, 0]).getD 2 0) = 6 ∧
    (handle_encrypted_sensor_data
        (queue_packets Module.init (feed DecoderState.init
          (manchesterEdges 488 uvFrame 488 ++ manchesterEdges 488 thermoHygroFrame 488)).2)
        [Env.ok 1, Env.ok 2]).deref 1
      = some ⟨0x20, 0x1E, some ⟨0x20, 7, 0x1E,
          ⟨2, [117, 32, 204, 30, 35, 193, 69, 85, 96, 57, 0, 0, 0, 0]⟩⟩⟩ ∧
    [117, 32, 204, 30, 35, 193, 69, 85, 96, 57, 0, 0, 0, 0].getD 9 0 ≠ 0 ∧
    (feed DecoderState.init
        ((manchesterEdges 488 thermoHygroFrame 488).take 125 ++ [488]
          ++ List.replicate 12 976 ++ [488, 488])).2.reduceOption
      = [thermoHygroFrame ++ [0, 2, 0, 0, 0]] ∧
    (decrypt_and_check (thermoHygroFrame ++ [0, 2, 0, 0, 0])).2 = false ∧
    announcedLength ((thermoHygroFrame ++ [0, 2, 0, 0, 0]).getD 2 0) = 6 ∧
    (handle_encrypted_sensor_data
        (queue_packets Module.init (feed DecoderState.init
          ((manchesterEdges 488 thermoHygroFrame 488).take 125 ++ [488]
            ++ List.replicate 12 976 ++ [488, 488])).2)
        [Env.ok 1]).deref 0
      = some ⟨0x20, 0x1E, some ⟨0x20, 7, 0x1E,
          ⟨1, [117, 32, 204, 30, 35, 193, 69, 85, 96, 0, 2, 0, 0, 0]⟩⟩⟩ ∧
    [117, 32, 204, 30, 35, 193, 69, 85, 96, 0, 2, 0, 0, 0].getD 10 0 ≠ 0 := by
  decide

/-- C14, amended: for every sequence of edge durations fed to the decoder from its initial
state, every packet that is handed over, validated and published has, at every index
above `L + 2` (`L` its announced length), the byte that the decoder buffer holds there
when the packet is handed over; validation and publication do not change it.  The buffer
is never cleared, so every bit of such a byte is the polarity of the last bit write of the
sequence to that bit, whether made during an earlier frame or by the same reception beyond
its completion target, and 0 if no edge wrote the bit; the byte is zero exactly when no
bit of it was last written with polarity one.  Here the packet is the output of call
number `n` of the run, it is the head record of the FIFO of a well-formed registry, and
allocation succeeds. -/
theorem C14_bytes_above_frame (ds : List Nat) (n : Nat) (pkt : List Nat) (k : Module)
    (rest : List (List Nat)) (e : Env)
    (hout : (feed DecoderState.init ds).2.getD n none = some pkt)
    (hacc : (decrypt_and_check pkt).2 = false)
    (hk : k.WF) (hq : k.rawdata_kfifo = pkt :: rest)
    (he : e.kzalloc_ok = true ∧ e.kmalloc_ok = true) :
    pkt = (feed DecoderState.init (ds.take (n + 1))).1.data ∧
    ∃ q dev m,
      get_cresta_sensor_by_address (handle_encrypted_record k e) (unscramble (pkt.getD 1 0))
        = some q ∧
      (handle_encrypted_record k e).deref q = some dev ∧ dev.current_data = some m ∧
      m.measurement.decrypted_data = (decrypt_and_check pkt).1 ∧
      m.measurement.decrypted_data.length = 14 ∧
      (∀ j, announcedLength (pkt.getD 2 0) + 3 ≤ j →
        m.measurement.decrypted_data.getD j 0 = pkt.getD j 0) ∧
      (∀ j, announcedLength (pkt.getD 2 0) + 3 ≤ j → ∀ b, b < 8 →
        (m.measurement.decrypted_data.getD j 0).testBit b
          = (lastWrite DecoderState.init (ds.take (n + 1)) j b).getD false) ∧
      (∀ j, announcedLength (pkt.getD 2 0) + 3 ≤ j →
        (m.measurement.decrypted_data.getD j 0 = 0 ↔
          ∀ b, b < 8 → lastWrite DecoderState.init (ds.take (n + 1)) j b ≠ some true)) := by
  obtain ⟨hstep, hstate⟩ := feed_output_at ds DecoderState.init n pkt hout
  have hbuf : pkt = (feed DecoderState.init (ds.take (n + 1))).1.data := by
    rw [hstate]; exact emitted_is_buffer _ _ pkt hstep
  have hinv0 : DecoderInv DecoderState.init := reachable_inv _ Reachable.init
  have hinv := feed_inv (ds.take (n + 1)) DecoderState.init hinv0
  have hpk : IsPacket pkt := by rw [hbuf]; exact ⟨hinv.1, hinv.2.1⟩
  obtain ⟨h6, h11, _, _⟩ := (decrypt_and_check_accepts pkt hpk).mp hacc
  obtain ⟨hdl, hdb⟩ := decrypt_and_check_buffer pkt hpk ⟨h6, h11⟩
  have haddr : get_sensor_address_from_decrypted_data (decrypt_and_check pkt).1
      = unscramble (pkt.getD 1 0) := by
    unfold get_sensor_address_from_decrypted_data
    rw [hdb 1, if_pos (by omega)]
  have hback : ∀ j, announcedLength (pkt.getD 2 0) + 3 ≤ j →
      (decrypt_and_check pkt).1.getD j 0 = pkt.getD j 0 := by
    intro j hj
    rw [hdb j, if_neg (by omega)]
  have hbits : ∀ j b, b < 8 →
      (pkt.getD j 0).testBit b
        = (lastWrite DecoderState.init (ds.take (n + 1)) j b).getD false := by
    intro j b hb
    have h := buffer_bits (ds.take (n + 1)) DecoderState.init hinv0 j b hb
    rw [← hbuf, init_data_zero j, Nat.zero_testBit] at h
    exact h
  have hzero : ∀ j, (pkt.getD j 0 = 0 ↔
      ∀ b, b < 8 → lastWrite DecoderState.init (ds.take (n + 1)) j b ≠ some true) := by
    intro j
    constructor
    · intro hz b hb hl
      have h := hbits j b hb
      rw [hz, Nat.zero_testBit, hl] at h
      exact absurd h (by decide)
    · intro hall
      apply byte_eq_of_testBit (getD_lt_of_forall pkt hpk.2 j) (by decide)
      intro b hb
      rw [hbits j b hb, Nat.zero_testBit]
      cases hl : lastWrite DecoderState.init (ds.take (n + 1)) j b with
      | none => rfl
      | some v =>
        cases v with
        | false => rfl
        | true => exact absurd hl (hall b hb)
  refine ⟨hbuf, ?_⟩
  rw [record_accepted k e pkt rest hq he.1 hpk.1 hacc, ← haddr]
  have hk2 : ({ k with rawdata_kfifo := rest } : Module).WF := hk
  cases hg : get_cresta_sensor_by_address ({ k with rawdata_kfifo := rest } : Module)
      (get_sensor_address_from_decrypted_data (decrypt_and_check pkt).1) with
  | some q =>
    obtain ⟨_, h2, ⟨dev0, _, _, h3⟩, _⟩ := handle_existing
      ({ k with rawdata_kfifo := rest } : Module) e
      { sensor_address := get_sensor_address_from_decrypted_data (decrypt_and_check pkt).1,
        len := get_packet_length_from_decrypted_data (decrypt_and_check pkt).1,
        sensor_type := get_sensor_type_from_decrypted_data (decrypt_and_check pkt).1,
        measurement := ⟨e.now, (decrypt_and_check pkt).1⟩ } q hg
    exact ⟨q, _, _, h2, h3, rfl, rfl, hdl, hback,
      fun j hj b hb => by
        show ((decrypt_and_check pkt).1.getD j 0).testBit b = _
        rw [hback j hj]; exact hbits j b hb,
      fun j hj => by
        show (decrypt_and_check pkt).1.getD j 0 = 0 ↔ _
        rw [hback j hj]; exact hzero j⟩
  | none =>
    obtain ⟨_, h2, h3, _⟩ := handle_created
      ({ k with rawdata_kfifo := rest } : Module) hk2 e
      { sensor_address := get_sensor_address_from_decrypted_data (decrypt_and_check pkt).1,
        len := get_packet_length_from_decrypted_data (decrypt_and_check pkt).1,
        sensor_type := get_sensor_type_from_decrypted_data (decrypt_and_check pkt).1,
        measurement := ⟨e.now, (decrypt_and_check pkt).1⟩ } hg he.2
    exact ⟨k.heap.length, _, _, h2, h3, rfl, rfl, hdl, hback,
      fun j hj b hb => by
        show ((decrypt_and_check pkt).1.getD j 0).testBit b = _
        rw [hback j hj]; exact hbits j b hb,
      fun j hj => by
        show (decrypt_and_check pkt).1.getD j 0 = 0 ↔ _
        rw [hback j hj]; exact hzero j⟩

/-- Witness of C14 (amended): the UV frame followed by the reference frame.  The packet of
call number 267 is published with bit 0 of byte 9 set, last written with polarity one
while the UV frame was received, and with byte 10 zero, no bit of which was written with
polarity one. -/
theorem C14_bytes_above_frame_witness :
    (feed DecoderState.init
      (manchesterEdges 488 uvFrame 488 ++ manchesterEdges 488 thermoHygroFrame 488)).2.getD
        267 none = some (thermoHygroFrame ++ [57, 0, 0, 0, 0]) ∧
    lastWrite DecoderState.init
      ((manchesterEdges 488 uvFrame 488 ++ manchesterEdges 488 thermoHygroFrame 488).take
        (267 + 1)) 9 0 = some true ∧
    ∃ q dev m,
      (handle_encrypted_record
        { Module.init with rawdata_kfifo := [thermoHygroFrame ++ [57, 0, 0, 0, 0]] }
        (Env.ok 2)).deref q = some dev ∧
      dev.current_data = some m ∧
      (m.measurement.decrypted_data.getD 9 0).testBit 0 = true ∧
      m.measurement.decrypted_data.getD 10 0 = 0 := by
  obtain ⟨_, q, dev, m, _, h2, h3, _, _, _, h7, h8⟩ :=
    C14_bytes_above_frame
      (manchesterEdges 488 uvFrame 488 ++ manchesterEdges 488 thermoHygroFrame 488) 267
      (thermoHygroFrame ++ [57, 0, 0, 0, 0])
      { Module.init with rawdata_kfifo := [thermoHygroFrame ++ [57, 0, 0, 0, 0]] } []
      (Env.ok 2) (by decide) (by decide) (by decide) rfl ⟨rfl, rfl⟩
  refine ⟨by decide, by decide, q, dev, m, h2, h3, ?_, ?_⟩
  · rw [h7 9 (by decide) 0 (by decide)]; decide
  · exact (h8 10 (by decide)).mpr (by decide)

/-- C21: announced-length metadata.  For every raw packet that `decrypt_and_check` accepts
with derived length `L`, `get_packet_length_from_decrypted_data` on the decrypted buffer
returns `L + 1`, which lies in [7,12] and is the 5-bit field in bits 1..5 of decrypted
byte 2, plus 1.  The function of the userspace decoder has the same body. -/
theorem C21_announced_length (raw : List Nat) (hp : IsPacket raw)
    (hacc : (decrypt_and_check raw).2 = false) :
    get_packet_length_from_decrypted_data (decrypt_and_check raw).1
      = announcedLength (raw.getD 2 0) + 1 ∧
    7 ≤ get_packet_length_from_decrypted_data (decrypt_and_check raw).1 ∧
    get_packet_length_from_decrypted_data (decrypt_and_check raw).1 ≤ 12 ∧
    get_packet_length_from_decrypted_data (decrypt_and_check raw).1
      = (((decrypt_and_check raw).1.getD 2 0 >>> 1) &&& 0x1F) + 1 := by
  obtain ⟨h6, h11, _, _⟩ := (decrypt_and_check_accepts raw hp).mp hacc
  obtain ⟨_, hdb⟩ := decrypt_and_check_buffer raw hp ⟨h6, h11⟩
  have h2 : (decrypt_and_check raw).1.getD 2 0 = unscramble (raw.getD 2 0) := by
    rw [hdb 2, if_pos (by omega)]
  have hL : ((decrypt_and_check raw).1.getD 2 0 >>> 1) &&& 0x1F
      = announcedLength (raw.getD 2 0) := by
    rw [h2]; rfl
  have e : get_packet_length_from_decrypted_data (decrypt_and_check raw).1
      = announcedLength (raw.getD 2 0) + 1 := by
    unfold get_packet_length_from_decrypted_data
    rw [hL]
    omega
  refine ⟨e, by omega, by omega, ?_⟩
  rw [e, hL]

/-- Witness of C21: the reference packet, of derived length 6. -/
theorem C21_announced_length_witness :
    IsPacket thermoHygroPacket ∧ (decrypt_and_check thermoHygroPacket).2 = false ∧
    get_packet_length_from_decrypted_data (decrypt_and_check thermoHygroPacket).1 = 6 + 1 :=
  ⟨by decide, by decide,
    (C21_announced_length thermoHygroPacket (by decide) (by decide)).1⟩

/-- C23: first edge.  For every decoder state with `halfBit = 0` and every duration `d`,
`cresta_manchester_decoder` sets the recovered clock to `d / 2`, hands over no packet and
leaves the buffer unchanged; if `200 <= d / 2 <= 1000` the half-bit index becomes 1 and
the polarity becomes one, otherwise the half-bit index stays 0. -/
theorem C23_first_edge (s : DecoderState) (d : Nat) (h0 : s.halfBit = 0) :
    (cresta_manchester_decoder s d).1.clockTime = d / 2 ∧
    (cresta_manchester_decoder s d).2 = none ∧
    (cresta_manchester_decoder s d).1.data = s.data ∧
    (200 ≤ d / 2 ∧ d / 2 ≤ 1000 →
      (cresta_manchester_decoder s d).1.halfBit = 1 ∧
      (cresta_manchester_decoder s d).1.isOne = true) ∧
    (¬ (200 ≤ d / 2 ∧ d / 2 ≤ 1000) → (cresta_manchester_decoder s d).1.halfBit = 0) := by
  have e : d >>> 1 = d / 2 := by rw [Nat.shiftRight_eq_div_pow, Nat.pow_one]
  rw [decoder_idle s d h0, e]
  by_cases hr : d / 2 < 200 ∨ d / 2 > 1000
  · rw [if_pos hr]
    exact ⟨rfl, rfl, rfl, fun h => absurd h (by omega), fun _ => h0⟩
  · rw [if_neg hr]
    exact ⟨rfl, rfl, rfl, fun _ => ⟨rfl, rfl⟩, fun h => absurd (by omega) h⟩

/-- Witness of C23: the sync edge 976 and the edge 300 at the freshly loaded decoder. -/
theorem C23_first_edge_witness :
    DecoderState.init.halfBit = 0 ∧
    (cresta_manchester_decoder DecoderState.init 976).1.clockTime = 976 / 2 ∧
    (cresta_manchester_decoder DecoderState.init 976).1.halfBit = 1 ∧
    (cresta_manchester_decoder DecoderState.init 300).1.halfBit = 0 :=
  ⟨rfl, (C23_first_edge DecoderState.init 976 rfl).1,
    ((C23_first_edge DecoderState.init 976 rfl).2.2.2.1 (by decide)).1,
    (C23_first_edge DecoderState.init 300 rfl).2.2.2.2 (by decide)⟩

/-- C27: preamble check.  In every state the decoder can reach, for an in-tolerance edge
arriving at half-bit index 17 with the framing bit decoded as 0 (polarity zero): if
`data[0] != 0x75` the decoder is reset and hands over nothing; if `data[0] = 0x75` it goes
on decoding, the half-bit index advancing to 18 or 19 with the clock, the buffer and the
completion target as they were. -/
theorem C27_preamble_check (s : DecoderState) (d : Nat) (hs : Reachable s)
    (h17 : s.halfBit = 17) (ht : InTolerance s.clockTime d) (hi : s.isOne = false) :
    (s.data.getD 0 0 ≠ 0x75 →
      cresta_manchester_decoder s d = (reset_manchester_decoder s d, none)) ∧
    (s.data.getD 0 0 = 0x75 →
      cresta_manchester_decoder s d = (advance s d, none) ∧
      ((advance s d).halfBit = 18 ∨ (advance s d).halfBit = 19) ∧
      (advance s d).clockTime = s.clockTime ∧ (advance s d).data = s.data ∧
      (advance s d).halfBitCounter = s.halfBitCounter) := by
  have h0 : s.halfBit ≠ 0 := by rw [h17]; decide
  have ho : s.halfBit &&& 1 = 1 := by rw [h17]; rfl
  have h8 : (s.halfBit >>> 1) % 9 = 8 := by rw [h17]; rfl
  have hw : write_bit s = some s := by rw [write_bit_framing s h8, hi]; rfl
  constructor
  · intro hd
    exact decoder_odd_header s s s d h0 ht ho hw (check_header_17_fail s h17 hd)
  · intro hd
    have hlt : s.halfBit < s.halfBitCounter := by
      rcases (reachable_inv s hs).2.2 with h | h <;> omega
    obtain ⟨f1, f2, f3, _⟩ := advance_fields s d
    obtain ⟨hl, hsh⟩ := advance_halfBit s d (reachable_clock s hs)
    refine ⟨decoder_odd_continue s s s d h0 ht ho hw (check_header_17 s h17 hd) hlt, ?_,
      f1, f2, f3⟩
    by_cases hlong : d > s.clockTime + s.clockTime / 2
    · right; rw [(hl hlong).2, h17]
    · left; rw [(hsh (by omega)).2, h17]

/-- Witness of C27: the reference frame at clock 488 after its first 12 edges, which have
written the preamble 0x75 and lead to half-bit index 17. -/
theorem C27_preamble_check_witness :
    (feed DecoderState.init ((manchesterEdges 488 thermoHygroFrame 488).take 12)).1.halfBit
      = 17 ∧
    (feed DecoderState.init
      ((manchesterEdges 488 thermoHygroFrame 488).take 12)).1.data.getD 0 0 = 0x75 ∧
    (cresta_manchester_decoder
      (feed DecoderState.init ((manchesterEdges 488 thermoHygroFrame 488).take 12)).1 488).1.halfBit
      = 18 :=
  ⟨by decide, by decide,
    (congrArg (fun r => r.1.halfBit)
      ((C27_preamble_check
        (feed DecoderState.init ((manchesterEdges 488 thermoHygroFrame 488).take 12)).1 488
        (reachable_feed _ _ Reachable.init (by decide)) (by decide) (by decide)
        (by decide)).2 (by decide)).1).trans (by decide)⟩

/-- C28: length announcement.  For an in-tolerance edge arriving at half-bit index 53 with
the framing bit decoded as 0 (polarity zero), the decoder derives
`L = (((data[2] XOR (data[2] << 1)) mod 256) >> 1) AND 0x1F` and stores it; if `L` is
outside [6,11] the decoder is reset and hands over nothing; otherwise the completion
target becomes `(L + 3) * 18 - 3` and decoding goes on, the half-bit index advancing to 54
or 55. -/
theorem C28_length_announcement (s : DecoderState) (d : Nat) (h53 : s.halfBit = 53)
    (ht : InTolerance s.clockTime d) (hi : s.isOne = false) :
    announcedLength (s.data.getD 2 0)
      = ((((s.data.getD 2 0) ^^^ ((s.data.getD 2 0) <<< 1)) % 256) >>> 1) &&& 0x1F ∧
    (announcedLength (s.data.getD 2 0) < 6 ∨ 11 < announcedLength (s.data.getD 2 0) →
      cresta_manchester_decoder s d
        = (reset_manchester_decoder
            { s with packageLength := announcedLength (s.data.getD 2 0) } d, none)) ∧
    (6 ≤ announcedLength (s.data.getD 2 0) ∧ announcedLength (s.data.getD 2 0) ≤ 11 →
      cresta_manchester_decoder s d
        = (advance { s with
            packageLength := announcedLength (s.data.getD 2 0),
            halfBitCounter := (announcedLength (s.data.getD 2 0) + 3) * 18 - 3 } d, none) ∧
      (cresta_manchester_decoder s d).1.halfBitCounter
        = (announcedLength (s.data.getD 2 0) + 3) * 18 - 3 ∧
      ((cresta_manchester_decoder s d).1.halfBit = 54 ∨
        (cresta_manchester_decoder s d).1.halfBit = 55) ∧
      (cresta_manchester_decoder s d).1.data = s.data) := by
  have h0 : s.halfBit ≠ 0 := by rw [h53]; decide
  have ho : s.halfBit &&& 1 = 1 := by rw [h53]; rfl
  have h8 : (s.halfBit >>> 1) % 9 = 8 := by rw [h53]; rfl
  have hw : write_bit s = some s := by rw [write_bit_framing s h8, hi]; rfl
  refine ⟨rfl, ?_, ?_⟩
  · intro hL
    exact decoder_odd_header s s _ d h0 ht ho hw (check_header_53_fail s h53 (by omega))
  · intro hL
    have hstep := decoder_odd_continue s s _ d h0 ht ho hw (check_header_53 s h53 hL.1 hL.2)
      (by show s.halfBit < (announcedLength (s.data.getD 2 0) + 3) * 18 - 3; omega)
    rw [hstep]
    refine ⟨rfl, (advance_fields _ d).2.2.1, ?_, (advance_fields _ d).2.1⟩
    show (advance _ d).halfBit = 54 ∨ (advance _ d).halfBit = 55
    unfold advance
    split_ifs
    · right; show ((s.halfBit + 1) % 256 + 1) % 256 = 55; rw [h53]
    · left; show (s.halfBit + 1) % 256 = 54; rw [h53]

/-- Witness of C28: the reference frame at clock 488 after its first 42 edges, which lead
to half-bit index 53; its byte 2 announces the length 6, so the target becomes 159. -/
theorem C28_length_announcement_witness :
    (feed DecoderState.init ((manchesterEdges 488 thermoHygroFrame 488).take 42)).1.halfBit
      = 53 ∧
    (cresta_manchester_decoder
      (feed DecoderState.init ((manchesterEdges 488 thermoHygroFrame 488).take 42)).1
      488).1.halfBitCounter = 159 :=
  ⟨by decide,
    ((C28_length_announcement
      (feed DecoderState.init ((manchesterEdges 488 thermoHygroFrame 488).take 42)).1 488
      (by decide) (by decide) (by decide)).2.2 (by decide)).2.1.trans (by decide)⟩

/-- C25: long and short edges.  In every state the decoder can reach with `halfBit != 0`
and recovered clock `c`, for every in-tolerance edge `d` that is no framing failure and
does not complete a packet (the index is not an odd one at or beyond the completion
target): if `d > c + c / 2` the polarity is flipped and the 8-bit half-bit index advances
by two, otherwise the polarity is unchanged and the index advances by one; the clock is
unchanged and nothing is handed over in both cases. -/
theorem C25_long_short_edges (s : DecoderState) (d : Nat) (hs : Reachable s)
    (h0 : s.halfBit ≠ 0) (ht : InTolerance s.clockTime d) (hf : ¬ FramingFailure s d)
    (hc : ¬ (s.halfBit % 2 = 1 ∧ s.halfBit ≥ s.halfBitCounter)) :
    (d > s.clockTime + s.clockTime / 2 →
      (cresta_manchester_decoder s d).1.isOne = (!s.isOne) ∧
      (cresta_manchester_decoder s d).1.halfBit = (s.halfBit + 2) % 256) ∧
    (d ≤ s.clockTime + s.clockTime / 2 →
      (cresta_manchester_decoder s d).1.isOne = s.isOne ∧
      (cresta_manchester_decoder s d).1.halfBit = (s.halfBit + 1) % 256) ∧
    (cresta_manchester_decoder s d).1.clockTime = s.clockTime ∧
    (cresta_manchester_decoder s d).2 = none := by
  obtain ⟨s2, hstep, f1, f2, f3⟩ := decoder_continue s d h0 ht hf hc
  obtain ⟨hl, hsh⟩ := advance_halfBit s2 d (by rw [f2]; exact reachable_clock s hs)
  rw [f2, f1, f3] at hl hsh
  rw [hstep]
  exact ⟨hl, hsh, by rw [(advance_fields s2 d).1, f2], rfl⟩

/-- Witness of C25: after the sync edge 976 the decoder is at half-bit index 1 on the
clock 488; the long edge 976 flips the polarity and leads to index 3. -/
theorem C25_long_short_edges_witness :
    (feed DecoderState.init [976]).1.halfBit = 1 ∧
    (feed DecoderState.init [976]).1.clockTime = 488 ∧
    (cresta_manchester_decoder (feed DecoderState.init [976]).1 976).1.isOne = false ∧
    (cresta_manchester_decoder (feed DecoderState.init [976]).1 976).1.halfBit = 3 :=
  ⟨by decide, by decide,
    ((C25_long_short_edges (feed DecoderState.init [976]).1 976
      (reachable_feed _ _ Reachable.init (by decide)) (by decide) (by decide) (by decide)
      (by decide)).1 (by decide)).1,
    ((C25_long_short_edges (feed DecoderState.init [976]).1 976
      (reachable_feed _ _ Reachable.init (by decide)) (by decide) (by decide) (by decide)
      (by decide)).1 (by decide)).2⟩

/-- C26: bit placement.  In every state the decoder can reach, for an in-tolerance edge:
at an even half-bit index nothing is written to the buffer; at an odd index `h` with
`k = (h / 2) mod 9 < 8` and `j = h / 18 < 14`, bit `k` of `data[j]` becomes the polarity
held before the edge, and no other bit of `data[j]` and no other byte changes; at an odd
index with `k = 8` while the polarity is one the decoder is reset, nothing is handed over
and the buffer is unchanged. -/
theorem C26_bit_placement (s : DecoderState) (d : Nat) (hs : Reachable s)
    (ht : InTolerance s.clockTime d) :
    (s.halfBit % 2 = 0 → (cresta_manchester_decoder s d).1.data = s.data) ∧
    (s.halfBit % 2 = 1 → (s.halfBit / 2) % 9 < 8 → s.halfBit / 18 < 14 →
      (∀ i, ((cresta_manchester_decoder s d).1.data.getD (s.halfBit / 18) 0).testBit i
        = if i = (s.halfBit / 2) % 9 then s.isOne
          else (s.data.getD (s.halfBit / 18) 0).testBit i) ∧
      (∀ j, j ≠ s.halfBit / 18 →
        (cresta_manchester_decoder s d).1.data.getD j 0 = s.data.getD j 0) ∧
      (cresta_manchester_decoder s d).1.data.length = s.data.length) ∧
    (s.halfBit % 2 = 1 → (s.halfBit / 2) % 9 = 8 → s.isOne = true →
      cresta_manchester_decoder s d = (reset_manchester_decoder s d, none) ∧
      (reset_manchester_decoder s d).data = s.data) := by
  obtain ⟨hlen, hb, _⟩ := reachable_inv s hs
  refine ⟨?_, ?_, ?_⟩
  · intro he
    exact decoder_data_even s d (by rw [Nat.and_one_is_mod]; exact he)
  · intro hodd h8 h14
    have h0 : s.halfBit ≠ 0 := by omega
    have ho : s.halfBit &&& 1 = 1 := by rw [Nat.and_one_is_mod]; exact hodd
    rw [decoder_data_written s _ d h0 ht ho (write_bit_data s h8 h14)]
    have hin : s.halfBit / 18 < s.data.length := by rw [hlen]; exact h14
    refine ⟨?_, ?_, ?_⟩
    · intro i
      show ((s.data.set _ _).getD _ 0).testBit i = _
      rw [getD_set _ _ _ _ hin, if_pos rfl,
        testBit_putBit (getD_lt_of_forall s.data hb _) h8]
    · intro j hj
      show (s.data.set _ _).getD j 0 = _
      rw [getD_set _ _ _ _ hin, if_neg hj]
    · show (s.data.set _ _).length = _
      rw [List.length_set]
  · intro hodd h8 hi
    have h0 : s.halfBit ≠ 0 := by omega
    have ho : s.halfBit &&& 1 = 1 := by rw [Nat.and_one_is_mod]; exact hodd
    have e : s.halfBit >>> 1 = s.halfBit / 2 := by
      rw [Nat.shiftRight_eq_div_pow, Nat.pow_one]
    have hw : write_bit s = none := by
      rw [write_bit_framing s (by rw [e]; exact h8), hi]; rfl
    exact ⟨decoder_odd_framing s d h0 ht ho hw, rfl⟩

/-- Witness of C26: after the sync edge 976 the decoder is at half-bit index 1 with the
polarity one; the next edge sets bit 0 of `data[0]`. -/
theorem C26_bit_placement_witness :
    (feed DecoderState.init [976]).1.halfBit = 1 ∧
    (feed DecoderState.init [976]).1.isOne = true ∧
    ((cresta_manchester_decoder (feed DecoderState.init [976]).1 976).1.data.getD 0 0).testBit 0
      = true :=
  ⟨by decide, by decide,
    (((C26_bit_placement (feed DecoderState.init [976]).1 976
      (reachable_feed _ _ Reachable.init (by decide)) (by decide)).2.1
        (by decide) (by decide) (by decide)).1 0).trans (by decide)⟩

/-- C29: completion.  In every state the decoder can reach, whenever an in-tolerance edge
that is no framing failure arrives at an odd half-bit index at or beyond the completion
target, the decoder hands over the 14-byte buffer if and only if a target had been
announced (the target is not the sentinel 0xFF), `data[0] = 0x75` and the length derived
again from `data[2]` lies in [6,11], and hands over nothing otherwise; in both cases it is
idle afterwards (half-bit index 0, completion target 0xFF).  Bytes 0 and 2 of the buffer
are those the state held before the edge. -/
theorem C29_completion (s : DecoderState) (d : Nat) (hs : Reachable s)
    (ht : InTolerance s.clockTime d) (hodd : s.halfBit % 2 = 1)
    (hf : ¬ FramingFailure s d) (hge : s.halfBit ≥ s.halfBitCounter) :
    (cresta_manchester_decoder s d).1.halfBit = 0 ∧
    (cresta_manchester_decoder s d).1.halfBitCounter = 0xFF ∧
    (cresta_manchester_decoder s d).1.data.length = 14 ∧
    (cresta_manchester_decoder s d).1.data.getD 0 0 = s.data.getD 0 0 ∧
    (cresta_manchester_decoder s d).1.data.getD 2 0 = s.data.getD 2 0 ∧
    ((cresta_manchester_decoder s d).2 = some (cresta_manchester_decoder s d).1.data ↔
      (s.halfBitCounter ≠ 0xFF ∧ s.data.getD 0 0 = 0x75 ∧
        6 ≤ announcedLength (s.data.getD 2 0) ∧ announcedLength (s.data.getD 2 0) ≤ 11)) ∧
    ((cresta_manchester_decoder s d).2 = none ↔
      ¬ (s.halfBitCounter ≠ 0xFF ∧ s.data.getD 0 0 = 0x75 ∧
        6 ≤ announcedLength (s.data.getD 2 0) ∧ announcedLength (s.data.getD 2 0) ≤ 11)) := by
  have hinv := reachable_inv s hs
  have h0 : s.halfBit ≠ 0 := by omega
  have ho : s.halfBit &&& 1 = 1 := by rw [Nat.and_one_is_mod]; exact hodd
  have h159 : 159 ≤ s.halfBit := by rcases hinv.2.2 with h | h <;> omega
  obtain ⟨s1, s2, hw, hch, f1, _, _, fd, hne, _⟩ := odd_no_failure s d h0 ht ho hf
  obtain ⟨fc, _⟩ := hne (by omega)
  have hlen : s2.data.length = 14 := by rw [fd]; exact (write_bit_inv s s1 hinv hw).1
  have hd0 : s2.data.getD 0 0 = s.data.getD 0 0 := by
    rw [fd]; exact write_bit_other s s1 hinv hw 0 (by omega)
  have hd2 : s2.data.getD 2 0 = s.data.getD 2 0 := by
    rw [fd]; exact write_bit_other s s1 hinv hw 2 (by omega)
  rw [decoder_odd_complete s s1 s2 d h0 ht ho hw hch (by rw [f1, fc]; exact hge)]
  refine ⟨rfl, rfl, hlen, hd0, hd2, ?_, ?_⟩
  · show emit_packet s2 = some s2.data ↔ _
    rw [emit_packet_eq, fc, hd0, hd2]
    split_ifs with h1 h2
    · exact ⟨fun _ => ⟨h1, h2⟩, fun _ => rfl⟩
    · exact ⟨fun h => h.elim, fun h => absurd h.2 h2⟩
    · exact ⟨fun h => h.elim, fun h => absurd h.1 h1⟩
  · show emit_packet s2 = none ↔ _
    rw [emit_packet_eq, fc, hd0, hd2]
    split_ifs with h1 h2
    · exact ⟨fun h => h.elim, fun h => absurd ⟨h1, h2⟩ h⟩
    · exact ⟨fun _ h => h2 h.2, fun _ => rfl⟩
    · exact ⟨fun _ h => h1 h.1, fun _ => rfl⟩

/-- Witness of C29: the reference frame at clock 488 before its closing edge, at half-bit
index 159 with the target 159; the closing edge hands over the buffer. -/
theorem C29_completion_witness :
    (feed DecoderState.init ((manchesterEdges 488 thermoHygroFrame 488).take 126)).1.halfBit
      = 159 ∧
    (feed DecoderState.init
      ((manchesterEdges 488 thermoHygroFrame 488).take 126)).1.halfBitCounter = 159 ∧
    (cresta_manchester_decoder
      (feed DecoderState.init ((manchesterEdges 488 thermoHygroFrame 488).take 126)).1
      488).1.halfBit = 0 ∧
    (cresta_manchester_decoder
      (feed DecoderState.init ((manchesterEdges 488 thermoHygroFrame 488).take 126)).1
      488).2 = some thermoHygroPacket :=
  have h := C29_completion
    (feed DecoderState.init ((manchesterEdges 488 thermoHygroFrame 488).take 126)).1 488
    (reachable_feed _ _ Reachable.init (by decide)) (by decide) (by decide) (by decide)
    (by decide)
  ⟨by decide, by decide, h.1, (h.2.2.2.2.2.1.mpr (by decide)).trans (by decide)⟩

/-- C30, as stated, fails: the reference frame at clock 488 up to half-bit index 157, then
a short edge (index 158), a long edge at that even index (index 160, the odd index 159 is
passed over) and a short edge (index 161).  The decoder is then at index 161 while the
completion target for the announced length 6 is 159, and the next edge hands over a
packet. -/
theorem C30_counterexample :
    (feed DecoderState.init
      ((manchesterEdges 488 thermoHygroFrame 488).take 125 ++ [488, 976, 488])).1.halfBit
      = 161 ∧
    (feed DecoderState.init
      ((manchesterEdges 488 thermoHygroFrame 488).take 125 ++ [488, 976, 488])).1.packageLength
      = 6 ∧
    (feed DecoderState.init
      ((manchesterEdges 488 thermoHygroFrame 488).take 125 ++ [488, 976, 488])).1.halfBitCounter
      = (6 + 3) * 18 - 3 ∧
    (cresta_manchester_decoder (feed DecoderState.init
      ((manchesterEdges 488 thermoHygroFrame 488).take 125 ++ [488, 976, 488])).1 488).2
      = some thermoHygroPacket := by
  decide

/-- C30, amended: in every state the decoder can reach, `cresta_manchester_decoder` hands
over a packet only on an edge that arrives while the half-bit index is odd and at or
beyond the completion target `(L + 3) * 18 - 3` announced for the stored length `L`, which
is in [6,11]; in every other call it hands over nothing. -/
theorem C30_emission_point (s : DecoderState) (d : Nat) (hs : Reachable s) :
    (∀ pkt, (cresta_manchester_decoder s d).2 = some pkt →
      s.halfBit % 2 = 1 ∧ 6 ≤ s.packageLength ∧ s.packageLength ≤ 11 ∧
      s.halfBitCounter = (s.packageLength + 3) * 18 - 3 ∧
      s.halfBit ≥ (s.packageLength + 3) * 18 - 3) ∧
    (¬ (s.halfBit % 2 = 1 ∧ s.halfBitCounter = (s.packageLength + 3) * 18 - 3 ∧
        s.halfBit ≥ (s.packageLength + 3) * 18 - 3) →
      (cresta_manchester_decoder s d).2 = none) := by
  have key : ∀ pkt, (cresta_manchester_decoder s d).2 = some pkt →
      s.halfBit % 2 = 1 ∧ 6 ≤ s.packageLength ∧ s.packageLength ≤ 11 ∧
      s.halfBitCounter = (s.packageLength + 3) * 18 - 3 ∧
      s.halfBit ≥ (s.packageLength + 3) * 18 - 3 := by
    intro pkt h
    obtain ⟨hodd, hne, hge⟩ := decoder_output_target s d pkt h
    rcases reachable_target s hs with hff | ⟨h6, h11, htar⟩
    · exact absurd hff hne
    · exact ⟨hodd, h6, h11, htar, by rw [← htar]; exact hge⟩
  refine ⟨key, ?_⟩
  intro hn
  cases ho : (cresta_manchester_decoder s d).2 with
  | none => rfl
  | some pkt =>
    obtain ⟨h1, _, _, h4, h5⟩ := key pkt ho
    exact absurd ⟨h1, h4, h5⟩ hn

/-- Witness of C30 (amended): the reference frame before its closing edge, at half-bit
index 159, where the closing edge hands over the packet; and the state after the sync edge
alone, at index 1, where the next edge hands over nothing. -/
theorem C30_emission_point_witness :
    (cresta_manchester_decoder
      (feed DecoderState.init ((manchesterEdges 488 thermoHygroFrame 488).take 126)).1
      488).2 = some thermoHygroPacket ∧
    (feed DecoderState.init ((manchesterEdges 488 thermoHygroFrame 488).take 126)).1.halfBit
      ≥ ((feed DecoderState.init
          ((manchesterEdges 488 thermoHygroFrame 488).take 126)).1.packageLength + 3) * 18 - 3 ∧
    (cresta_manchester_decoder (feed DecoderState.init [976]).1 976).2 = none :=
  ⟨by decide,
    ((C30_emission_point
      (feed DecoderState.init ((manchesterEdges 488 thermoHygroFrame 488).take 126)).1 488
      (reachable_feed _ _ Reachable.init (by decide))).1 thermoHygroPacket
        (by decide)).2.2.2.2,
    (C30_emission_point (feed DecoderState.init [976]).1 976
      (reachable_feed _ _ Reachable.init (by decide))).2 (by decide)⟩

/-- C22 does not hold of the code: on the reference measurement (bytes 4 and 5 are 0x23 and
0xC1: digits 1, 2, 3, sign 0xC) `get_temperature_from_cresta_encoding` returns 12, while
the three-digit value `10*d1 + d2 + d3/10` is 12.3.  The third digit is divided by 10 as
an integer, which gives 0 for every decimal digit. -/
theorem C22_third_digit_dropped :
    (thermoHygroData 0).measurement.decrypted_data.getD 4 0 = 0x23 ∧
    (thermoHygroData 0).measurement.decrypted_data.getD 5 0 = 0xC1 ∧
    get_temperature_from_cresta_encoding (thermoHygroData 0).measurement.decrypted_data 4
      = 12 ∧
    bcdTemperature (thermoHygroData 0).measurement.decrypted_data 4 = 123 / 10 ∧
    ((get_temperature_from_cresta_encoding
        (thermoHygroData 0).measurement.decrypted_data 4 : Int) : ℚ)
      ≠ bcdTemperature (thermoHygroData 0).measurement.decrypted_data 4 := by
  have h1 : get_temperature_from_cresta_encoding
      (thermoHygroData 0).measurement.decrypted_data 4 = 12 := by decide
  have e1 : (thermoHygroData 0).measurement.decrypted_data.getD (4 + 1) 0 &&& 0x0F = 1 := by
    decide
  have e2 : (thermoHygroData 0).measurement.decrypted_data.getD 4 0 >>> 4 = 2 := by decide
  have e3 : (thermoHygroData 0).measurement.decrypted_data.getD 4 0 &&& 0x0F = 3 := by
    decide
  have e4 : (thermoHygroData 0).measurement.decrypted_data.getD (4 + 1) 0 >>> 4 = 12 := by
    decide
  have h2 : bcdTemperature (thermoHygroData 0).measurement.decrypted_data 4 = 123 / 10 := by
    unfold bcdTemperature
    rw [e1, e2, e3, e4]
    norm_num
  refine ⟨by decide, by decide, h1, h2, ?_⟩
  rw [h1, h2]
  norm_num

/-- C24 does not hold of the code: the sync edge 976 followed by an edge of 4294967295
(out of tolerance) resets the decoder to half-bit index 1 with the clock 2147483647.  The
next edge 2147483646 is neither below half that clock nor above three times that clock,
but `(clockTime << 1) + clockTime` wraps in 32 bits to 2147483645, so the edge is rejected
as out of tolerance and the decoder is reset. -/
theorem C24_window_wraps :
    (feed DecoderState.init [976, 4294967295]).1.halfBit = 1 ∧
    (feed DecoderState.init [976, 4294967295]).1.clockTime = 2147483647 ∧
    ¬ (2147483646 < (feed DecoderState.init [976, 4294967295]).1.clockTime / 2 ∨
        2147483646 > 3 * (feed DecoderState.init [976, 4294967295]).1.clockTime) ∧
    (((feed DecoderState.init [976, 4294967295]).1.clockTime <<< 1) % 2 ^ 32
        + (feed DecoderState.init [976, 4294967295]).1.clockTime) % 2 ^ 32 = 2147483645 ∧
    ¬ InTolerance (feed DecoderState.init [976, 4294967295]).1.clockTime 2147483646 ∧
    cresta_manchester_decoder (feed DecoderState.init [976, 4294967295]).1 2147483646
      = (reset_manchester_decoder (feed DecoderState.init [976, 4294967295]).1 2147483646,
          none) := by
  decide

/-- C31: for every byte `b`, `second_check` equals its reference definition: `b1` is
`b XOR 0x95` if the high bit of `b` is set, else `b`; `c` is `b1 XOR (b1 >> 1)`, further
XORed with 0x5F if the low bit of `b1` is set; `b2` is `b1 XOR 0x5F` if the low bit of `c`
is set, else `b1`; the result is `b2 XOR (c >> 1)`. -/
theorem C31_second_check_reference (b : Nat) (hb : b < 256) :
    second_check b = secondCheckReference b :=
  second_check_reference b hb

/-- Witness of C31: the byte 0xE0, whose high bit is set. -/
theorem C31_second_check_reference_witness :
    (0xE0 : Nat) < 256 ∧ second_check 0xE0 = secondCheckReference 0xE0 :=
  ⟨by decide, C31_second_check_reference 0xE0 (by decide)⟩

/-- C32, as stated, fails: the unscrambling transform applied twice to the byte 1 gives 5,
not 1. -/
theorem C32_counterexample :
    unscramble 1 = 3 ∧ unscramble (unscramble 1) = 5 ∧ unscramble (unscramble 1) ≠ 1 := by
  decide

/-- C32, amended: the unscrambling transform `u(b) = (b XOR (b << 1)) mod 256`, used by
the length check of the decoder and by `decrypt_and_check`, is invertible but not
self-inverse.  For every byte `b`, `u(u(b)) = (b XOR (b << 2)) mod 256`, which is `b` only
for the bytes 0, 64, 128 and 192, and eight applications of `u` give `b` back, so the
inverse of `u` is `u` applied seven times. -/
theorem C32_unscramble_order (b : Nat) (hb : b < 256) :
    unscramble b = (b ^^^ (b <<< 1)) % 256 ∧
    unscramble (unscramble b) = (b ^^^ (b <<< 2)) % 256 ∧
    (unscramble (unscramble b) = b ↔ b % 64 = 0) ∧
    unscramble (unscramble (unscramble (unscramble
      (unscramble (unscramble (unscramble (unscramble b))))))) = b :=
  ⟨rfl, (unscramble_twice b hb).1, (unscramble_twice b hb).2, unscramble_order b hb⟩

/-- Witness of C32 (amended): the length byte 0x44 of the reference frame. -/
theorem C32_unscramble_order_witness :
    (0x44 : Nat) < 256 ∧ unscramble 0x44 = 0xCC ∧
    unscramble (unscramble (unscramble (unscramble
      (unscramble (unscramble (unscramble (unscramble 0x44))))))) = 0x44 :=
  ⟨by decide, by decide, (C32_unscramble_order 0x44 (by decide)).2.2.2⟩

/-- C33: the unscrambling transform is reversible byte by byte.  It is one-to-one on the
256 byte values and every byte is the image of a byte; hence two raw packets that
`decrypt_and_check` accepts with the same derived length `L` and whose decrypted bytes
`1..L+1` coincide have the same raw bytes `1..L+1`. -/
theorem C33_unscramble_bijection :
    (∀ a b, a < 256 → b < 256 → unscramble a = unscramble b → a = b) ∧
    (∀ c, c < 256 → ∃ b, b < 256 ∧ unscramble b = c) ∧
    (∀ raw1 raw2, IsPacket raw1 → IsPacket raw2 →
      (decrypt_and_check raw1).2 = false → (decrypt_and_check raw2).2 = false →
      announcedLength (raw1.getD 2 0) = announcedLength (raw2.getD 2 0) →
      (∀ j, 1 ≤ j → j ≤ announcedLength (raw1.getD 2 0) + 1 →
        (decrypt_and_check raw1).1.getD j 0 = (decrypt_and_check raw2).1.getD j 0) →
      ∀ j, 1 ≤ j → j ≤ announcedLength (raw1.getD 2 0) + 1 →
        raw1.getD j 0 = raw2.getD j 0) := by
  refine ⟨unscramble_injective, ?_, ?_⟩
  · intro c hc
    exact ⟨unscramble (unscramble (unscramble (unscramble
      (unscramble (unscramble (unscramble c)))))), unscramble_lt _, unscramble_order c hc⟩
  · intro raw1 raw2 hp1 hp2 ha1 ha2 hL hdec j h1 hj
    obtain ⟨h6, h11, _, _⟩ := (decrypt_and_check_accepts raw1 hp1).mp ha1
    obtain ⟨_, hd1⟩ := decrypt_and_check_buffer raw1 hp1 ⟨h6, h11⟩
    obtain ⟨_, hd2⟩ := decrypt_and_check_buffer raw2 hp2 (by rw [← hL]; exact ⟨h6, h11⟩)
    have e := hdec j h1 hj
    rw [hd1 j, hd2 j, ← hL, if_pos (by omega), if_pos (by omega)] at e
    exact unscramble_injective _ _ (getD_lt_of_forall raw1 hp1.2 j)
      (getD_lt_of_forall raw2 hp2.2 j) e

/-- Witness of C33: the reference packet with another byte behind the frame is accepted
with the same length and decrypts to the same bytes 1..7, and its raw bytes 1..7 are
those of the reference packet. -/
theorem C33_unscramble_bijection_witness :
    IsPacket thermoHygroPacket ∧ IsPacket (thermoHygroPacket.set 13 9) ∧
    ∀ j, 1 ≤ j → j ≤ announcedLength (thermoHygroPacket.getD 2 0) + 1 →
      thermoHygroPacket.getD j 0 = (thermoHygroPacket.set 13 9).getD j 0 :=
  ⟨by decide, by decide,
    C33_unscramble_bijection.2.2 thermoHygroPacket (thermoHygroPacket.set 13 9) (by decide)
      (by decide) (by decide) (by decide) (by decide) (by decide)⟩

/-- C36: `second_check` never returns a byte with the high bit set: for every byte `b`,
`second_check b < 0x80`; hence `decrypt_and_check` rejects every raw packet whose
checksum-B byte, byte `L + 2`, has bit 7 set. -/
theorem C36_checksum_high_bit :
    (∀ b, b < 256 → second_check b < 0x80) ∧
    (∀ raw, IsPacket raw →
      0x80 ≤ raw.getD (announcedLength (raw.getD 2 0) + 2) 0 →
      (decrypt_and_check raw).2 = true) := by
  refine ⟨second_check_lt_128, ?_⟩
  intro raw hp h7
  cases hacc : (decrypt_and_check raw).2 with
  | true => rfl
  | false =>
    obtain ⟨_, _, _, hB⟩ := (decrypt_and_check_accepts raw hp).mp hacc
    have := checksumB_lt_128 raw hp (announcedLength (raw.getD 2 0))
    omega

/-- Witness of C36: the reference packet with bit 7 of its checksum-B byte set. -/
theorem C36_checksum_high_bit_witness :
    IsPacket (thermoHygroPacket.set 8 0xE0) ∧
    announcedLength ((thermoHygroPacket.set 8 0xE0).getD 2 0) + 2 = 8 ∧
    (decrypt_and_check (thermoHygroPacket.set 8 0xE0)).2 = true :=
  ⟨by decide, by decide,
    C36_checksum_high_bit.2 (thermoHygroPacket.set 8 0xE0) (by decide) (by decide)⟩

/-- C37: buffer bounds in the validator.  For every 14-byte raw packet, every index that
`decrypt_and_check` reads or writes lies in 0..13; whenever the derived length `L` is in
[6,11], the loop indices `1..L+1` and the checksum-B index `L + 2` are at most 13, and a
frame of `L + 3` bytes does not exceed `CRESTA_MAXDATA_LEN`. -/
theorem C37_validator_bounds (raw : List Nat) (hlen : raw.length = 14) :
    (∀ i ∈ decrypt_and_check_indices raw, i < raw.length ∧ i ≤ 13) ∧
    (6 ≤ announcedLength (raw.getD 2 0) ∧ announcedLength (raw.getD 2 0) ≤ 11 →
      (∀ i ∈ List.range' 1 (announcedLength (raw.getD 2 0) + 1), i ≤ 13) ∧
      announcedLength (raw.getD 2 0) + 2 ≤ 13 ∧
      announcedLength (raw.getD 2 0) + 3 ≤ CRESTA_MAXDATA_LEN) := by
  constructor
  · intro i hi
    rw [decrypt_and_check_indices_eq] at hi
    rw [hlen]
    rcases List.mem_append.mp hi with h | h
    · have : i = 2 := by simpa using h
      omega
    · split_ifs at h with hL h1
      · rw [List.append_nil, List.mem_flatten] at h
        obtain ⟨l, hl, hil⟩ := h
        obtain ⟨a, ha, rfl⟩ := List.mem_map.mp hl
        have hr := List.mem_range'_1.mp ha
        have : i = a := by simpa using hil
        omega
      · rcases List.mem_append.mp h with h | h
        · rw [List.mem_flatten] at h
          obtain ⟨l, hl, hil⟩ := h
          obtain ⟨a, ha, rfl⟩ := List.mem_map.mp hl
          have hr := List.mem_range'_1.mp ha
          have : i = a := by simpa using hil
          omega
        · have : i = announcedLength (raw.getD 2 0) + 2 := by simpa using h
          omega
      · exact absurd h (List.not_mem_nil i)
  · intro hL
    refine ⟨?_, by omega, by unfold CRESTA_MAXDATA_LEN; omega⟩
    intro i hi
    have hr := List.mem_range'_1.mp hi
    omega

/-- Witness of C37: the indices touched for the reference packet end with the checksum-B
index 8. -/
theorem C37_validator_bounds_witness :
    thermoHygroPacket.length = 14 ∧ 8 ∈ decrypt_and_check_indices thermoHygroPacket ∧
    ∀ i ∈ decrypt_and_check_indices thermoHygroPacket, i < thermoHygroPacket.length ∧ i ≤ 13 :=
  ⟨rfl, by decide, (C37_validator_bounds thermoHygroPacket rfl).1⟩

/-- C38: wind direction decoding is a bijection.  For every decrypted buffer of bytes,
`get_anemometer_wind_direction` returns `22.5 * k` degrees, where `k` in 0..15 is the
Gray-to-binary conversion of the high nibble of byte 11 followed by negation modulo 16,
so it depends on that nibble only; the map from the 16 nibble values to `k` is one-to-one
and onto, and the nibble 0 gives 0 degrees. -/
theorem C38_wind_direction :
    (∀ decrypted_data : List Nat, decrypted_data.getD 11 0 < 256 →
      get_anemometer_wind_direction decrypted_data
        = (22.5 : ℚ) * (windStep (decrypted_data.getD 11 0 >>> 4) : ℚ) ∧
      windStep (decrypted_data.getD 11 0 >>> 4) ≤ 15) ∧
    (∀ a b, a < 16 → b < 16 → windStep a = windStep b → a = b) ∧
    (∀ k, k < 16 → ∃ n, n < 16 ∧ windStep n = k) ∧
    (∀ decrypted_data : List Nat, decrypted_data.getD 11 0 >>> 4 = 0 →
      get_anemometer_wind_direction decrypted_data = 0) := by
  refine ⟨?_, fun a b ha hb h => windStep_injective a ha b hb h, windStep_onto, ?_⟩
  · intro data hb
    have hn : data.getD 11 0 >>> 4 < 16 := by
      rw [Nat.shiftRight_eq_div_pow]
      omega
    refine ⟨?_, ?_⟩
    · unfold get_anemometer_wind_direction
      rw [wind_direction_count_eq _ hn]
    · unfold windStep
      omega
  · intro data h0
    unfold get_anemometer_wind_direction
    rw [h0, wind_direction_count_eq 0 (by decide)]
    have e : windStep 0 = 0 := by decide
    rw [e]
    norm_num

/-- Witness of C38: the high nibble 0x3 of byte 11 (Gray code of 2) gives step 14, that is
315 degrees. -/
theorem C38_wind_direction_witness :
    ([0, 0, 0, 0, 0, 0, 0, 0, 0, 0, 0, 0x30, 0, 0] : List Nat).getD 11 0 < 256 ∧
    windStep (([0, 0, 0, 0, 0, 0, 0, 0, 0, 0, 0, 0x30, 0, 0] : List Nat).getD 11 0 >>> 4)
      = 14 ∧
    get_anemometer_wind_direction [0, 0, 0, 0, 0, 0, 0, 0, 0, 0, 0, 0x30, 0, 0]
      = (22.5 : ℚ) * (windStep
          (([0, 0, 0, 0, 0, 0, 0, 0, 0, 0, 0, 0x30, 0, 0] : List Nat).getD 11 0 >>> 4) : ℚ) :=
  ⟨by decide, by decide,
    (C38_wind_direction.1 [0, 0, 0, 0, 0, 0, 0, 0, 0, 0, 0, 0x30, 0, 0] (by decide)).1⟩

/-- C40: completion-target invariant.  In every state the decoder can reach, the
completion target is the sentinel 0xFF or equals `(packageLength + 3) * 18 - 3` with
`packageLength` in [6,11]; such a target is odd, lies in [159,249] and is not the
sentinel, and at the half-bit index equal to the target the bit write of the decoder puts
the polarity into bit 7 of byte `packageLength + 2`. -/
theorem C40_completion_target (s : DecoderState) (hs : Reachable s) :
    (s.halfBitCounter = 0xFF ∨
      (6 ≤ s.packageLength ∧ s.packageLength ≤ 11 ∧
        s.halfBitCounter = (s.packageLength + 3) * 18 - 3)) ∧
    (s.halfBitCounter ≠ 0xFF →
      s.halfBitCounter % 2 = 1 ∧ 159 ≤ s.halfBitCounter ∧ s.halfBitCounter ≤ 249 ∧
      s.halfBitCounter / 18 = s.packageLength + 2 ∧ (s.halfBitCounter / 2) % 9 = 7 ∧
      (s.halfBit = s.halfBitCounter →
        write_bit s = some { s with
          data := s.data.set (s.packageLength + 2)
            (putBit (s.data.getD (s.packageLength + 2) 0) 7 s.isOne) })) := by
  have ht := reachable_target s hs
  refine ⟨ht, ?_⟩
  intro hne
  rcases ht with hff | ⟨h6, h11, htar⟩
  · exact absurd hff hne
  · have e18 : s.halfBitCounter / 18 = s.packageLength + 2 := by omega
    have e9 : (s.halfBitCounter / 2) % 9 = 7 := by omega
    refine ⟨by omega, by omega, by omega, e18, e9, ?_⟩
    intro heq
    have e18h : s.halfBit / 18 = s.packageLength + 2 := by rw [heq]; exact e18
    have e9h : (s.halfBit / 2) % 9 = 7 := by rw [heq]; exact e9
    have h := write_bit_data s (by rw [e9h]; decide) (by rw [e18h]; omega)
    rw [e18h, e9h] at h
    exact h

/-- Witness of C40: the reference frame at clock 488 before its closing edge: the stored
length is 6, the target and the half-bit index are 159, and the bit write goes to bit 7 of
byte 8. -/
theorem C40_completion_target_witness :
    (feed DecoderState.init
      ((manchesterEdges 488 thermoHygroFrame 488).take 126)).1.packageLength = 6 ∧
    (feed DecoderState.init
      ((manchesterEdges 488 thermoHygroFrame 488).take 126)).1.halfBitCounter = 159 ∧
    (feed DecoderState.init
      ((manchesterEdges 488 thermoHygroFrame 488).take 126)).1.halfBitCounter / 18
      = (feed DecoderState.init
          ((manchesterEdges 488 thermoHygroFrame 488).take 126)).1.packageLength + 2 :=
  ⟨by decide, by decide,
    ((C40_completion_target
      (feed DecoderState.init ((manchesterEdges 488 thermoHygroFrame 488).take 126)).1
      (reachable_feed _ _ Reachable.init (by decide))).2 (by decide)).2.2.2.1⟩

/-- C34: the registry is append-only under normal operation.  For every well-formed
registry state and every decrypted packet: the sensor list after
`handle_decrypted_sensor_data` is the list before or the list before with one new sensor
put in front, so every sensor of the list before is in the list afterwards and is still
live, the sensors that were present keep their relative order, and the list grows by at
most one sensor. -/
theorem C34_append_only (k : Module) (hk : k.WF) (e : Env) (d : cresta_measurement_data) :
    ((handle_decrypted_sensor_data k e d).1.cresta_sensor_list = k.cresta_sensor_list ∨
      ∃ p, p ∉ k.cresta_sensor_list ∧
        (handle_decrypted_sensor_data k e d).1.cresta_sensor_list
          = p :: k.cresta_sensor_list) ∧
    (∀ q ∈ k.cresta_sensor_list,
      q ∈ (handle_decrypted_sensor_data k e d).1.cresta_sensor_list ∧
      ((handle_decrypted_sensor_data k e d).1.deref q).isSome = true) ∧
    k.cresta_sensor_list.Sublist (handle_decrypted_sensor_data k e d).1.cresta_sensor_list ∧
    (handle_decrypted_sensor_data k e d).1.cresta_sensor_list.length
      ≤ k.cresta_sensor_list.length + 1 := by
  have hlive : ∀ q ∈ k.cresta_sensor_list,
      ((handle_decrypted_sensor_data k e d).1.deref q).isSome = true := by
    intro q hq
    cases hdq : k.deref q with
    | none =>
      have := hk q hq
      rw [hdq] at this
      exact absurd this (by decide)
    | some dev =>
      obtain ⟨dev2, h1, _⟩ := handle_keeps_sensor k hk e d q dev hdq
      rw [h1]; rfl
  rcases handle_list k hk e d with h | ⟨_, h⟩
  · rw [h]
    exact ⟨Or.inl rfl, fun q hq => ⟨hq, hlive q hq⟩,
      List.Sublist.refl _, Nat.le_succ _⟩
  · have hnew : k.heap.length ∉ k.cresta_sensor_list := by
      intro hm
      have := WF_lt k hk _ hm
      omega
    refine ⟨Or.inr ⟨k.heap.length, hnew, h⟩, fun q hq => ⟨?_, hlive q hq⟩, ?_, ?_⟩
    · rw [h]; exact List.mem_cons_of_mem _ hq
    · rw [h]; exact List.sublist_cons_self _ _
    · rw [h]; exact Nat.le_of_eq (List.length_cons _ _)

/-- Witness of C34: a packet of the new address 0x8C reaches the registry that holds the
sensor 0x20. -/
theorem C34_append_only_witness :
    oneSensor.WF ∧ oneSensor.cresta_sensor_list = [0] ∧
    (handle_decrypted_sensor_data oneSensor (Env.ok 4)
      { thermoHygroData 4 with sensor_address := 0x8C }).1.cresta_sensor_list = [1, 0] ∧
    oneSensor.cresta_sensor_list.Sublist
      (handle_decrypted_sensor_data oneSensor (Env.ok 4)
        { thermoHygroData 4 with sensor_address := 0x8C }).1.cresta_sensor_list :=
  ⟨by decide, rfl, by decide,
    (C34_append_only oneSensor (by decide) (Env.ok 4)
      { thermoHygroData 4 with sensor_address := 0x8C }).2.2.1⟩

/-- C35: sensor state machine.  A listed sensor that has a current measurement never
returns to having none: for every well-formed registry and every sequence of
`handle_decrypted_sensor_data` and `update_cresta_sensor_data` calls, the sensor is in the
list afterwards, it is live with the same address and type, and its current measurement
is not `NULL`. -/
theorem C35_data_stays (cs : List RegistryCall) (k : Module) (hk : k.WF) (q : Nat)
    (dev : cresta_dev) (hq : q ∈ k.cresta_sensor_list) (hdev : k.deref q = some dev)
    (hd : dev.current_data.isSome = true) :
    q ∈ (runCalls k cs).cresta_sensor_list ∧
    ∃ dev2, (runCalls k cs).deref q = some dev2 ∧ dev2.current_data.isSome = true ∧
      dev2.sensor_addr = dev.sensor_addr ∧ dev2.sensor_type = dev.sensor_type := by
  induction cs generalizing k dev with
  | nil => exact ⟨hq, dev, hdev, hd, rfl, rfl⟩
  | cons c cs ih =>
    obtain ⟨hk2, hq2, dev2, hdev2, hd2, ha, ht⟩ := call_keeps_data k hk c q dev hq hdev hd
    obtain ⟨h1, dev3, h2, h3, h4, h5⟩ := ih (c.run k) hk2 dev2 hq2 hdev2 hd2
    exact ⟨h1, dev3, h2, h3, by rw [h4, ha], by rw [h5, ht]⟩

/-- Witness of C35: the sensor 0x20 holds the measurement of time 1; then a measurement is
published to it, a packet of the new address 0x8C arrives, and a packet of a third address
arrives while `kmalloc` fails. -/
theorem C35_data_stays_witness :
    (handle_decrypted_sensor_data Module.init (Env.ok 1) (thermoHygroData 1)).1.WF ∧
    (handle_decrypted_sensor_data Module.init (Env.ok 1) (thermoHygroData 1)).1.deref 0
      = some ⟨0x20, 0x1E, some (thermoHygroData 1)⟩ ∧
    0 ∈ (runCalls (handle_decrypted_sensor_data Module.init (Env.ok 1) (thermoHygroData 1)).1
      [RegistryCall.update 0 (thermoHygroData 2),
       RegistryCall.handle (Env.ok 3) { thermoHygroData 3 with sensor_address := 0x8C },
       RegistryCall.handle { Env.ok 4 with kmalloc_ok := false }
         { thermoHygroData 4 with sensor_address := 0x40 }]).cresta_sensor_list ∧
    ∃ dev2,
      (runCalls (handle_decrypted_sensor_data Module.init (Env.ok 1) (thermoHygroData 1)).1
        [RegistryCall.update 0 (thermoHygroData 2),
         RegistryCall.handle (Env.ok 3) { thermoHygroData 3 with sensor_address := 0x8C },
         RegistryCall.handle { Env.ok 4 with kmalloc_ok := false }
           { thermoHygroData 4 with sensor_address := 0x40 }]).deref 0 = some dev2 ∧
      dev2.current_data.isSome = true ∧ dev2.sensor_addr = 0x20 ∧ dev2.sensor_type = 0x1E :=
  have h := C35_data_stays
    [RegistryCall.update 0 (thermoHygroData 2),
     RegistryCall.handle (Env.ok 3) { thermoHygroData 3 with sensor_address := 0x8C },
     RegistryCall.handle { Env.ok 4 with kmalloc_ok := false }
       { thermoHygroData 4 with sensor_address := 0x40 }]
    (handle_decrypted_sensor_data Module.init (Env.ok 1) (thermoHygroData 1)).1 (by decide) 0
    ⟨0x20, 0x1E, some (thermoHygroData 1)⟩ (by decide) (by decide) rfl
  ⟨by decide, by decide, h.1, h.2⟩

/-- C39 does not hold of the code: `make_device_entry` called for two UV sensors and two
rain sensors with four different addresses creates the nodes `cresta_uv`, `cresta_uv_2`,
`cresta_rain` and again `cresta_uv_2`.  The node of the second rain sensor is formatted
from the string `"cresta_uv"`, so its name does not start with `cresta_rain` and is the
name of the second UV sensor's node. -/
theorem C39_rain_named_uv :
    (make_device_entry (make_device_entry (make_device_entry
        (make_device_entry uvAndRainSensors true 0) true 1) true 2) true 3).devices
      = [(0x8C, "cresta_uv"), (0x8D, "cresta_uv_2"), (0x90, "cresta_rain"),
          (0x91, "cresta_uv_2")] ∧
    (count_and_name ⟨0, 0, 0, 0, 0, 0, 0, 1⟩ ⟨0x91, CRESTA_SENSOR_TYPE_RAIN, none⟩).2
      = some "cresta_uv_2" ∧
    (count_and_name ⟨0, 0, 0, 0, 0, 0, 1, 0⟩ ⟨0x8D, CRESTA_SENSOR_TYPE_UV, none⟩).2
      = some "cresta_uv_2" := by
  decide

end Cresta
